import Mathlib

/-!
# BaristaCMS email-to-record ingestion pipeline: a shallow embedding

This file embeds the email ingestion pipeline of BaristaCMS
(`server/services/emailProcessor.js`, `server/services/email.js`, and the
email-inbox router) as executable Lean definitions, and proves properties
of the embedded code.

JavaScript strings are modelled as Lean `String`/`List Char`; the ASCII
fragment of `toLowerCase`, `trim` and the `\s` character class is modelled
explicitly.  Database tables are lists of rows; the mailbox, the attachment
store, the mail sender and the possibility of a failing `INSERT` are an
explicit environment (`Env`).
-/

namespace Barista

/-- ASCII model of the JavaScript `\s` class and of `String.prototype.trim`
(space, tab, newline, carriage return, vertical tab, form feed). -/
def jsWs (c : Char) : Bool :=
  c = ' ' || c = '\t' || c = '\n' || c = '\r' || c = '\x0b' || c = '\x0c'

/-- ASCII model of `String.prototype.toLowerCase` on a character. -/
def jsLower (c : Char) : Char :=
  if 65 ≤ c.toNat ∧ c.toNat ≤ 90 then Char.ofNat (c.toNat + 32) else c

/-- `toLowerCase` on a character list. -/
def lowerL (l : List Char) : List Char := l.map jsLower

/-- `toLowerCase` on a string. -/
def lowerStr (s : String) : String := ⟨lowerL s.data⟩

/-- `trim` on a character list: drop `\s` characters from both ends. -/
def trimL (l : List Char) : List Char :=
  ((l.dropWhile jsWs).reverse.dropWhile jsWs).reverse

/-- `trim` on a string. -/
def jsTrim (s : String) : String := ⟨trimL s.data⟩

/-- JavaScript `a || b` on strings (empty string is falsy). -/
def strOr (a b : String) : String := if a.isEmpty then b else a

/-- Truthiness check for an optional string: `null`/`undefined` and `""`
are falsy. -/
def optFalsy : Option String → Bool
  | none => true
  | some s => s.isEmpty

/-- JavaScript `a || b` where `a` is an optional string. -/
def jsOrOpt (a b : Option String) : Option String :=
  match a with
  | some s => if s.isEmpty then b else some s
  | none => b

/-- A single-quote character, used when assembling error messages. -/
def sq : String := ⟨[Char.ofNat 39]⟩

/-- Characters we quantify over in the universal string theorems:
lowercase ASCII letters and digits. -/
def lowerAlnum (c : Char) : Bool :=
  (97 ≤ c.toNat && c.toNat ≤ 122) || (48 ≤ c.toNat && c.toNat ≤ 57)

/-- A nonempty word of lowercase letters and digits. -/
def LWord (s : String) : Prop :=
  s.data ≠ [] ∧ ∀ c ∈ s.data, lowerAlnum c = true

instance : DecidablePred LWord := fun s => by
  unfold LWord; infer_instance

/-! ## Subject tag parser (`parseModuleTagFromSubject`, email.js) -/

/-- Split a character list at the first `]`, returning the characters
before it and the rest after it; `none` when no `]` occurs.  This is the
`[^\]]+\]` part of the regex `^\[([^\]]+)\]`, except that emptiness of the
capture is checked by the caller. -/
def splitRB : List Char → Option (List Char × List Char)
  | [] => none
  | c :: cs =>
    if c = ']' then some ([], cs)
    else
      match splitRB cs with
      | some (tag, rest) => some (c :: tag, rest)
      | none => none

/-- Result of the subject tag parser. -/
structure ParsedTag where
  moduleName : Option String
  cleanSubject : String
deriving Repr, DecidableEq

/-- `parseModuleTagFromSubject` (email.js): match `^\[([^\]]+)\]` against
the subject; on a match return the captured tag lowercased and trimmed,
and the subject with the leading `[...]` token plus following whitespace
stripped and trimmed.  Otherwise return `none` and the subject unchanged. -/
def parseModuleTagFromSubject (subject : String) : ParsedTag :=
  match subject.data with
  | '[' :: cs =>
    match splitRB cs with
    | some (tag, rest) =>
      if tag.isEmpty then ⟨none, subject⟩
      else ⟨some ⟨trimL (lowerL tag)⟩, ⟨trimL (rest.dropWhile jsWs)⟩⟩
    | none => ⟨none, subject⟩
  | _ => ⟨none, subject⟩

/-- Whether `^\[([^\]]+)\]` matches the subject. -/
def hasLeadingTagB (s : String) : Bool :=
  match s.data with
  | '[' :: cs =>
    match splitRB cs with
    | some (tag, _) => !tag.isEmpty
    | none => false
  | _ => false

/-! ## HTML-to-plain-text conversion

`htmlToPlainText` exists in two copies: one in emailProcessor.js (used by
the scheduled automatic pass) and a richer one in the email-inbox router
(used by the manual endpoints).  Each is a chain of global regex
replacements; each replacement is embedded as a left-to-right scanner with
the same leftmost, non-overlapping semantics. -/

/-- Case-insensitive character comparison (the regexes carry the `i` flag). -/
def ciEq (a b : Char) : Bool := jsLower a == jsLower b

/-- Does the pattern match case-insensitively at the head of the list? -/
def matchesCI : List Char → List Char → Bool
  | [], _ => true
  | _ :: _, [] => false
  | p :: ps, c :: cs => ciEq p c && matchesCI ps cs

theorem length_dropWhile_le (p : Char → Bool) (l : List Char) :
    (l.dropWhile p).length ≤ l.length := by
  induction l with
  | nil => simp [List.dropWhile]
  | cons c cs ih =>
    simp only [List.dropWhile]
    cases p c <;> simp <;> omega

/-- Global replacement of a fixed pattern `p0 :: pr` (matched
case-insensitively) by `repl`, scanning left to right. -/
def passFix (p0 : Char) (pr repl : List Char) : List Char → List Char
  | [] => []
  | c :: cs =>
    if ciEq p0 c && matchesCI pr cs then
      repl ++ passFix p0 pr repl (cs.drop pr.length)
    else c :: passFix p0 pr repl cs
termination_by l => l.length
decreasing_by
  · simp [List.length_drop]; omega
  · simp

/-- The optional slash and the `>` closing a `<br\s*\/?>` tag. -/
def brClose : List Char → Option (List Char)
  | '/' :: '>' :: rest => some rest
  | '>' :: rest => some rest
  | _ => none

theorem brClose_le {l rest : List Char} (h : brClose l = some rest) :
    rest.length ≤ l.length := by
  unfold brClose at h
  split at h <;> simp_all <;> omega

/-- Matcher for the tail of `<br\s*\/?>` (the part after `<`): `br`, then
whitespace, then an optional `/`, then `>`; returns the rest of the input. -/
def brRest (cs : List Char) : Option (List Char) :=
  match cs with
  | b :: r :: cs2 =>
    if ciEq 'b' b && ciEq 'r' r then brClose (cs2.dropWhile jsWs) else none
  | _ => none

theorem brRest_le {cs rest : List Char} (h : brRest cs = some rest) :
    rest.length ≤ cs.length := by
  unfold brRest at h
  split at h
  case _ b r cs2 =>
    split at h
    · have h1 := brClose_le h
      have h2 := length_dropWhile_le jsWs cs2
      simp only [List.length_cons]
      omega
    · simp at h
  case _ => simp at h

/-- Matcher for `\/h[1-6]>` (the tail of a heading close after `<`). -/
def hRest : List Char → Option (List Char)
  | '/' :: hh :: cs2 =>
    if ciEq 'h' hh then
      match cs2 with
      | d :: '>' :: rest => if '1' ≤ d ∧ d ≤ '6' then some rest else none
      | _ => none
    else none
  | _ => none

theorem hRest_le {cs rest : List Char} (h : hRest cs = some rest) :
    rest.length ≤ cs.length := by
  unfold hRest at h
  split at h
  case _ hh cs2 =>
    split at h
    · split at h
      · split at h
        · simp at h; subst h; simp; omega
        · simp at h
      · simp at h
    · simp at h
  case _ => simp at h

/-- Skip `[^>]*` and the following `>`: the rest of the input after the
first `>`, or `none` when no `>` occurs. -/
def afterGt : List Char → Option (List Char)
  | [] => none
  | c :: cs => if c = '>' then some cs else afterGt cs

theorem afterGt_le {l rest : List Char} (h : afterGt l = some rest) :
    rest.length ≤ l.length := by
  induction l with
  | nil => simp [afterGt] at h
  | cons c cs ih =>
    simp only [afterGt] at h
    split at h
    · simp at h; subst h; simp
    · exact le_trans (ih h) (by simp)

/-- Rest of the input after the earliest case-insensitive occurrence of
`'<' :: close` (the lazy `[\s\S]*?<\/style>` part). -/
def afterCI (close : List Char) : List Char → Option (List Char)
  | [] => none
  | c :: cs =>
    if c = '<' && matchesCI close cs then some (cs.drop close.length)
    else afterCI close cs

theorem afterCI_le {close l rest : List Char} (h : afterCI close l = some rest) :
    rest.length ≤ l.length := by
  induction l with
  | nil => simp [afterCI] at h
  | cons c cs ih =>
    unfold afterCI at h
    split at h
    · simp at h; subst h
      calc (cs.drop close.length).length ≤ cs.length := by simp
        _ ≤ (c :: cs).length := by simp
    · exact le_trans (ih h) (by simp)

/-- Matcher for the tail of `<style[^>]*>[\s\S]*?<\/style>` after the `<`:
the tag name, anything up to the first `>`, then lazily up to the closing
tag. -/
def blockRest (name close : List Char) (cs : List Char) : Option (List Char) :=
  if matchesCI name cs then
    match afterGt (cs.drop name.length) with
    | some l2 => afterCI close l2
    | none => none
  else none

theorem blockRest_le {name close cs rest : List Char}
    (h : blockRest name close cs = some rest) : rest.length ≤ cs.length := by
  unfold blockRest at h
  split at h
  · revert h
    match hg : afterGt (cs.drop name.length) with
    | some l2 =>
      intro h
      have h1 : l2.length ≤ (cs.drop name.length).length := afterGt_le hg
      have h2 : (cs.drop name.length).length ≤ cs.length := by simp
      exact le_trans (afterCI_le h) (le_trans h1 h2)
    | none => intro h; simp at h
  · simp at h

/-- Matcher for the tail of `<[^>]+>` after the `<`: at least one
non-`>` character, then `>`. -/
def tagRest : List Char → Option (List Char)
  | [] => none
  | c :: cs => if c = '>' then none else afterGt (c :: cs)

theorem tagRest_le {cs rest : List Char} (h : tagRest cs = some rest) :
    rest.length ≤ cs.length := by
  cases cs with
  | nil => simp [tagRest] at h
  | cons c cs' =>
    simp only [tagRest] at h
    split at h
    · simp at h
    · exact afterGt_le h

/-- Replacement of `<br\s*\/?>` by a newline. -/
def passBr : List Char → List Char
  | [] => []
  | c :: cs =>
    if c = '<' then
      if h : (brRest cs).isSome then '\n' :: passBr ((brRest cs).get h)
      else c :: passBr cs
    else c :: passBr cs
termination_by l => l.length
decreasing_by
  · exact Nat.lt_succ_of_le (brRest_le (Option.eq_some_of_isSome h))
  · simp
  · simp

/-- Replacement of `<\/h[1-6]>` by two newlines. -/
def passHeading : List Char → List Char
  | [] => []
  | c :: cs =>
    if c = '<' then
      if h : (hRest cs).isSome then
        '\n' :: '\n' :: passHeading ((hRest cs).get h)
      else c :: passHeading cs
    else c :: passHeading cs
termination_by l => l.length
decreasing_by
  · exact Nat.lt_succ_of_le (hRest_le (Option.eq_some_of_isSome h))
  · simp
  · simp

/-- Removal of a `<style …>…</style>` or `<script …>…</script>` block,
content included. -/
def passBlock (name close : List Char) : List Char → List Char
  | [] => []
  | c :: cs =>
    if c = '<' then
      if h : (blockRest name close cs).isSome then
        passBlock name close ((blockRest name close cs).get h)
      else c :: passBlock name close cs
    else c :: passBlock name close cs
termination_by l => l.length
decreasing_by
  · exact Nat.lt_succ_of_le (blockRest_le (Option.eq_some_of_isSome h))
  · simp
  · simp

/-- Removal of every remaining tag `<[^>]+>`. -/
def passTags : List Char → List Char
  | [] => []
  | c :: cs =>
    if c = '<' then
      if h : (tagRest cs).isSome then passTags ((tagRest cs).get h)
      else c :: passTags cs
    else c :: passTags cs
termination_by l => l.length
decreasing_by
  · exact Nat.lt_succ_of_le (tagRest_le (Option.eq_some_of_isSome h))
  · simp
  · simp

/-- The `[ \t]` character class. -/
def spaceTab (c : Char) : Bool := c = ' ' || c = '\t'

/-- Whether the head character is a space or a tab. -/
def headSpaceTab : List Char → Bool
  | c :: _ => spaceTab c
  | [] => false

/-- Replacement of `[ \t]+` by a single space. -/
def passSpaces : List Char → List Char
  | [] => []
  | c :: cs =>
    if spaceTab c then ' ' :: passSpaces (cs.dropWhile spaceTab)
    else c :: passSpaces cs
termination_by l => l.length
decreasing_by
  · exact Nat.lt_succ_of_le (length_dropWhile_le _ _)
  · simp

/-- Replacement of `\n[ \t]+` by a newline. -/
def passNlSpace : List Char → List Char
  | [] => []
  | c :: cs =>
    if c = '\n' && headSpaceTab cs then '\n' :: passNlSpace (cs.dropWhile spaceTab)
    else c :: passNlSpace cs
termination_by l => l.length
decreasing_by
  · exact Nat.lt_succ_of_le (length_dropWhile_le _ _)
  · simp

/-- The run of spaces/tabs in `cs`, continued by a newline: the rest
after that newline, or `none`. -/
def spNlRest (cs : List Char) : Option (List Char) :=
  match cs.dropWhile spaceTab with
  | '\n' :: rest => some rest
  | _ => none

theorem spNlRest_le {cs rest : List Char} (h : spNlRest cs = some rest) :
    rest.length ≤ cs.length := by
  unfold spNlRest at h
  have := length_dropWhile_le spaceTab cs
  split at h <;> simp_all
  omega

/-- Replacement of `[ \t]+\n` by a newline. -/
def passSpaceNl : List Char → List Char
  | [] => []
  | c :: cs =>
    if spaceTab c then
      if h : (spNlRest cs).isSome then '\n' :: passSpaceNl ((spNlRest cs).get h)
      else c :: passSpaceNl cs
    else c :: passSpaceNl cs
termination_by l => l.length
decreasing_by
  · exact Nat.lt_succ_of_le (spNlRest_le (Option.eq_some_of_isSome h))
  · simp
  · simp

/-- The `\n` character class. -/
def isNl (c : Char) : Bool := c = '\n'

/-- Replacement of `\n{3,}` by exactly two newlines. -/
def passNl3 : List Char → List Char
  | [] => []
  | c :: cs =>
    if c = '\n' then
      (if 3 ≤ 1 + (cs.takeWhile isNl).length then ['\n', '\n']
       else List.replicate (1 + (cs.takeWhile isNl).length) '\n')
        ++ passNl3 (cs.dropWhile isNl)
    else c :: passNl3 cs
termination_by l => l.length
decreasing_by
  · exact Nat.lt_succ_of_le (length_dropWhile_le _ _)
  · simp

/-- The tag-replacement stage of emailProcessor.js's `htmlToPlainText`
(lines 77–82): `<br>`, `</p>`, `</div>` to newlines, style and script
blocks removed, remaining tags stripped. -/
def tagPassesAuto (l : List Char) : List Char :=
  passTags
    (passBlock "script".data "/script>".data
      (passBlock "style".data "/style>".data
        (passFix '<' "/div>".data "\n".data
          (passFix '<' "/p>".data "\n\n".data
            (passBr l)))))

/-- The entity-decoding stage shared by both conversions (`&nbsp;`,
`&amp;`, `&lt;`, `&gt;`, `&quot;`, in that order). -/
def entityPassesAuto (l : List Char) : List Char :=
  passFix '&' "quot;".data "\x22".data
    (passFix '&' "gt;".data ">".data
      (passFix '&' "lt;".data "<".data
        (passFix '&' "amp;".data "&".data
          (passFix '&' "nbsp;".data " ".data l))))

/-- `htmlToPlainText` as defined in emailProcessor.js and used by the
scheduled automatic pass: the tag replacements, the five entities, runs
of three or more newlines collapsed to two, and the result trimmed. -/
def htmlToPlainTextAuto (html : String) : String :=
  if html.isEmpty then "" else
  ⟨trimL (passNl3 (entityPassesAuto (tagPassesAuto html.data)))⟩

/-- The tag-replacement stage of the router's `htmlToPlainText`
(lines 630–642): additionally `</li>`, `</tr>` to one newline and
`</h1>`…`</h6>` to two, in source order. -/
def tagPassesManual (l : List Char) : List Char :=
  passTags
    (passBlock "script".data "/script>".data
      (passBlock "style".data "/style>".data
        (passHeading
          (passFix '<' "/tr>".data "\n".data
            (passFix '<' "/li>".data "\n".data
              (passFix '<' "/div>".data "\n".data
                (passFix '<' "/p>".data "\n\n".data
                  (passBr l))))))))

/-- The entity-decoding stage of the router's `htmlToPlainText`: the
shared five entities plus `&#39;` and `&apos;`. -/
def entityPassesManual (l : List Char) : List Char :=
  passFix '&' "apos;".data sq.data
    (passFix '&' "#39;".data sq.data
      (entityPassesAuto l))

/-- The whitespace-cleanup stage of the router's `htmlToPlainText`
(lines 654–656): space/tab runs to one space, then leading and trailing
spaces of every line removed. -/
def wsPassesManual (l : List Char) : List Char :=
  passSpaceNl (passNlSpace (passSpaces l))

/-- `htmlToPlainText` as defined in the email-inbox router and used by
the manual endpoints. -/
def htmlToPlainTextManual (html : String) : String :=
  if html.isEmpty then "" else
  ⟨trimL (passNl3 (wsPassesManual (entityPassesManual (tagPassesManual html.data))))⟩

/-! ## Link extraction

Both link extractors scan the HTML with the regex
`/<a\s+[^>]*href=["']([^"']+)["'][^>]*>([^<]*)<\/a>/gi` and then filter and
deduplicate the candidates.  The scanner below takes the first `href=`
whose value is quoted where the regex's greedy `[^>]*` would take the last
one inside the tag; on anchors carrying a single `href` attribute the two
agree. -/

/-- `substring(0, n)`. -/
def takeStr (s : String) (n : Nat) : String := ⟨s.data.take n⟩

/-- `String.prototype.startsWith` as a prefix test on the character
lists. -/
def startsWithL (s p : String) : Bool := List.isPrefixOf p.data s.data

/-- Does `needle` occur as a contiguous substring (`String.includes`)? -/
def hasSub (needle : List Char) : List Char → Bool
  | [] => needle.isEmpty
  | c :: cs => List.isPrefixOf needle (c :: cs) || hasSub needle cs

/-- `hay.includes(needle)` on strings. -/
def containsStr (hay needle : String) : Bool := hasSub needle.data hay.data

/-- An `href` value and anchor text pair produced by the anchor regex. -/
structure RawAnchor where
  url : List Char
  text : List Char
deriving Repr, DecidableEq

/-- A quote character, `"` or `'`. -/
def quoteCh (c : Char) : Bool := c = '\x22' || c = '\x27'

/-- Scan for `href=` (case-insensitively) among the characters before the
first `>`, returning the characters after the opening quote. -/
def findHref : List Char → Option (List Char)
  | [] => none
  | c :: cs =>
    if c = '>' then none
    else if matchesCI "href=".data (c :: cs) then
      match cs.drop 4 with
      | q :: rest => if quoteCh q then some rest else findHref cs
      | [] => none
    else findHref cs

/-- Read `([^"']+)["']`: the quoted url and the rest after the closing
quote. -/
def takeUrl (l : List Char) : Option (List Char × List Char) :=
  let url := l.takeWhile (fun c => !quoteCh c)
  if url.isEmpty then none
  else
    match l.drop url.length with
    | _ :: rest => some (url, rest)
    | [] => none

/-- Try to complete an anchor match; `cs` holds the characters after the
literal `<a`.  Requires at least one whitespace character, then the `href`
value, the end of the opening tag, the anchor text (`[^<]*`) and the
literal `</a>`.  Returns the match's captures and the rest of the input. -/
def tryAnchor (cs : List Char) : Option (RawAnchor × List Char) :=
  match cs with
  | c :: cs1 =>
    if jsWs c then
      match findHref cs1 with
      | some afterQ =>
        match takeUrl afterQ with
        | some (url, afterUrl) =>
          match afterGt afterUrl with
          | some afterTag =>
            let text := afterTag.takeWhile (fun c => !(c = '<'))
            let rest := afterTag.drop text.length
            if matchesCI "</a>".data rest then some (⟨url, text⟩, rest.drop 4)
            else none
          | none => none
        | none => none
      | none => none
    else none
  | [] => none

/-- Fuelled anchor scan; the fuel is the input length, each step consumes
at least one character. -/
def scanA : Nat → List Char → List RawAnchor
  | 0, _ => []
  | _, [] => []
  | fuel + 1, c :: cs =>
    if c = '<' then
      match cs with
      | a :: cs1 =>
        if ciEq 'a' a then
          match tryAnchor cs1 with
          | some (anchor, rest) => anchor :: scanA fuel rest
          | none => scanA fuel cs
        else scanA fuel cs
      | [] => []
    else scanA fuel cs

/-- All anchor matches of the regex in document order. -/
def scanAnchors (l : List Char) : List RawAnchor := scanA (l.length + 1) l

/-- An extracted link. -/
structure Link where
  url : String
  title : String
deriving Repr, DecidableEq

/-- The scheme/fragment exclusions shared by both extractors:
`mailto:`, `tel:`, `javascript:`, `data:` and `#…`. -/
def badSchemeB (url : String) : Bool :=
  startsWithL url "mailto:" || startsWithL url "tel:" ||
  startsWithL url "javascript:" || startsWithL url "data:" || startsWithL url "#"

/-- The filter/dedup loop of `extractLinksFromHtml` in emailProcessor.js:
skips bad schemes and urls containing `unsubscribe` or `tracking`, uses
the anchor text or the first 50 url characters as title, deduplicates by
url and drops urls longer than 2000 characters. -/
def buildLinksAuto : List RawAnchor → List Link → List Link
  | [], acc => acc
  | a :: rest, acc =>
    let url : String := ⟨a.url⟩
    let text := jsTrim ⟨a.text⟩
    if badSchemeB url then buildLinksAuto rest acc
    else
      let lowerUrl := lowerStr url
      if containsStr lowerUrl "unsubscribe" || containsStr lowerUrl "tracking" then
        buildLinksAuto rest acc
      else
        let title := strOr text (takeStr url 50)
        if !(acc.any (fun l => l.url == url)) && url.length ≤ 2000 then
          buildLinksAuto rest (acc ++ [⟨url, takeStr title 255⟩])
        else buildLinksAuto rest acc

/-- Helper for `hostOf`: find the pattern, then take the host part after
it, up to the first `/`, `?`, `#` or `:`. -/
def hostOfGo (pat : List Char) : List Char → Option String
  | [] => none
  | c :: cs =>
    if List.isPrefixOf pat (c :: cs) then
      some ⟨lowerL (((c :: cs).drop pat.length).takeWhile
        (fun d => !(d = '/' || d = '?' || d = '#' || d = ':')))⟩
    else hostOfGo pat cs

/-- Model of `new URL(url).hostname` (WHATWG URL parsing, simplified to
the scheme-and-authority shape relevant here): the characters after
`://` up to the first `/`, `?`, `#` or `:`, lowercased; `none` when the
url has no `://`, modelling the thrown TypeError. -/
def hostOf (url : String) : Option String := hostOfGo "://".data url.data

/-- The filter/dedup loop of `extractLinksFromHtml` in the email-inbox
router: additionally skips urls containing `click.` or `emailtracking`,
falls back to the url's hostname for an empty anchor text, and applies no
length bound. -/
def buildLinksManual : List RawAnchor → List Link → List Link
  | [], acc => acc
  | a :: rest, acc =>
    let url : String := ⟨a.url⟩
    let text := jsTrim ⟨a.text⟩
    if badSchemeB url then buildLinksManual rest acc
    else
      let lowerUrl := lowerStr url
      if containsStr lowerUrl "unsubscribe" || containsStr lowerUrl "tracking" ||
          containsStr lowerUrl "click." || containsStr lowerUrl "emailtracking" then
        buildLinksManual rest acc
      else
        let title :=
          if text.isEmpty then
            match hostOf url with
            | some h => h
            | none => takeStr url 50
          else text
        if !(acc.any (fun l => l.url == url)) then
          buildLinksManual rest (acc ++ [⟨url, takeStr title 255⟩])
        else buildLinksManual rest acc

/-- `extractLinksFromHtml` (emailProcessor.js), used by the scheduled
automatic pass. -/
def extractLinksAuto (html : String) : List Link :=
  if html.isEmpty then [] else buildLinksAuto (scanAnchors html.data) []

/-- `extractLinksFromHtml` (email-inbox router), used by the manual
endpoints. -/
def extractLinksManual (html : String) : List Link :=
  if html.isEmpty then [] else buildLinksManual (scanAnchors html.data) []

/-! ## Data model

The relational tables touched by the pipeline, as lists of rows, plus the
mailbox-side effects (messages marked read, auto-responses dispatched). -/

/-- An inbound message as shaped by `fetchInboxEmails` (email.js): every
field is defaulted to a string there, so none is optional here. -/
structure Email where
  id : String
  subject : String
  fromAddress : String
  fromName : String
  receivedAt : String
  bodyPreview : String
  body : String
  hasAttachments : Bool
deriving Repr, DecidableEq

/-- The module-config projection read by the pipeline
(`JSON.parse(module.config)`). -/
structure ModuleConfig where
  enableEmailInbox : Bool
  autoProcessEmails : Bool
deriving Repr, DecidableEq

/-- A row of the `modules` table.  `config = none` models a config column
whose JSON fails to parse; a NULL column is `some ⟨false, false⟩` (the
code substitutes `{}`). -/
structure ModuleRow where
  id : Nat
  name : String
  displayName : String
  isActive : Bool
  config : Option ModuleConfig
deriving Repr, DecidableEq

/-- `processed_emails.status`. -/
inductive LedgerStatus
  | processed
  | skipped
  | error
deriving Repr, DecidableEq

/-- A row of the `processed_emails` ledger. -/
structure LedgerRow where
  emailId : String
  moduleId : Option Nat
  recordId : Option Nat
  fromAddress : String
  fromName : String
  subject : String
  bodyPreview : String
  receivedAt : Option String
  status : LedgerStatus
  errorMessage : Option String
deriving Repr, DecidableEq

/-- A row of `module_records` as created by the pipeline; the `data` JSON
bag is inlined as its five fields. -/
structure RecordRow where
  id : Nat
  moduleId : Nat
  name : String
  status : String
  description : String
  emailFrom : String
  emailFromName : String
  emailSubject : String
  emailReceivedAt : String
  createdBy : String
  updatedBy : String
deriving Repr, DecidableEq

/-- A row of `record_history`. -/
structure HistoryRow where
  recordId : Nat
  moduleId : Nat
  action : String
  description : String
  changedBy : String
  userEmail : String
deriving Repr, DecidableEq

/-- A row of `record_links`. -/
structure LinkRow where
  recordId : Nat
  moduleId : Nat
  url : String
  title : String
  description : String
deriving Repr, DecidableEq

/-- A row of `record_images`. -/
structure ImageRow where
  recordId : Nat
  moduleId : Nat
  imagePath : String
  createdBy : String
deriving Repr, DecidableEq

/-- A row of `record_documents`. -/
structure DocRow where
  recordId : Nat
  moduleId : Nat
  filePath : String
  fileName : String
  fileType : String
  fileSize : Nat
  createdBy : String
deriving Repr, DecidableEq

/-- Database tables plus mailbox-side effects.  `nextRecordId` models the
auto-increment id returned by the `module_records` insert. -/
structure St where
  ledger : List LedgerRow
  records : List RecordRow
  history : List HistoryRow
  links : List LinkRow
  images : List ImageRow
  documents : List DocRow
  markedRead : List String
  autoResponses : List String
  nextRecordId : Nat
deriving Repr, DecidableEq

/-- Attachment metadata as returned by `getEmailAttachments`, plus a
`downloadOk` oracle for whether `downloadAttachment` succeeds. -/
structure Attachment where
  id : String
  name : String
  contentType : String
  size : Nat
  isInline : Bool
  downloadOk : Bool
deriving Repr, DecidableEq

/-- The collaborators around one processing pass: the module table
snapshot, the mailbox, the attachment store, and the failure oracles.
`recordInsertFails` models the one persistence failure the spec singles
out, a throwing `INSERT INTO module_records` for a given message;
`genName` models `generateUniqueFilename`'s random suffix. -/
structure Env where
  modules : List ModuleRow
  modulesQueryFails : Bool
  fetchResult : Option (List Email)
  uploadsDirSet : Bool
  attachFetchOk : String → Bool
  attachments : String → List Attachment
  recordInsertFails : String → Bool
  autoRespondOk : String → Bool
  genName : String → String
  debugSetting : Bool

/-- `SELECT id FROM processed_emails WHERE email_id = ?` as a membership
test. -/
def ledgerHas (st : St) (id : String) : Bool :=
  st.ledger.any (fun r => r.emailId == id)

/-- `isImageContentType` (email.js): a truthy content type starting with
`image/`. -/
def isImageContentType (ct : String) : Bool :=
  !ct.isEmpty && startsWithL ct "image/"

/-- Model of `toMySQLDatetime`: `null` for a falsy input, otherwise the
formatted timestamp (the formatting itself is runtime date arithmetic,
kept abstract as the identity on the ISO string). -/
def toMySQLDatetime (iso : String) : Option String :=
  if iso.isEmpty then none else some iso

/-- One attachment-saving step: skip failed downloads, save images to the
image table and other files to the document table, counting each kind. -/
def attStep (env : Env) (recordId moduleId : Nat) (userEmail : String)
    (acc : St × Nat × Nat) (att : Attachment) : St × Nat × Nat :=
  let (s, imgs, docs) := acc
  if !att.downloadOk then (s, imgs, docs)
  else if isImageContentType att.contentType then
    ({s with images := s.images ++
        [⟨recordId, moduleId,
          "/uploads/images/" ++ env.genName att.name, userEmail⟩]},
      imgs + 1, docs)
  else
    ({s with documents := s.documents ++
        [⟨recordId, moduleId,
          "/uploads/documents/" ++ env.genName att.name,
          att.name, att.contentType, att.size, userEmail⟩]},
      imgs, docs + 1)

/-- The body of `saveAttachments`/`saveEmailAttachments` (identical in
both copies): list the attachments, and for each one that downloads,
classify it by content type and insert a `record_images` or
`record_documents` row.  Returns the updated state and the image and
document counts. -/
def saveAttachmentsFold (env : Env) (emailId : String) (recordId moduleId : Nat)
    (userEmail : String) (st : St) : St × Nat × Nat :=
  if !env.attachFetchOk emailId || (env.attachments emailId).isEmpty then (st, 0, 0)
  else
    (env.attachments emailId).foldl
      (attStep env recordId moduleId userEmail) (st, 0, 0)

/-- The history description used by all three passes: the base text, plus
`N image(s) and M document(s)` when the attachment total is positive and
`K link(s)` when links were saved, joined by a comma. -/
def historyDescription (base : String) (imgs docs lks : Nat) : String :=
  let parts : List String :=
    (if 0 < imgs + docs then
      [toString imgs ++ " image(s) and " ++ toString docs ++ " document(s)"]
     else []) ++
    (if 0 < lks then [toString lks ++ " link(s)"] else [])
  if 0 < parts.length then base ++ " with " ++ String.intercalate ", " parts
  else base

/-- The record-creation tail shared by the three passes: insert the
`module_records` row, the `processed` ledger row, the attachment rows, the
link rows, the `created` history entry, optionally the auto-response and
its `email_sent` entry, and mark the message read.  `savedLinks` are the
link rows the caller's save loop inserts (the bulk and single routes
filter over-long urls and re-clamp titles first); `historyBase` and
`historyUser` differ per caller. -/
def createRecordTail (env : Env) (e : Email) (m : ModuleRow)
    (cleanSubject : String) (plainText : String) (savedLinks : List Link)
    (historyBase historyUser : String) (st : St) : St :=
  let rid := st.nextRecordId
  let newRec : RecordRow :=
    ⟨rid, m.id, strOr cleanSubject "Email", "active", plainText,
      e.fromAddress, e.fromName, cleanSubject, e.receivedAt,
      e.fromAddress, e.fromAddress⟩
  let row : LedgerRow :=
    ⟨e.id, some m.id, some rid, e.fromAddress, e.fromName, e.subject,
      e.bodyPreview, toMySQLDatetime e.receivedAt, .processed, none⟩
  let st := {st with records := st.records ++ [newRec], nextRecordId := rid + 1,
                     ledger := st.ledger ++ [row]}
  let (st, imgs, docs) :=
    if env.uploadsDirSet then
      saveAttachmentsFold env e.id rid m.id e.fromAddress st
    else (st, 0, 0)
  let linkRows : List LinkRow :=
    savedLinks.map (fun l => ⟨rid, m.id, l.url, l.title, "Extracted from email"⟩)
  let st := {st with links := st.links ++ linkRows}
  let desc := historyDescription historyBase imgs docs savedLinks.length
  let createdRow : HistoryRow := ⟨rid, m.id, "created", desc, historyUser, historyUser⟩
  let st := {st with history := st.history ++ [createdRow]}
  let sentRow : HistoryRow :=
    ⟨rid, m.id, "email_sent", "Auto-response email sent to " ++ e.fromAddress,
      "system", "system"⟩
  let st :=
    if env.autoRespondOk e.id then
      {st with autoResponses := st.autoResponses ++ [e.fromAddress],
               history := st.history ++ [sentRow]}
    else st
  {st with markedRead := st.markedRead ++ [e.id]}

/-! ## The scheduled automatic pass (`processEmails`, emailProcessor.js) -/

/-- The links the scheduled pass saves for a message: every extracted
link (`saveLinks` inserts them as they come; the 2000-character bound is
already inside the extractor there). -/
def savedLinksAuto (body : String) : List Link := extractLinksAuto body

/-- The links the manual routes save for a message (`saveEmailLinks`):
urls longer than 2000 characters are skipped, titles re-clamped to 255
characters. -/
def savedLinksManual (body : String) : List Link :=
  ((extractLinksManual body).filter (fun l => l.url.length ≤ 2000)).map
    (fun l => ⟨l.url, takeStr l.title 255⟩)

/-- The candidate-module prefilter of the scheduled pass: the active
modules whose parsed config has both `enableEmailInbox` and
`autoProcessEmails` truthy (a config that fails to parse excludes the
module). -/
def autoProcessFilter (mods : List ModuleRow) : List ModuleRow :=
  mods.filter (fun m =>
    match m.config with
    | some c => c.enableEmailInbox && c.autoProcessEmails
    | none => false)

/-- The per-message body of the scheduled pass's loop: dedup check, tag
parse, prefiltered module match, then record creation; each early exit
leaves the state untouched (`continue`), and a throwing record insert is
caught by the per-message `try`/`catch`. -/
def autoStep (env : Env) (autoMods : List ModuleRow) (st : St) (e : Email) : St :=
  if ledgerHas st e.id then st
  else
    let p := parseModuleTagFromSubject e.subject
    if optFalsy p.moduleName then st
    else
      let tag := p.moduleName.getD ""
      match autoMods.find? (fun m => lowerStr m.name == lowerStr tag) with
      | none => st
      | some m =>
        if env.recordInsertFails e.id then st
        else
          createRecordTail env e m p.cleanSubject
            (htmlToPlainTextAuto (strOr e.body e.bodyPreview))
            (savedLinksAuto e.body)
            "Record created from email (auto)" e.fromAddress st

/-- The module-level scheduler state: the in-flight guard and the debug
flag reloaded at the start of every pass. -/
structure ProcState where
  isProcessing : Bool
  debugLogging : Bool
deriving Repr, DecidableEq

/-- The observable outcome of one invocation of `processEmails`:
the scheduler state, the store state, and whether `fetchInboxEmails`
was called. -/
structure PassOutcome where
  proc : ProcState
  st : St
  fetched : Bool
deriving Repr, DecidableEq

/-- `processEmails` (emailProcessor.js): reload the debug setting, skip
when a pass is in flight, query and prefilter the modules, fetch unread
mail, run the per-message loop; every exit of a running pass clears the
in-flight flag (the early returns set it, the `finally` clears it again,
and a thrown module query lands in the `catch`/`finally`). -/
def processEmails (env : Env) (proc : ProcState) (st : St) : PassOutcome :=
  let proc := {proc with debugLogging := env.debugSetting}
  if proc.isProcessing then ⟨proc, st, false⟩
  else if env.modulesQueryFails then ⟨{proc with isProcessing := false}, st, false⟩
  else
    let autoMods := autoProcessFilter (env.modules.filter (fun m => m.isActive))
    if autoMods.isEmpty then ⟨{proc with isProcessing := false}, st, false⟩
    else
      match env.fetchResult with
      | none => ⟨{proc with isProcessing := false}, st, true⟩
      | some emails =>
        ⟨{proc with isProcessing := false}, emails.foldl (autoStep env autoMods) st, true⟩

/-! ## The manual bulk pass (`POST /api/email-inbox/process`) -/

/-- The response summary of the bulk route, plus whether an exception
escaped to the route's `catch` (HTTP 500, remaining messages
unprocessed). -/
structure BulkOutcome where
  st : St
  processed : List String
  skipped : List (String × String)
  errors : List (String × String)
  failed : Bool
deriving Repr, DecidableEq

/-- Append a ledger row. -/
def addLedger (st : St) (row : LedgerRow) : St :=
  {st with ledger := st.ledger ++ [row]}

/-- The skipped-row written for a message with no subject tag. -/
def noTagRow (e : Email) : LedgerRow :=
  ⟨e.id, none, none, e.fromAddress, e.fromName, e.subject, e.bodyPreview,
    toMySQLDatetime e.receivedAt, .skipped, some "No module tag in subject"⟩

/-- The error row written when the tag matches no active module. -/
def noModuleRow (e : Email) (tag : String) : LedgerRow :=
  ⟨e.id, none, none, e.fromAddress, e.fromName, e.subject, e.bodyPreview,
    toMySQLDatetime e.receivedAt, .error,
    some ("Module " ++ sq ++ tag ++ sq ++ " not found")⟩

/-- The skipped-row written when the module's config does not enable the
email inbox. -/
def notEnabledRow (e : Email) (moduleId : Nat) : LedgerRow :=
  ⟨e.id, some moduleId, none, e.fromAddress, e.fromName, e.subject,
    e.bodyPreview, toMySQLDatetime e.receivedAt, .skipped,
    some "Email inbox not enabled for module"⟩

/-- `SELECT … FROM modules WHERE LOWER(name) = LOWER(?) AND is_active = 1`. -/
def findModule (mods : List ModuleRow) (tag : String) : Option ModuleRow :=
  (mods.filter (fun m => m.isActive)).find?
    (fun m => lowerStr m.name == lowerStr tag)

/-- The loop of the bulk route: per message, dedup check, tag parse
(writing a skipped row), case-insensitive active-module lookup (writing
an error row), `enableEmailInbox` check (writing a skipped row), then
record creation.  The loop is inside one `try`: a throwing record insert
aborts the whole route (`failed`), leaving earlier messages' effects in
place and later messages untouched. -/
def runBulk (env : Env) (st : St) : List Email → BulkOutcome
  | [] => ⟨st, [], [], [], false⟩
  | e :: rest =>
    if ledgerHas st e.id then
      let o := runBulk env st rest
      {o with skipped := (e.id, "Already processed") :: o.skipped}
    else
      let p := parseModuleTagFromSubject e.subject
      if optFalsy p.moduleName then
        let o := runBulk env (addLedger st (noTagRow e)) rest
        {o with skipped := (e.id, "No module tag in subject") :: o.skipped}
      else
        let tag := p.moduleName.getD ""
        match findModule env.modules tag with
        | none =>
          let o := runBulk env (addLedger st (noModuleRow e tag)) rest
          {o with errors :=
            (e.id, "Module " ++ sq ++ tag ++ sq ++ " not found") :: o.errors}
        | some m =>
          let config := m.config.getD ⟨false, false⟩
          if !config.enableEmailInbox then
            let o := runBulk env (addLedger st (notEnabledRow e m.id)) rest
            {o with skipped :=
              (e.id, "Email inbox not enabled for module " ++ sq ++ tag ++ sq) :: o.skipped}
          else if env.recordInsertFails e.id then ⟨st, [], [], [], true⟩
          else
            let st' := createRecordTail env e m p.cleanSubject
              (htmlToPlainTextManual (strOr e.body e.bodyPreview))
              (savedLinksManual e.body)
              "Record created from email" e.fromAddress st
            let o := runBulk env st' rest
            {o with processed := e.id :: o.processed}

/-- The bulk route on the fetched batch of unread messages. -/
def processBulk (env : Env) (st : St) (emails : List Email) : BulkOutcome :=
  runBulk env st emails

/-! ## The manual single-message route
(`POST /api/email-inbox/process-single/:emailId`) -/

/-- The HTTP-visible result of the single-message route. -/
inductive SingleResult
  | notFoundEmail
  | alreadyProcessed
  | noModule
  | moduleNotFound (name : String)
  | serverError
  | ok (recordId : Nat)
deriving Repr, DecidableEq

/-- State and result of the single-message route. -/
structure SingleOutcome where
  st : St
  result : SingleResult
deriving Repr, DecidableEq

/-- The single-message route: find the message in the mailbox, reject one
already in the ledger, resolve the target module from the request body or
the subject tag, look it up among the active modules, and create the
record.  The route performs no `enableEmailInbox` check.  `reqUser` is
the authenticated operator (`req.user?.email`). -/
def processSingle (env : Env) (emailId : String) (bodyModuleName : Option String)
    (reqUser : Option String) (emails : List Email) (st : St) : SingleOutcome :=
  match emails.find? (fun e => e.id == emailId) with
  | none => ⟨st, .notFoundEmail⟩
  | some e =>
    if ledgerHas st emailId then ⟨st, .alreadyProcessed⟩
    else
      let target := jsOrOpt bodyModuleName (parseModuleTagFromSubject e.subject).moduleName
      if optFalsy target then ⟨st, .noModule⟩
      else
        let tag := target.getD ""
        match findModule env.modules tag with
        | none => ⟨st, .moduleNotFound tag⟩
        | some m =>
          if env.recordInsertFails e.id then ⟨st, .serverError⟩
          else
            let st' := createRecordTail env e m
              (parseModuleTagFromSubject e.subject).cleanSubject
              (htmlToPlainTextManual (strOr e.body e.bodyPreview))
              (savedLinksManual e.body)
              "Record created from email (manual)" (reqUser.getD "system") st
            ⟨st', .ok st.nextRecordId⟩

/-! ## Character-class facts -/

theorem jsLower_fix {c : Char} (h : lowerAlnum c = true) : jsLower c = c := by
  simp only [lowerAlnum, Bool.or_eq_true, Bool.and_eq_true, decide_eq_true_eq] at h
  unfold jsLower
  rw [if_neg]
  omega

theorem ciEq_self (c : Char) : ciEq c c = true := by
  simp [ciEq]

theorem ciEq_word_false {p c : Char} (hp : jsLower p = p) (hpn : lowerAlnum p = false)
    (hc : lowerAlnum c = true) : ciEq p c = false := by
  unfold ciEq
  rw [hp, jsLower_fix hc]
  simp only [beq_eq_false_iff_ne, ne_eq]
  intro h
  rw [h, hc] at hpn
  exact Bool.noConfusion hpn

theorem word_ne {c d : Char} (hc : lowerAlnum c = true) (hd : lowerAlnum d = false) :
    c ≠ d := by
  intro h
  rw [h, hd] at hc
  exact Bool.noConfusion hc

theorem jsWs_word_false {c : Char} (h : lowerAlnum c = true) : jsWs c = false := by
  simp only [lowerAlnum, Bool.or_eq_true, Bool.and_eq_true, decide_eq_true_eq] at h
  unfold jsWs
  simp only [Bool.or_eq_false_iff, decide_eq_false_iff_not]
  refine ⟨⟨⟨⟨⟨?_, ?_⟩, ?_⟩, ?_⟩, ?_⟩, ?_⟩ <;>
    (intro hc; rw [hc] at h; exact absurd h (by decide))

theorem spaceTab_word_false {c : Char} (h : lowerAlnum c = true) : spaceTab c = false := by
  simp only [lowerAlnum, Bool.or_eq_true, Bool.and_eq_true, decide_eq_true_eq] at h
  unfold spaceTab
  simp only [Bool.or_eq_false_iff, decide_eq_false_iff_not]
  constructor <;> (intro hc; rw [hc] at h; exact absurd h (by decide))

/-! ## Generic sandwich lemmas for the replacement passes

The universal theorems below quantify over nonempty words of lowercase
letters and digits (`LWord`) surrounding a concrete fragment.  Each pass
either ignores such a word entirely (its trigger character cannot occur
in it) or rewrites the concrete fragment; the lemmas in this section
factor those two situations. -/

/-- No character of `l` matches `p0` case-insensitively. -/
def NoCI (p0 : Char) (l : List Char) : Prop := ∀ c ∈ l, ciEq p0 c = false

/-- No character of `l` equals `t`. -/
def NoChar (t : Char) (l : List Char) : Prop := ∀ c ∈ l, c ≠ t

/-- No character of `l` is a space or tab. -/
def NoST (l : List Char) : Prop := ∀ c ∈ l, spaceTab c = false

instance (p0 : Char) (l : List Char) : Decidable (NoCI p0 l) := by
  unfold NoCI; infer_instance

instance (t : Char) (l : List Char) : Decidable (NoChar t l) := by
  unfold NoChar; infer_instance

instance (l : List Char) : Decidable (NoST l) := by
  unfold NoST; infer_instance

theorem noCI_append {p0 : Char} {l1 l2 : List Char} (h1 : NoCI p0 l1)
    (h2 : NoCI p0 l2) : NoCI p0 (l1 ++ l2) := by
  intro c hc
  rcases List.mem_append.mp hc with h | h
  · exact h1 c h
  · exact h2 c h

theorem noChar_append {t : Char} {l1 l2 : List Char} (h1 : NoChar t l1)
    (h2 : NoChar t l2) : NoChar t (l1 ++ l2) := by
  intro c hc
  rcases List.mem_append.mp hc with h | h
  · exact h1 c h
  · exact h2 c h

theorem noST_append {l1 l2 : List Char} (h1 : NoST l1) (h2 : NoST l2) :
    NoST (l1 ++ l2) := by
  intro c hc
  rcases List.mem_append.mp hc with h | h
  · exact h1 c h
  · exact h2 c h

theorem word_noCI {p : Char} {s : String} (hp : jsLower p = p)
    (hpn : lowerAlnum p = false) (h : LWord s) : NoCI p s.data :=
  fun c hc => ciEq_word_false hp hpn (h.2 c hc)

theorem word_noChar {t : Char} {s : String} (ht : lowerAlnum t = false)
    (h : LWord s) : NoChar t s.data :=
  fun c hc => word_ne (h.2 c hc) ht

theorem word_noST {s : String} (h : LWord s) : NoST s.data :=
  fun c hc => spaceTab_word_false (h.2 c hc)

theorem matchesCI_self_append (t b : List Char) : matchesCI t (t ++ b) = true := by
  induction t with
  | nil => simp [matchesCI]
  | cons c cs ih => simp [matchesCI, ciEq_self, ih]

/-- The pattern fails against `t` alone: a mismatch occurs before `t`
runs out, so no continuation can rescue the match. -/
def Stuck : List Char → List Char → Bool
  | [], _ => false
  | _ :: _, [] => false
  | p :: ps, c :: cs => if ciEq p c then Stuck ps cs else true

theorem stuck_matchesCI_false {pr t : List Char} (h : Stuck pr t = true) (b : List Char) :
    matchesCI pr (t ++ b) = false := by
  induction pr generalizing t with
  | nil => simp [Stuck] at h
  | cons p ps ih =>
    match t with
    | [] => simp [Stuck] at h
    | c :: cs =>
      simp only [Stuck] at h
      simp only [List.cons_append, matchesCI, Bool.and_eq_false_iff]
      by_cases hpc : ciEq p c = true
      · rw [if_pos hpc] at h
        right; exact ih h
      · left; simpa using hpc

/-- At every position of `x`, a match of `p0 :: pr` either does not start
(`p0` mismatch) or gets stuck inside `x`, whatever follows `x`. -/
def Skippable (p0 : Char) (pr : List Char) : List Char → Bool
  | [] => true
  | c :: cs => (if ciEq p0 c then Stuck pr cs else true) && Skippable p0 pr cs

theorem passFix_nil (p0 : Char) (pr r : List Char) : passFix p0 pr r [] = [] := by
  rw [passFix]

theorem passFix_cons_pos {p0 c : Char} {pr cs : List Char} (r : List Char)
    (h : (ciEq p0 c && matchesCI pr cs) = true) :
    passFix p0 pr r (c :: cs) = r ++ passFix p0 pr r (cs.drop pr.length) := by
  rw [passFix]
  simp [h]

theorem passFix_cons_neg {p0 c : Char} {pr cs : List Char} (r : List Char)
    (h : (ciEq p0 c && matchesCI pr cs) = false) :
    passFix p0 pr r (c :: cs) = c :: passFix p0 pr r cs := by
  rw [passFix]
  simp [h]

theorem passFix_app {p0 : Char} {pr r a : List Char} (l : List Char)
    (ha : NoCI p0 a) : passFix p0 pr r (a ++ l) = a ++ passFix p0 pr r l := by
  induction a with
  | nil => simp
  | cons c cs ih =>
    have hc : ciEq p0 c = false := ha c (by simp)
    rw [List.cons_append, passFix_cons_neg r (by simp [hc])]
    rw [ih (fun c hc => ha c (by simp [hc]))]
    simp

theorem passFix_id {p0 : Char} {pr r : List Char} (l : List Char)
    (hl : NoCI p0 l) : passFix p0 pr r l = l := by
  have := @passFix_app p0 pr r l [] hl
  simpa [passFix_nil] using this

theorem passFix_exact (p0 : Char) (pr r b : List Char) :
    passFix p0 pr r ((p0 :: pr) ++ b) = r ++ passFix p0 pr r b := by
  rw [List.cons_append,
    passFix_cons_pos r (by simp [ciEq_self, matchesCI_self_append]),
    List.drop_left]

/-- A `passFix` sandwich: plain words around the literal pattern. -/
theorem passFix_sandwich {p0 : Char} {pr r a b : List Char}
    (ha : NoCI p0 a) (hb : NoCI p0 b) :
    passFix p0 pr r (a ++ ((p0 :: pr) ++ b)) = a ++ (r ++ b) := by
  rw [passFix_app _ ha, passFix_exact, passFix_id b hb]

/-- A `passFix` sandwich around a fragment the pass cannot touch. -/
theorem passFix_skip {p0 : Char} {pr r x b : List Char}
    (hx : Skippable p0 pr x = true) (hb : NoCI p0 b) :
    passFix p0 pr r (x ++ b) = x ++ b := by
  induction x with
  | nil => simpa using passFix_id b hb
  | cons c cs ih =>
    simp only [Skippable, Bool.and_eq_true] at hx
    obtain ⟨h1, h2⟩ := hx
    rw [List.cons_append]
    by_cases hc : ciEq p0 c = true
    · rw [if_pos hc] at h1
      rw [passFix_cons_neg r
        (by simp [stuck_matchesCI_false h1 b])]
      rw [ih h2]
    · rw [passFix_cons_neg r (by simp [Bool.not_eq_true] at hc; simp [hc])]
      rw [ih h2]

theorem passFix_skip_sandwich {p0 : Char} {pr r a x b : List Char}
    (ha : NoCI p0 a) (hx : Skippable p0 pr x = true) (hb : NoCI p0 b) :
    passFix p0 pr r (a ++ (x ++ b)) = a ++ (x ++ b) := by
  rw [passFix_app _ ha, passFix_skip hx hb]

/-! ### Lemmas for `passBr` -/

theorem passBr_nil : passBr [] = [] := by rw [passBr]

theorem passBr_cons_match {cs rest : List Char} (h : brRest cs = some rest) :
    passBr ('<' :: cs) = '\n' :: passBr rest := by
  rw [passBr]
  simp [h]

theorem passBr_cons_none {cs : List Char} (h : brRest cs = none) :
    passBr ('<' :: cs) = '<' :: passBr cs := by
  rw [passBr]
  simp [h]

theorem passBr_cons_ne {c : Char} {cs : List Char} (h : c ≠ '<') :
    passBr (c :: cs) = c :: passBr cs := by
  rw [passBr]
  simp [h]

theorem passBr_app {a : List Char} (l : List Char) (ha : NoChar '<' a) :
    passBr (a ++ l) = a ++ passBr l := by
  induction a with
  | nil => simp
  | cons c cs ih =>
    rw [List.cons_append, passBr_cons_ne (ha c (by simp)),
      ih (fun c hc => ha c (by simp [hc]))]
    simp

theorem passBr_id (l : List Char) (hl : NoChar '<' l) : passBr l = l := by
  have := passBr_app (a := l) [] hl
  simpa [passBr_nil] using this

/-- A `<` position where `brRest` fails on the concrete characters alone. -/
def brStuck : List Char → Bool
  | c :: _ => !ciEq 'b' c
  | [] => false

theorem brStuck_append {cs : List Char} (h : brStuck cs = true) (b : List Char) :
    brRest (cs ++ b) = none := by
  match cs with
  | [] => simp [brStuck] at h
  | c :: cs' =>
    simp only [brStuck, Bool.not_eq_true'] at h
    rw [List.cons_append]
    match cs' ++ b with
    | [] => rfl
    | r :: t => simp [brRest, h]

/-- Skippable fragment for `passBr`. -/
def brSkippable : List Char → Bool
  | [] => true
  | c :: cs => (if c = '<' then brStuck cs else true) && brSkippable cs

theorem passBr_skip {x b : List Char} (hx : brSkippable x = true)
    (hb : NoChar '<' b) : passBr (x ++ b) = x ++ b := by
  induction x with
  | nil => simpa using passBr_id b hb
  | cons c cs ih =>
    simp only [brSkippable, Bool.and_eq_true] at hx
    obtain ⟨h1, h2⟩ := hx
    rw [List.cons_append]
    by_cases hc : c = '<'
    · rw [if_pos hc] at h1
      subst hc
      rw [passBr_cons_none (brStuck_append h1 b), ih h2]
    · rw [passBr_cons_ne hc, ih h2]

/-! ### Lemmas for `passHeading` -/

theorem passHeading_nil : passHeading [] = [] := by rw [passHeading]

theorem passHeading_cons_match {cs rest : List Char} (h : hRest cs = some rest) :
    passHeading ('<' :: cs) = '\n' :: '\n' :: passHeading rest := by
  rw [passHeading]
  simp [h]

theorem passHeading_cons_none {cs : List Char} (h : hRest cs = none) :
    passHeading ('<' :: cs) = '<' :: passHeading cs := by
  rw [passHeading]
  simp [h]

theorem passHeading_cons_ne {c : Char} {cs : List Char} (h : c ≠ '<') :
    passHeading (c :: cs) = c :: passHeading cs := by
  rw [passHeading]
  simp [h]

theorem passHeading_app {a : List Char} (l : List Char) (ha : NoChar '<' a) :
    passHeading (a ++ l) = a ++ passHeading l := by
  induction a with
  | nil => simp
  | cons c cs ih =>
    rw [List.cons_append, passHeading_cons_ne (ha c (by simp)),
      ih (fun c hc => ha c (by simp [hc]))]
    simp

theorem passHeading_id (l : List Char) (hl : NoChar '<' l) : passHeading l = l := by
  have := passHeading_app (a := l) [] hl
  simpa [passHeading_nil] using this

/-- A `<` position where `hRest` fails on the concrete characters alone. -/
def hStuck : List Char → Bool
  | c :: rest =>
    if c = '/' then
      match rest with
      | d :: _ => !ciEq 'h' d
      | [] => false
    else true
  | [] => false

theorem hStuck_append {cs : List Char} (h : hStuck cs = true) (b : List Char) :
    hRest (cs ++ b) = none := by
  match cs with
  | [] => simp [hStuck] at h
  | c :: cs' =>
    simp only [hStuck] at h
    by_cases hc : c = '/'
    · rw [if_pos hc] at h
      subst hc
      match cs' with
      | [] => simp at h
      | d :: t =>
        simp only [Bool.not_eq_true'] at h
        simp [hRest, h]
    · rw [List.cons_append]
      unfold hRest
      match c, cs' ++ b, hc with
      | c, l, hc => split <;> simp_all

/-- Skippable fragment for `passHeading`. -/
def hSkippable : List Char → Bool
  | [] => true
  | c :: cs => (if c = '<' then hStuck cs else true) && hSkippable cs

theorem passHeading_skip {x b : List Char} (hx : hSkippable x = true)
    (hb : NoChar '<' b) : passHeading (x ++ b) = x ++ b := by
  induction x with
  | nil => simpa using passHeading_id b hb
  | cons c cs ih =>
    simp only [hSkippable, Bool.and_eq_true] at hx
    obtain ⟨h1, h2⟩ := hx
    rw [List.cons_append]
    by_cases hc : c = '<'
    · rw [if_pos hc] at h1
      subst hc
      rw [passHeading_cons_none (hStuck_append h1 b), ih h2]
    · rw [passHeading_cons_ne hc, ih h2]

/-! ### Lemmas for `passBlock` and `passTags` -/

theorem afterGt_self {t : List Char} (b : List Char) (ht : NoChar '>' t) :
    afterGt (t ++ '>' :: b) = some b := by
  induction t with
  | nil => simp [afterGt]
  | cons c cs ih =>
    rw [List.cons_append]
    simp only [afterGt]
    rw [if_neg (ht c (by simp))]
    exact ih (fun c hc => ht c (by simp [hc]))

theorem afterCI_app {close a : List Char} (l : List Char) (ha : NoChar '<' a) :
    afterCI close (a ++ l) = afterCI close l := by
  induction a with
  | nil => simp
  | cons c cs ih =>
    rw [List.cons_append]
    simp only [afterCI]
    rw [if_neg (by simp [ha c (by simp)])]
    exact ih (fun c hc => ha c (by simp [hc]))

theorem afterCI_self (close b : List Char) :
    afterCI close ('<' :: (close ++ b)) = some b := by
  simp only [afterCI]
  rw [if_pos (by simp [matchesCI_self_append]), List.drop_left]

theorem blockRest_self {name close mid : List Char} (b : List Char)
    (hmid : NoChar '<' mid) :
    blockRest name close (name ++ '>' :: (mid ++ '<' :: (close ++ b))) = some b := by
  unfold blockRest
  rw [if_pos (matchesCI_self_append name _), List.drop_left]
  have hgt : afterGt ('>' :: (mid ++ '<' :: (close ++ b))) =
      some (mid ++ '<' :: (close ++ b)) := by
    simp [afterGt]
  rw [hgt]
  show afterCI close (mid ++ '<' :: (close ++ b)) = some b
  rw [afterCI_app _ hmid, afterCI_self]

/-- Stuck fragment after a `<` for `passBlock`: the tag name mismatches
within the concrete characters. -/
theorem blockRest_stuck {name close cs : List Char} (h : Stuck name cs = true)
    (b : List Char) : blockRest name close (cs ++ b) = none := by
  unfold blockRest
  rw [if_neg (by simp [stuck_matchesCI_false h b])]

theorem passBlock_nil (name close : List Char) : passBlock name close [] = [] := by
  rw [passBlock]

theorem passBlock_cons_match {name close cs rest : List Char}
    (h : blockRest name close cs = some rest) :
    passBlock name close ('<' :: cs) = passBlock name close rest := by
  rw [passBlock]
  simp [h]

theorem passBlock_cons_none {name close cs : List Char}
    (h : blockRest name close cs = none) :
    passBlock name close ('<' :: cs) = '<' :: passBlock name close cs := by
  rw [passBlock]
  simp [h]

theorem passBlock_cons_ne {name close : List Char} {c : Char} {cs : List Char}
    (h : c ≠ '<') : passBlock name close (c :: cs) = c :: passBlock name close cs := by
  rw [passBlock]
  simp [h]

theorem passBlock_app {name close a : List Char} (l : List Char) (ha : NoChar '<' a) :
    passBlock name close (a ++ l) = a ++ passBlock name close l := by
  induction a with
  | nil => simp
  | cons c cs ih =>
    rw [List.cons_append, passBlock_cons_ne (ha c (by simp)),
      ih (fun c hc => ha c (by simp [hc]))]
    simp

theorem passBlock_id {name close : List Char} (l : List Char) (hl : NoChar '<' l) :
    passBlock name close l = l := by
  have := @passBlock_app name close l [] hl
  simpa [passBlock_nil] using this

/-- Skippable fragment for `passBlock name`: at every `<`, the name
mismatches within the fragment. -/
def blockSkippable (name : List Char) : List Char → Bool
  | [] => true
  | c :: cs => (if c = '<' then Stuck name cs else true) && blockSkippable name cs

theorem passBlock_skip {name close x b : List Char}
    (hx : blockSkippable name x = true) (hb : NoChar '<' b) :
    passBlock name close (x ++ b) = x ++ b := by
  induction x with
  | nil => simpa using passBlock_id b hb
  | cons c cs ih =>
    simp only [blockSkippable, Bool.and_eq_true] at hx
    obtain ⟨h1, h2⟩ := hx
    rw [List.cons_append]
    by_cases hc : c = '<'
    · rw [if_pos hc] at h1
      subst hc
      rw [passBlock_cons_none (blockRest_stuck h1 b), ih h2]
    · rw [passBlock_cons_ne hc, ih h2]

theorem tagRest_self {t : List Char} (b : List Char) (ht : NoChar '>' t)
    (hne : t ≠ []) : tagRest (t ++ '>' :: b) = some b := by
  match t, hne, ht with
  | c :: t', _, ht =>
    rw [List.cons_append]
    simp only [tagRest]
    rw [if_neg (ht c (by simp))]
    exact afterGt_self b ht

theorem passTags_nil : passTags [] = [] := by rw [passTags]

theorem passTags_cons_match {cs rest : List Char} (h : tagRest cs = some rest) :
    passTags ('<' :: cs) = passTags rest := by
  rw [passTags]
  simp [h]

theorem passTags_cons_ne {c : Char} {cs : List Char} (h : c ≠ '<') :
    passTags (c :: cs) = c :: passTags cs := by
  rw [passTags]
  simp [h]

theorem passTags_app {a : List Char} (l : List Char) (ha : NoChar '<' a) :
    passTags (a ++ l) = a ++ passTags l := by
  induction a with
  | nil => simp
  | cons c cs ih =>
    rw [List.cons_append, passTags_cons_ne (ha c (by simp)),
      ih (fun c hc => ha c (by simp [hc]))]
    simp

theorem passTags_id (l : List Char) (hl : NoChar '<' l) : passTags l = l := by
  have := passTags_app (a := l) [] hl
  simpa [passTags_nil] using this

/-! ### Lemmas for the whitespace passes and the newline collapse -/

theorem dropWhile_cons_false {p : Char → Bool} {c : Char} {cs : List Char}
    (h : p c = false) : (c :: cs).dropWhile p = c :: cs := by
  simp [List.dropWhile, h]

theorem dropWhile_noST {l : List Char} (h : NoST l) : l.dropWhile spaceTab = l := by
  cases l with
  | nil => rfl
  | cons c cs => exact dropWhile_cons_false (h c (by simp))

theorem takeWhile_cons_false {p : Char → Bool} {c : Char} {cs : List Char}
    (h : p c = false) : (c :: cs).takeWhile p = [] := by
  simp [List.takeWhile, h]

theorem passSpaces_nil : passSpaces [] = [] := by rw [passSpaces]

theorem passSpaces_cons_pos {c : Char} {cs : List Char} (h : spaceTab c = true) :
    passSpaces (c :: cs) = ' ' :: passSpaces (cs.dropWhile spaceTab) := by
  rw [passSpaces]
  simp [h]

theorem passSpaces_cons_neg {c : Char} {cs : List Char} (h : spaceTab c = false) :
    passSpaces (c :: cs) = c :: passSpaces cs := by
  rw [passSpaces]
  simp [h]

theorem passSpaces_app {a : List Char} (l : List Char) (ha : NoST a) :
    passSpaces (a ++ l) = a ++ passSpaces l := by
  induction a with
  | nil => simp
  | cons c cs ih =>
    rw [List.cons_append, passSpaces_cons_neg (ha c (by simp)),
      ih (fun c hc => ha c (by simp [hc]))]
    simp

theorem passSpaces_id (l : List Char) (hl : NoST l) : passSpaces l = l := by
  have := passSpaces_app (a := l) [] hl
  simpa [passSpaces_nil] using this

theorem passNlSpace_nil : passNlSpace [] = [] := by rw [passNlSpace]

theorem passNlSpace_cons_pos {cs : List Char} (h : headSpaceTab cs = true) :
    passNlSpace ('\n' :: cs) = '\n' :: passNlSpace (cs.dropWhile spaceTab) := by
  rw [passNlSpace]
  simp [h]

theorem passNlSpace_cons_keep {cs : List Char} (h : headSpaceTab cs = false) :
    passNlSpace ('\n' :: cs) = '\n' :: passNlSpace cs := by
  rw [passNlSpace]
  simp [h]

theorem passNlSpace_cons_ne {c : Char} {cs : List Char} (h : c ≠ '\n') :
    passNlSpace (c :: cs) = c :: passNlSpace cs := by
  rw [passNlSpace]
  simp [h]

theorem passNlSpace_app {a : List Char} (l : List Char) (ha : NoChar '\n' a) :
    passNlSpace (a ++ l) = a ++ passNlSpace l := by
  induction a with
  | nil => simp
  | cons c cs ih =>
    rw [List.cons_append, passNlSpace_cons_ne (ha c (by simp)),
      ih (fun c hc => ha c (by simp [hc]))]
    simp

theorem passNlSpace_id (l : List Char) (hl : NoChar '\n' l) : passNlSpace l = l := by
  have := passNlSpace_app (a := l) [] hl
  simpa [passNlSpace_nil] using this

theorem passSpaceNl_nil : passSpaceNl [] = [] := by rw [passSpaceNl]

theorem passSpaceNl_cons_pos {c : Char} {cs rest : List Char} (h1 : spaceTab c = true)
    (h2 : spNlRest cs = some rest) :
    passSpaceNl (c :: cs) = '\n' :: passSpaceNl rest := by
  rw [passSpaceNl]
  simp [h1, h2]

theorem passSpaceNl_cons_fail {c : Char} {cs : List Char} (h1 : spaceTab c = true)
    (h2 : spNlRest cs = none) :
    passSpaceNl (c :: cs) = c :: passSpaceNl cs := by
  rw [passSpaceNl]
  simp [h1, h2]

theorem passSpaceNl_cons_neg {c : Char} {cs : List Char} (h : spaceTab c = false) :
    passSpaceNl (c :: cs) = c :: passSpaceNl cs := by
  rw [passSpaceNl]
  simp [h]

theorem passSpaceNl_app {a : List Char} (l : List Char) (ha : NoST a) :
    passSpaceNl (a ++ l) = a ++ passSpaceNl l := by
  induction a with
  | nil => simp
  | cons c cs ih =>
    rw [List.cons_append, passSpaceNl_cons_neg (ha c (by simp)),
      ih (fun c hc => ha c (by simp [hc]))]
    simp

theorem passSpaceNl_id (l : List Char) (hl : NoST l) : passSpaceNl l = l := by
  have := passSpaceNl_app (a := l) [] hl
  simpa [passSpaceNl_nil] using this

theorem passNl3_nil : passNl3 [] = [] := by rw [passNl3]

theorem passNl3_cons_ne {c : Char} {cs : List Char} (h : c ≠ '\n') :
    passNl3 (c :: cs) = c :: passNl3 cs := by
  rw [passNl3]
  simp [h]

theorem passNl3_app {a : List Char} (l : List Char) (ha : NoChar '\n' a) :
    passNl3 (a ++ l) = a ++ passNl3 l := by
  induction a with
  | nil => simp
  | cons c cs ih =>
    rw [List.cons_append, passNl3_cons_ne (ha c (by simp)),
      ih (fun c hc => ha c (by simp [hc]))]
    simp

theorem passNl3_id (l : List Char) (hl : NoChar '\n' l) : passNl3 l = l := by
  have := passNl3_app (a := l) [] hl
  simpa [passNl3_nil] using this

/-- A run of one newline before non-newline content stays. -/
theorem passNl3_nl1 {b : List Char} (h1 : b.takeWhile isNl = [])
    (h2 : b.dropWhile isNl = b) :
    passNl3 ('\n' :: b) = '\n' :: passNl3 b := by
  rw [passNl3]
  simp [h1, h2, List.replicate]

/-- A run of two newlines stays. -/
theorem passNl3_nl2 {b : List Char} (h1 : b.takeWhile isNl = [])
    (h2 : b.dropWhile isNl = b) :
    passNl3 ('\n' :: '\n' :: b) = '\n' :: '\n' :: passNl3 b := by
  rw [passNl3]
  have ht : ('\n' :: b).takeWhile isNl = ['\n'] := by
    simp [List.takeWhile, isNl, h1]
  have hd : ('\n' :: b).dropWhile isNl = b := by
    simp [List.dropWhile, isNl, h2]
  simp [ht, hd, h1, h2, List.replicate]

/-- A run of three newlines collapses to two. -/
theorem passNl3_nl3 {b : List Char} (h1 : b.takeWhile isNl = [])
    (h2 : b.dropWhile isNl = b) :
    passNl3 ('\n' :: '\n' :: '\n' :: b) = '\n' :: '\n' :: passNl3 b := by
  rw [passNl3]
  have ht : ('\n' :: '\n' :: b).takeWhile isNl = ['\n', '\n'] := by
    simp [List.takeWhile, isNl, h1]
  have hd : ('\n' :: '\n' :: b).dropWhile isNl = b := by
    simp [List.dropWhile, isNl, h2]
  simp [ht, hd, h1, h2]

/-! ### Lemmas for `trimL` -/

theorem trimL_cons_ws {c : Char} {l : List Char} (h : jsWs c = true) :
    trimL (c :: l) = trimL l := by
  unfold trimL
  simp [List.dropWhile, h]

/-- A list that starts and ends with a non-whitespace character trims to
itself. -/
theorem trimL_word_id {c d : Char} {mid : List Char} (h1 : jsWs c = false)
    (h2 : jsWs d = false) : trimL ((c :: mid) ++ [d]) = (c :: mid) ++ [d] := by
  unfold trimL
  rw [List.cons_append, dropWhile_cons_false h1, ← List.cons_append,
    List.reverse_append]
  simp only [List.reverse_cons, List.reverse_nil, List.nil_append,
    List.singleton_append]
  rw [dropWhile_cons_false h2]
  simp

/-! ### Word-shaped inputs: derived facts and stage-composite lemmas -/

theorem word_bundle {s : String} (h : LWord s) :
    NoChar '<' s.data ∧ NoChar '>' s.data ∧ NoChar '\n' s.data ∧
      NoCI '<' s.data ∧ NoCI '&' s.data ∧ NoST s.data :=
  ⟨word_noChar (by decide) h, word_noChar (by decide) h,
    word_noChar (by decide) h, word_noCI (by decide) (by decide) h,
    word_noCI (by decide) (by decide) h, word_noST h⟩

theorem word_head {s : String} (h : LWord s) :
    ∃ c t, s.data = c :: t ∧ lowerAlnum c = true := by
  obtain ⟨hne, hall⟩ := h
  match hd : s.data, hne with
  | c :: t, _ => exact ⟨c, t, rfl, hall c (by rw [hd]; simp)⟩

theorem word_concat {s : String} (h : LWord s) :
    ∃ t d, s.data = t ++ [d] ∧ lowerAlnum d = true := by
  obtain ⟨hne, hall⟩ := h
  rcases List.eq_nil_or_concat s.data with hd | ⟨t, d, hd⟩
  · exact absurd hd hne
  · refine ⟨t, d, by rw [hd]; simp, hall d (by rw [hd]; simp)⟩

/-- A word-bounded string trims to itself. -/
theorem trimL_sandwich {s u : String} (mid : List Char) (hs : LWord s)
    (hu : LWord u) : trimL (s.data ++ (mid ++ u.data)) = s.data ++ (mid ++ u.data) := by
  obtain ⟨c, t, hst, hc⟩ := word_head hs
  obtain ⟨ui, d, hud, hd⟩ := word_concat hu
  rw [hst, hud]
  have hshape : c :: t ++ (mid ++ (ui ++ [d])) = (c :: (t ++ mid ++ ui)) ++ [d] := by
    simp
  rw [hshape, trimL_word_id (jsWs_word_false hc) (jsWs_word_false hd)]

/-- A pattern containing a character no word character can match
case-insensitively never matches inside a word. -/
theorem matchesCI_allword_false {pat l : List Char}
    (hq : ∃ q ∈ pat, jsLower q = q ∧ lowerAlnum q = false)
    (hl : ∀ c ∈ l, lowerAlnum c = true) : matchesCI pat l = false := by
  induction pat generalizing l with
  | nil => simp at hq
  | cons p ps ih =>
    match l with
    | [] => rfl
    | c :: cs =>
      simp only [matchesCI, Bool.and_eq_false_iff]
      by_cases hp : jsLower p = p ∧ lowerAlnum p = false
      · exact Or.inl (ciEq_word_false hp.1 hp.2 (hl c (by simp)))
      · right
        apply ih _ (fun c hc => hl c (by simp [hc]))
        obtain ⟨q, hq1, hq2⟩ := hq
        rcases List.mem_cons.mp hq1 with rfl | hmem
        · exact absurd hq2 hp
        · exact ⟨q, hmem, hq2⟩

/-- After the `&amp;` decode the bare `&` matches no later entity pattern:
each of those patterns ends in `;`. -/
theorem passFix_amp_word {pr r : List Char} {b : String}
    (hq : ∃ q ∈ pr, jsLower q = q ∧ lowerAlnum q = false) (hb : LWord b) :
    passFix '&' pr r ('&' :: b.data) = '&' :: b.data := by
  rw [passFix_cons_neg r
    (by simp [matchesCI_allword_false hq hb.2])]
  rw [passFix_id _ ((word_bundle hb).2.2.2.2.1)]

theorem tagPassesAuto_id (l : List Char) (h1 : NoChar '<' l) (h2 : NoCI '<' l) :
    tagPassesAuto l = l := by
  unfold tagPassesAuto
  rw [passBr_id _ h1, passFix_id _ h2, passFix_id _ h2, passBlock_id _ h1,
    passBlock_id _ h1, passTags_id _ h1]

theorem tagPassesManual_id (l : List Char) (h1 : NoChar '<' l) (h2 : NoCI '<' l) :
    tagPassesManual l = l := by
  unfold tagPassesManual
  rw [passBr_id _ h1, passFix_id _ h2, passFix_id _ h2, passFix_id _ h2,
    passFix_id _ h2, passHeading_id _ h1, passBlock_id _ h1, passBlock_id _ h1,
    passTags_id _ h1]

theorem entityPassesAuto_id (l : List Char) (h : NoCI '&' l) :
    entityPassesAuto l = l := by
  unfold entityPassesAuto
  rw [passFix_id _ h, passFix_id _ h, passFix_id _ h, passFix_id _ h,
    passFix_id _ h]

theorem entityPassesManual_id (l : List Char) (h : NoCI '&' l) :
    entityPassesManual l = l := by
  unfold entityPassesManual
  rw [entityPassesAuto_id _ h, passFix_id _ h, passFix_id _ h]

theorem wsPassesManual_id (l : List Char) (h1 : NoST l) (h2 : NoChar '\n' l) :
    wsPassesManual l = l := by
  unfold wsPassesManual
  rw [passSpaces_id _ h1, passNlSpace_id _ h2, passSpaceNl_id _ h1]

theorem isNl_word_false {c : Char} (h : lowerAlnum c = true) : isNl c = false := by
  unfold isNl
  simp only [decide_eq_false_iff_not]
  intro hc
  rw [hc] at h
  exact absurd h (by decide)

theorem word_headSpaceTab {b : String} (hb : LWord b) : headSpaceTab b.data = false := by
  obtain ⟨c, t, hbd, hc⟩ := word_head hb
  rw [hbd]
  exact spaceTab_word_false hc

theorem word_takeNl {b : String} (hb : LWord b) : b.data.takeWhile isNl = [] := by
  obtain ⟨c, t, hbd, hc⟩ := word_head hb
  rw [hbd]
  exact takeWhile_cons_false (isNl_word_false hc)

theorem word_dropNl {b : String} (hb : LWord b) : b.data.dropWhile isNl = b.data := by
  obtain ⟨c, t, hbd, hc⟩ := word_head hb
  rw [hbd]
  exact dropWhile_cons_false (isNl_word_false hc)

theorem spNlRest_word_none {b : String} (hb : LWord b) : spNlRest b.data = none := by
  obtain ⟨c, t, hbd, hc⟩ := word_head hb
  unfold spNlRest
  rw [hbd, dropWhile_cons_false (spaceTab_word_false hc)]
  have hcn := word_ne hc (show lowerAlnum '\n' = false by decide)
  split
  · simp_all
  · rfl

/-! ### Tail lemmas: the pipeline stages after the rewriting pass -/

/-- Manual tail for a middle with no newline and no space/tab. -/
theorem manualTail_plain {a b : String} (mid : List Char) (ha : LWord a)
    (hb : LWord b) (hST : NoST mid) (hNl : NoChar '\n' mid) :
    trimL (passNl3 (wsPassesManual (a.data ++ (mid ++ b.data)))) =
      a.data ++ (mid ++ b.data) := by
  have hst := noST_append (word_bundle ha).2.2.2.2.2
    (noST_append hST (word_bundle hb).2.2.2.2.2)
  have hnl := noChar_append (word_bundle ha).2.2.1
    (noChar_append hNl (word_bundle hb).2.2.1)
  rw [wsPassesManual_id _ hst hnl, passNl3_id _ hnl, trimL_sandwich mid ha hb]

/-- Manual tail for a single-space middle. -/
theorem manualTail_space {a b : String} (ha : LWord a) (hb : LWord b) :
    trimL (passNl3 (wsPassesManual (a.data ++ (' ' :: b.data)))) =
      a.data ++ (' ' :: b.data) := by
  obtain ⟨haLt, haGt, haNl, haCIl, haCIa, haST⟩ := word_bundle ha
  obtain ⟨hbLt, hbGt, hbNl, hbCIl, hbCIa, hbST⟩ := word_bundle hb
  unfold wsPassesManual
  rw [passSpaces_app _ haST, passSpaces_cons_pos (by decide), dropWhile_noST hbST,
    passSpaces_id _ hbST]
  rw [passNlSpace_id _ (noChar_append haNl (fun c hc => by
    rcases List.mem_cons.mp hc with rfl | hm
    · decide
    · exact hbNl c hm))]
  rw [passSpaceNl_app _ haST, passSpaceNl_cons_fail (by decide) (spNlRest_word_none hb),
    passSpaceNl_id _ hbST]
  rw [passNl3_app _ haNl, passNl3_cons_ne (by decide), passNl3_id _ hbNl]
  exact trimL_sandwich [' '] ha hb

/-- Manual tail for a single-newline middle. -/
theorem manualTail_nl {a b : String} (ha : LWord a) (hb : LWord b) :
    trimL (passNl3 (wsPassesManual (a.data ++ ('\n' :: b.data)))) =
      a.data ++ ('\n' :: b.data) := by
  obtain ⟨haLt, haGt, haNl, haCIl, haCIa, haST⟩ := word_bundle ha
  obtain ⟨hbLt, hbGt, hbNl, hbCIl, hbCIa, hbST⟩ := word_bundle hb
  unfold wsPassesManual
  rw [passSpaces_id _ (noST_append haST (fun c hc => by
    rcases List.mem_cons.mp hc with rfl | hm
    · decide
    · exact hbST c hm))]
  rw [passNlSpace_app _ haNl, passNlSpace_cons_keep (word_headSpaceTab hb),
    passNlSpace_id _ hbNl]
  rw [passSpaceNl_id _ (noST_append haST (fun c hc => by
    rcases List.mem_cons.mp hc with rfl | hm
    · decide
    · exact hbST c hm))]
  rw [passNl3_app _ haNl, passNl3_nl1 (word_takeNl hb) (word_dropNl hb),
    passNl3_id _ hbNl]
  exact trimL_sandwich ['\n'] ha hb

/-- Manual tail for a double-newline middle. -/
theorem manualTail_nl2 {a b : String} (ha : LWord a) (hb : LWord b) :
    trimL (passNl3 (wsPassesManual (a.data ++ ('\n' :: '\n' :: b.data)))) =
      a.data ++ ('\n' :: '\n' :: b.data) := by
  obtain ⟨haLt, haGt, haNl, haCIl, haCIa, haST⟩ := word_bundle ha
  obtain ⟨hbLt, hbGt, hbNl, hbCIl, hbCIa, hbST⟩ := word_bundle hb
  have hmidST : NoST ('\n' :: '\n' :: b.data) := fun c hc => by
    rcases List.mem_cons.mp hc with rfl | hm
    · decide
    · rcases List.mem_cons.mp hm with rfl | hm2
      · decide
      · exact hbST c hm2
  unfold wsPassesManual
  rw [passSpaces_id _ (noST_append haST hmidST)]
  rw [passNlSpace_app _ haNl, passNlSpace_cons_keep (by rfl),
    passNlSpace_cons_keep (word_headSpaceTab hb), passNlSpace_id _ hbNl]
  rw [passSpaceNl_id _ (noST_append haST hmidST)]
  rw [passNl3_app _ haNl, passNl3_nl2 (word_takeNl hb) (word_dropNl hb),
    passNl3_id _ hbNl]
  exact trimL_sandwich ['\n', '\n'] ha hb

/-- Manual tail for a triple-newline middle: the newline collapse leaves
exactly two. -/
theorem manualTail_nl3 {a b : String} (ha : LWord a) (hb : LWord b) :
    trimL (passNl3 (wsPassesManual (a.data ++ ('\n' :: '\n' :: '\n' :: b.data)))) =
      a.data ++ ('\n' :: '\n' :: b.data) := by
  obtain ⟨haLt, haGt, haNl, haCIl, haCIa, haST⟩ := word_bundle ha
  obtain ⟨hbLt, hbGt, hbNl, hbCIl, hbCIa, hbST⟩ := word_bundle hb
  have hmidST : NoST ('\n' :: '\n' :: '\n' :: b.data) := fun c hc => by
    rcases List.mem_cons.mp hc with rfl | hm
    · decide
    · rcases List.mem_cons.mp hm with rfl | hm2
      · decide
      · rcases List.mem_cons.mp hm2 with rfl | hm3
        · decide
        · exact hbST c hm3
  unfold wsPassesManual
  rw [passSpaces_id _ (noST_append haST hmidST)]
  rw [passNlSpace_app _ haNl, passNlSpace_cons_keep (by rfl),
    passNlSpace_cons_keep (by rfl), passNlSpace_cons_keep (word_headSpaceTab hb),
    passNlSpace_id _ hbNl]
  rw [passSpaceNl_id _ (noST_append haST hmidST)]
  rw [passNl3_app _ haNl, passNl3_nl3 (word_takeNl hb) (word_dropNl hb),
    passNl3_id _ hbNl]
  exact trimL_sandwich ['\n', '\n'] ha hb

/-- Manual tail for a newline-then-space middle: the per-line cleanup
removes the leading space of the new line. -/
theorem manualTail_nlsp {a b : String} (ha : LWord a) (hb : LWord b) :
    trimL (passNl3 (wsPassesManual (a.data ++ ('\n' :: ' ' :: b.data)))) =
      a.data ++ ('\n' :: b.data) := by
  obtain ⟨haLt, haGt, haNl, haCIl, haCIa, haST⟩ := word_bundle ha
  obtain ⟨hbLt, hbGt, hbNl, hbCIl, hbCIa, hbST⟩ := word_bundle hb
  unfold wsPassesManual
  rw [passSpaces_app _ haST, passSpaces_cons_neg (by decide),
    passSpaces_cons_pos (by decide), dropWhile_noST hbST, passSpaces_id _ hbST]
  rw [passNlSpace_app _ haNl, passNlSpace_cons_pos (by rfl)]
  rw [show (' ' :: b.data).dropWhile spaceTab = b.data by
    simp [List.dropWhile, spaceTab, dropWhile_noST hbST]]
  rw [passNlSpace_id _ hbNl]
  rw [passSpaceNl_app _ haST, passSpaceNl_cons_neg (by decide),
    passSpaceNl_id _ hbST]
  rw [passNl3_app _ haNl, passNl3_nl1 (word_takeNl hb) (word_dropNl hb),
    passNl3_id _ hbNl]
  exact trimL_sandwich ['\n'] ha hb

/-- Auto tail for a middle with no newline. -/
theorem autoTail_plain {a b : String} (mid : List Char) (ha : LWord a)
    (hb : LWord b) (hNl : NoChar '\n' mid) :
    trimL (passNl3 (a.data ++ (mid ++ b.data))) = a.data ++ (mid ++ b.data) := by
  have hnl := noChar_append (word_bundle ha).2.2.1
    (noChar_append hNl (word_bundle hb).2.2.1)
  rw [passNl3_id _ hnl, trimL_sandwich mid ha hb]

/-- Auto tail for a single-newline middle. -/
theorem autoTail_nl {a b : String} (ha : LWord a) (hb : LWord b) :
    trimL (passNl3 (a.data ++ ('\n' :: b.data))) = a.data ++ ('\n' :: b.data) := by
  obtain ⟨haLt, haGt, haNl, haCIl, haCIa, haST⟩ := word_bundle ha
  obtain ⟨hbLt, hbGt, hbNl, hbCIl, hbCIa, hbST⟩ := word_bundle hb
  rw [passNl3_app _ haNl, passNl3_nl1 (word_takeNl hb) (word_dropNl hb),
    passNl3_id _ hbNl]
  exact trimL_sandwich ['\n'] ha hb

/-- Auto tail for a double-newline middle. -/
theorem autoTail_nl2 {a b : String} (ha : LWord a) (hb : LWord b) :
    trimL (passNl3 (a.data ++ ('\n' :: '\n' :: b.data))) =
      a.data ++ ('\n' :: '\n' :: b.data) := by
  obtain ⟨haLt, haGt, haNl, haCIl, haCIa, haST⟩ := word_bundle ha
  obtain ⟨hbLt, hbGt, hbNl, hbCIl, hbCIa, hbST⟩ := word_bundle hb
  rw [passNl3_app _ haNl, passNl3_nl2 (word_takeNl hb) (word_dropNl hb),
    passNl3_id _ hbNl]
  exact trimL_sandwich ['\n', '\n'] ha hb

/-- Auto tail for a triple-newline middle: collapses to two. -/
theorem autoTail_nl3 {a b : String} (ha : LWord a) (hb : LWord b) :
    trimL (passNl3 (a.data ++ ('\n' :: '\n' :: '\n' :: b.data))) =
      a.data ++ ('\n' :: '\n' :: b.data) := by
  obtain ⟨haLt, haGt, haNl, haCIl, haCIa, haST⟩ := word_bundle ha
  obtain ⟨hbLt, hbGt, hbNl, hbCIl, hbCIa, hbST⟩ := word_bundle hb
  rw [passNl3_app _ haNl, passNl3_nl3 (word_takeNl hb) (word_dropNl hb),
    passNl3_id _ hbNl]
  exact trimL_sandwich ['\n', '\n'] ha hb

/-- Auto tail for a newline-then-space middle: no per-line cleanup, the
space survives. -/
theorem autoTail_nlsp {a b : String} (ha : LWord a) (hb : LWord b) :
    trimL (passNl3 (a.data ++ ('\n' :: ' ' :: b.data))) =
      a.data ++ ('\n' :: ' ' :: b.data) := by
  obtain ⟨haLt, haGt, haNl, haCIl, haCIa, haST⟩ := word_bundle ha
  obtain ⟨hbLt, hbGt, hbNl, hbCIl, hbCIa, hbST⟩ := word_bundle hb
  rw [passNl3_app _ haNl]
  rw [passNl3_nl1 (by simp [List.takeWhile, isNl]) (by simp [List.dropWhile, isNl])]
  rw [passNl3_cons_ne (by decide), passNl3_id _ hbNl]
  exact trimL_sandwich ['\n', ' '] ha hb

/-! ### Per-fragment behavior of the two conversions -/

theorem noCI_cons {p0 c : Char} {l : List Char} (hc : ciEq p0 c = false)
    (hl : NoCI p0 l) : NoCI p0 (c :: l) := by
  intro d hd
  rcases List.mem_cons.mp hd with rfl | hm
  · exact hc
  · exact hl d hm

theorem noChar_cons {t c : Char} {l : List Char} (hc : c ≠ t)
    (hl : NoChar t l) : NoChar t (c :: l) := by
  intro d hd
  rcases List.mem_cons.mp hd with rfl | hm
  · exact hc
  · exact hl d hm

theorem stringMk_eq {l : List Char} {t : String} (h : l = t.data) :
    String.mk l = t := by
  subst h
  cases t
  rfl

theorem isEmpty_false_of {s : String} (h : s.data ≠ []) : s.isEmpty = false := by
  cases hs : s.isEmpty
  · rfl
  · exfalso
    apply h
    rw [String.isEmpty_iff] at hs
    rw [hs]

theorem sandwich_ne_empty {a x b : String} (ha : LWord a) :
    (a ++ x ++ b).isEmpty = false := by
  apply isEmpty_false_of
  simp only [String.data_append]
  intro hc
  rcases List.append_eq_nil.mp hc with ⟨h1, _⟩
  exact ha.1 (List.append_eq_nil.mp h1).1

theorem passBr_skip_sandwich {a x b : List Char} (ha : NoChar '<' a)
    (hx : brSkippable x = true) (hb : NoChar '<' b) :
    passBr (a ++ (x ++ b)) = a ++ (x ++ b) := by
  rw [passBr_app _ ha, passBr_skip hx hb]

theorem passHeading_skip_sandwich {a x b : List Char} (ha : NoChar '<' a)
    (hx : hSkippable x = true) (hb : NoChar '<' b) :
    passHeading (a ++ (x ++ b)) = a ++ (x ++ b) := by
  rw [passHeading_app _ ha, passHeading_skip hx hb]

theorem passBlock_skip_sandwich {name close a x b : List Char} (ha : NoChar '<' a)
    (hx : blockSkippable name x = true) (hb : NoChar '<' b) :
    passBlock name close (a ++ (x ++ b)) = a ++ (x ++ b) := by
  rw [passBlock_app _ ha, passBlock_skip hx hb]

/-- The manual conversion turns `</li>` between plain words into one
newline. -/
theorem manual_li {a b : String} (ha : LWord a) (hb : LWord b) :
    htmlToPlainTextManual (a ++ "</li>" ++ b) = ⟨a.data ++ ('\n' :: b.data)⟩ := by
  obtain ⟨haLt, haGt, haNl, haCIl, haCIa, haST⟩ := word_bundle ha
  obtain ⟨hbLt, hbGt, hbNl, hbCIl, hbCIa, hbST⟩ := word_bundle hb
  have hd : (a ++ "</li>" ++ b).data = a.data ++ ("</li>".data ++ b.data) := by
    rw [String.data_append, String.data_append, List.append_assoc]
  unfold htmlToPlainTextManual
  rw [sandwich_ne_empty ha]
  simp only [Bool.false_eq_true, if_false]
  rw [hd]
  unfold tagPassesManual
  rw [passBr_skip_sandwich haLt (by decide) hbLt]
  rw [passFix_skip_sandwich haCIl (by decide) hbCIl]
  rw [passFix_skip_sandwich haCIl (by decide) hbCIl]
  rw [show ("</li>".data : List Char) = '<' :: "/li>".data from rfl]
  rw [passFix_sandwich haCIl hbCIl]
  rw [show ("\n".data : List Char) ++ b.data = '\n' :: b.data from rfl]
  have hmCIl : NoCI '<' (a.data ++ ('\n' :: b.data)) :=
    noCI_append haCIl (noCI_cons (by decide) hbCIl)
  have hmLt : NoChar '<' (a.data ++ ('\n' :: b.data)) :=
    noChar_append haLt (noChar_cons (by decide) hbLt)
  have hmCIa : NoCI '&' (a.data ++ ('\n' :: b.data)) :=
    noCI_append haCIa (noCI_cons (by decide) hbCIa)
  rw [passFix_id _ hmCIl, passHeading_id _ hmLt, passBlock_id _ hmLt,
    passBlock_id _ hmLt, passTags_id _ hmLt]
  rw [entityPassesManual_id _ hmCIa]
  exact congrArg String.mk (manualTail_nl ha hb)

/-- The automatic conversion strips `</li>` like any other tag: no
newline is inserted. -/
theorem auto_li {a b : String} (ha : LWord a) (hb : LWord b) :
    htmlToPlainTextAuto (a ++ "</li>" ++ b) = ⟨a.data ++ b.data⟩ := by
  obtain ⟨haLt, haGt, haNl, haCIl, haCIa, haST⟩ := word_bundle ha
  obtain ⟨hbLt, hbGt, hbNl, hbCIl, hbCIa, hbST⟩ := word_bundle hb
  have hd : (a ++ "</li>" ++ b).data = a.data ++ ("</li>".data ++ b.data) := by
    rw [String.data_append, String.data_append, List.append_assoc]
  unfold htmlToPlainTextAuto
  rw [sandwich_ne_empty ha]
  simp only [Bool.false_eq_true, if_false]
  rw [hd]
  unfold tagPassesAuto
  rw [passBr_skip_sandwich haLt (by decide) hbLt]
  rw [passFix_skip_sandwich haCIl (by decide) hbCIl]
  rw [passFix_skip_sandwich haCIl (by decide) hbCIl]
  rw [passBlock_skip_sandwich haLt (by decide) hbLt]
  rw [passBlock_skip_sandwich haLt (by decide) hbLt]
  rw [passTags_app _ haLt]
  rw [show ("</li>".data : List Char) ++ b.data = '<' :: ("/li".data ++ '>' :: b.data)
    from rfl]
  rw [passTags_cons_match (tagRest_self b.data (by decide) (by decide)),
    passTags_id _ hbLt]
  rw [entityPassesAuto_id _ (noCI_append haCIa hbCIa)]
  exact congrArg String.mk
    (autoTail_plain [] ha hb (fun c hc => absurd hc (List.not_mem_nil c)))

/-- The manual conversion turns `</tr>` between plain words into one
newline. -/
theorem manual_tr {a b : String} (ha : LWord a) (hb : LWord b) :
    htmlToPlainTextManual (a ++ "</tr>" ++ b) = ⟨a.data ++ ('\n' :: b.data)⟩ := by
  obtain ⟨haLt, haGt, haNl, haCIl, haCIa, haST⟩ := word_bundle ha
  obtain ⟨hbLt, hbGt, hbNl, hbCIl, hbCIa, hbST⟩ := word_bundle hb
  have hd : (a ++ "</tr>" ++ b).data = a.data ++ ("</tr>".data ++ b.data) := by
    rw [String.data_append, String.data_append, List.append_assoc]
  unfold htmlToPlainTextManual
  rw [sandwich_ne_empty ha]
  simp only [Bool.false_eq_true, if_false]
  rw [hd]
  unfold tagPassesManual
  rw [passBr_skip_sandwich haLt (by decide) hbLt]
  rw [passFix_skip_sandwich haCIl (by decide) hbCIl]
  rw [passFix_skip_sandwich haCIl (by decide) hbCIl]
  rw [passFix_skip_sandwich haCIl (by decide) hbCIl]
  rw [show ("</tr>".data : List Char) = '<' :: "/tr>".data from rfl]
  rw [passFix_sandwich haCIl hbCIl]
  rw [show ("\n".data : List Char) ++ b.data = '\n' :: b.data from rfl]
  have hmLt : NoChar '<' (a.data ++ ('\n' :: b.data)) :=
    noChar_append haLt (noChar_cons (by decide) hbLt)
  have hmCIa : NoCI '&' (a.data ++ ('\n' :: b.data)) :=
    noCI_append haCIa (noCI_cons (by decide) hbCIa)
  rw [passHeading_id _ hmLt, passBlock_id _ hmLt, passBlock_id _ hmLt,
    passTags_id _ hmLt]
  rw [entityPassesManual_id _ hmCIa]
  exact congrArg String.mk (manualTail_nl ha hb)

/-- The manual conversion turns a heading close between plain words into
two newlines. -/
theorem manual_h2 {a b : String} (ha : LWord a) (hb : LWord b) :
    htmlToPlainTextManual (a ++ "</h2>" ++ b) =
      ⟨a.data ++ ('\n' :: '\n' :: b.data)⟩ := by
  obtain ⟨haLt, haGt, haNl, haCIl, haCIa, haST⟩ := word_bundle ha
  obtain ⟨hbLt, hbGt, hbNl, hbCIl, hbCIa, hbST⟩ := word_bundle hb
  have hd : (a ++ "</h2>" ++ b).data = a.data ++ ("</h2>".data ++ b.data) := by
    rw [String.data_append, String.data_append, List.append_assoc]
  unfold htmlToPlainTextManual
  rw [sandwich_ne_empty ha]
  simp only [Bool.false_eq_true, if_false]
  rw [hd]
  unfold tagPassesManual
  rw [passBr_skip_sandwich haLt (by decide) hbLt]
  rw [passFix_skip_sandwich haCIl (by decide) hbCIl]
  rw [passFix_skip_sandwich haCIl (by decide) hbCIl]
  rw [passFix_skip_sandwich haCIl (by decide) hbCIl]
  rw [passFix_skip_sandwich haCIl (by decide) hbCIl]
  rw [passHeading_app _ haLt]
  rw [show ("</h2>".data : List Char) ++ b.data = '<' :: ("/h2>".data ++ b.data)
    from rfl]
  rw [passHeading_cons_match (show hRest ("/h2>".data ++ b.data) = some b.data
    from rfl)]
  rw [passHeading_id _ hbLt]
  have hmLt : NoChar '<' (a.data ++ ('\n' :: '\n' :: b.data)) :=
    noChar_append haLt (noChar_cons (by decide) (noChar_cons (by decide) hbLt))
  have hmCIa : NoCI '&' (a.data ++ ('\n' :: '\n' :: b.data)) :=
    noCI_append haCIa (noCI_cons (by decide) (noCI_cons (by decide) hbCIa))
  rw [passBlock_id _ hmLt, passBlock_id _ hmLt, passTags_id _ hmLt]
  rw [entityPassesManual_id _ hmCIa]
  exact congrArg String.mk (manualTail_nl2 ha hb)

/-- Both conversions turn `</p>` between plain words into two newlines
(manual version). -/
theorem manual_p {a b : String} (ha : LWord a) (hb : LWord b) :
    htmlToPlainTextManual (a ++ "</p>" ++ b) =
      ⟨a.data ++ ('\n' :: '\n' :: b.data)⟩ := by
  obtain ⟨haLt, haGt, haNl, haCIl, haCIa, haST⟩ := word_bundle ha
  obtain ⟨hbLt, hbGt, hbNl, hbCIl, hbCIa, hbST⟩ := word_bundle hb
  have hd : (a ++ "</p>" ++ b).data = a.data ++ ("</p>".data ++ b.data) := by
    rw [String.data_append, String.data_append, List.append_assoc]
  unfold htmlToPlainTextManual
  rw [sandwich_ne_empty ha]
  simp only [Bool.false_eq_true, if_false]
  rw [hd]
  unfold tagPassesManual
  rw [passBr_skip_sandwich haLt (by decide) hbLt]
  rw [show ("</p>".data : List Char) = '<' :: "/p>".data from rfl]
  rw [passFix_sandwich haCIl hbCIl]
  rw [show ("\n\n".data : List Char) ++ b.data = '\n' :: '\n' :: b.data from rfl]
  have hmLt : NoChar '<' (a.data ++ ('\n' :: '\n' :: b.data)) :=
    noChar_append haLt (noChar_cons (by decide) (noChar_cons (by decide) hbLt))
  have hmCIl : NoCI '<' (a.data ++ ('\n' :: '\n' :: b.data)) :=
    noCI_append haCIl (noCI_cons (by decide) (noCI_cons (by decide) hbCIl))
  have hmCIa : NoCI '&' (a.data ++ ('\n' :: '\n' :: b.data)) :=
    noCI_append haCIa (noCI_cons (by decide) (noCI_cons (by decide) hbCIa))
  rw [passFix_id _ hmCIl, passFix_id _ hmCIl, passFix_id _ hmCIl,
    passHeading_id _ hmLt, passBlock_id _ hmLt, passBlock_id _ hmLt,
    passTags_id _ hmLt]
  rw [entityPassesManual_id _ hmCIa]
  exact congrArg String.mk (manualTail_nl2 ha hb)

/-- The manual conversion turns `</div>` between plain words into one
newline. -/
theorem manual_div {a b : String} (ha : LWord a) (hb : LWord b) :
    htmlToPlainTextManual (a ++ "</div>" ++ b) = ⟨a.data ++ ('\n' :: b.data)⟩ := by
  obtain ⟨haLt, haGt, haNl, haCIl, haCIa, haST⟩ := word_bundle ha
  obtain ⟨hbLt, hbGt, hbNl, hbCIl, hbCIa, hbST⟩ := word_bundle hb
  have hd : (a ++ "</div>" ++ b).data = a.data ++ ("</div>".data ++ b.data) := by
    rw [String.data_append, String.data_append, List.append_assoc]
  unfold htmlToPlainTextManual
  rw [sandwich_ne_empty ha]
  simp only [Bool.false_eq_true, if_false]
  rw [hd]
  unfold tagPassesManual
  rw [passBr_skip_sandwich haLt (by decide) hbLt]
  rw [passFix_skip_sandwich haCIl (by decide) hbCIl]
  rw [show ("</div>".data : List Char) = '<' :: "/div>".data from rfl]
  rw [passFix_sandwich haCIl hbCIl]
  rw [show ("\n".data : List Char) ++ b.data = '\n' :: b.data from rfl]
  have hmLt : NoChar '<' (a.data ++ ('\n' :: b.data)) :=
    noChar_append haLt (noChar_cons (by decide) hbLt)
  have hmCIl : NoCI '<' (a.data ++ ('\n' :: b.data)) :=
    noCI_append haCIl (noCI_cons (by decide) hbCIl)
  have hmCIa : NoCI '&' (a.data ++ ('\n' :: b.data)) :=
    noCI_append haCIa (noCI_cons (by decide) hbCIa)
  rw [passFix_id _ hmCIl, passFix_id _ hmCIl, passHeading_id _ hmLt,
    passBlock_id _ hmLt, passBlock_id _ hmLt, passTags_id _ hmLt]
  rw [entityPassesManual_id _ hmCIa]
  exact congrArg String.mk (manualTail_nl ha hb)

/-- The manual conversion turns `<br>` between plain words into one
newline. -/
theorem manual_br {a b : String} (ha : LWord a) (hb : LWord b) :
    htmlToPlainTextManual (a ++ "<br>" ++ b) = ⟨a.data ++ ('\n' :: b.data)⟩ := by
  obtain ⟨haLt, haGt, haNl, haCIl, haCIa, haST⟩ := word_bundle ha
  obtain ⟨hbLt, hbGt, hbNl, hbCIl, hbCIa, hbST⟩ := word_bundle hb
  have hd : (a ++ "<br>" ++ b).data = a.data ++ ("<br>".data ++ b.data) := by
    rw [String.data_append, String.data_append, List.append_assoc]
  unfold htmlToPlainTextManual
  rw [sandwich_ne_empty ha]
  simp only [Bool.false_eq_true, if_false]
  rw [hd]
  unfold tagPassesManual
  rw [passBr_app _ haLt]
  rw [show ("<br>".data : List Char) ++ b.data = '<' :: ('b' :: 'r' :: '>' :: b.data)
    from rfl]
  rw [passBr_cons_match (show brRest ('b' :: 'r' :: '>' :: b.data) = some b.data
    from rfl)]
  rw [passBr_id _ hbLt]
  have hmLt : NoChar '<' (a.data ++ ('\n' :: b.data)) :=
    noChar_append haLt (noChar_cons (by decide) hbLt)
  have hmCIl : NoCI '<' (a.data ++ ('\n' :: b.data)) :=
    noCI_append haCIl (noCI_cons (by decide) hbCIl)
  have hmCIa : NoCI '&' (a.data ++ ('\n' :: b.data)) :=
    noCI_append haCIa (noCI_cons (by decide) hbCIa)
  rw [passFix_id _ hmCIl, passFix_id _ hmCIl, passFix_id _ hmCIl,
    passFix_id _ hmCIl, passHeading_id _ hmLt, passBlock_id _ hmLt,
    passBlock_id _ hmLt, passTags_id _ hmLt]
  rw [entityPassesManual_id _ hmCIa]
  exact congrArg String.mk (manualTail_nl ha hb)

/-- Three consecutive `<br>` between plain words collapse to exactly two
newlines in the manual conversion. -/
theorem manual_br3 {a b : String} (ha : LWord a) (hb : LWord b) :
    htmlToPlainTextManual (a ++ "<br><br><br>" ++ b) =
      ⟨a.data ++ ('\n' :: '\n' :: b.data)⟩ := by
  obtain ⟨haLt, haGt, haNl, haCIl, haCIa, haST⟩ := word_bundle ha
  obtain ⟨hbLt, hbGt, hbNl, hbCIl, hbCIa, hbST⟩ := word_bundle hb
  have hd : (a ++ "<br><br><br>" ++ b).data =
      a.data ++ ("<br><br><br>".data ++ b.data) := by
    rw [String.data_append, String.data_append, List.append_assoc]
  unfold htmlToPlainTextManual
  rw [sandwich_ne_empty ha]
  simp only [Bool.false_eq_true, if_false]
  rw [hd]
  unfold tagPassesManual
  rw [passBr_app _ haLt]
  rw [show ("<br><br><br>".data : List Char) ++ b.data =
    '<' :: ('b' :: 'r' :: '>' :: ('<' :: ('b' :: 'r' :: '>' ::
      ('<' :: ('b' :: 'r' :: '>' :: b.data))))) from rfl]
  rw [passBr_cons_match (show brRest ('b' :: 'r' :: '>' ::
    ('<' :: ('b' :: 'r' :: '>' :: ('<' :: ('b' :: 'r' :: '>' :: b.data))))) =
    some ('<' :: ('b' :: 'r' :: '>' :: ('<' :: ('b' :: 'r' :: '>' :: b.data))))
    from rfl)]
  rw [passBr_cons_match (show brRest ('b' :: 'r' :: '>' ::
    ('<' :: ('b' :: 'r' :: '>' :: b.data))) =
    some ('<' :: ('b' :: 'r' :: '>' :: b.data)) from rfl)]
  rw [passBr_cons_match (show brRest ('b' :: 'r' :: '>' :: b.data) = some b.data
    from rfl)]
  rw [passBr_id _ hbLt]
  have hmLt : NoChar '<' (a.data ++ ('\n' :: '\n' :: '\n' :: b.data)) :=
    noChar_append haLt (noChar_cons (by decide) (noChar_cons (by decide)
      (noChar_cons (by decide) hbLt)))
  have hmCIl : NoCI '<' (a.data ++ ('\n' :: '\n' :: '\n' :: b.data)) :=
    noCI_append haCIl (noCI_cons (by decide) (noCI_cons (by decide)
      (noCI_cons (by decide) hbCIl)))
  have hmCIa : NoCI '&' (a.data ++ ('\n' :: '\n' :: '\n' :: b.data)) :=
    noCI_append haCIa (noCI_cons (by decide) (noCI_cons (by decide)
      (noCI_cons (by decide) hbCIa)))
  rw [passFix_id _ hmCIl, passFix_id _ hmCIl, passFix_id _ hmCIl,
    passFix_id _ hmCIl, passHeading_id _ hmLt, passBlock_id _ hmLt,
    passBlock_id _ hmLt, passTags_id _ hmLt]
  rw [entityPassesManual_id _ hmCIa]
  exact congrArg String.mk (manualTail_nl3 ha hb)

/-- In the manual conversion, whitespace after a `<br>`-made newline is
removed by the per-line cleanup. -/
theorem manual_brsp {a b : String} (ha : LWord a) (hb : LWord b) :
    htmlToPlainTextManual (a ++ "<br> " ++ b) = ⟨a.data ++ ('\n' :: b.data)⟩ := by
  obtain ⟨haLt, haGt, haNl, haCIl, haCIa, haST⟩ := word_bundle ha
  obtain ⟨hbLt, hbGt, hbNl, hbCIl, hbCIa, hbST⟩ := word_bundle hb
  have hd : (a ++ "<br> " ++ b).data = a.data ++ ("<br> ".data ++ b.data) := by
    rw [String.data_append, String.data_append, List.append_assoc]
  unfold htmlToPlainTextManual
  rw [sandwich_ne_empty ha]
  simp only [Bool.false_eq_true, if_false]
  rw [hd]
  unfold tagPassesManual
  rw [passBr_app _ haLt]
  rw [show ("<br> ".data : List Char) ++ b.data =
    '<' :: ('b' :: 'r' :: '>' :: (' ' :: b.data)) from rfl]
  rw [passBr_cons_match (show brRest ('b' :: 'r' :: '>' :: (' ' :: b.data)) =
    some (' ' :: b.data) from rfl)]
  rw [passBr_cons_ne (by decide), passBr_id _ hbLt]
  have hmLt : NoChar '<' (a.data ++ ('\n' :: ' ' :: b.data)) :=
    noChar_append haLt (noChar_cons (by decide) (noChar_cons (by decide) hbLt))
  have hmCIl : NoCI '<' (a.data ++ ('\n' :: ' ' :: b.data)) :=
    noCI_append haCIl (noCI_cons (by decide) (noCI_cons (by decide) hbCIl))
  have hmCIa : NoCI '&' (a.data ++ ('\n' :: ' ' :: b.data)) :=
    noCI_append haCIa (noCI_cons (by decide) (noCI_cons (by decide) hbCIa))
  rw [passFix_id _ hmCIl, passFix_id _ hmCIl, passFix_id _ hmCIl,
    passFix_id _ hmCIl, passHeading_id _ hmLt, passBlock_id _ hmLt,
    passBlock_id _ hmLt, passTags_id _ hmLt]
  rw [entityPassesManual_id _ hmCIa]
  exact congrArg String.mk (manualTail_nlsp ha hb)

/-- The automatic conversion turns `<br>` between plain words into one
newline. -/
theorem auto_br {a b : String} (ha : LWord a) (hb : LWord b) :
    htmlToPlainTextAuto (a ++ "<br>" ++ b) = ⟨a.data ++ ('\n' :: b.data)⟩ := by
  obtain ⟨haLt, haGt, haNl, haCIl, haCIa, haST⟩ := word_bundle ha
  obtain ⟨hbLt, hbGt, hbNl, hbCIl, hbCIa, hbST⟩ := word_bundle hb
  have hd : (a ++ "<br>" ++ b).data = a.data ++ ("<br>".data ++ b.data) := by
    rw [String.data_append, String.data_append, List.append_assoc]
  unfold htmlToPlainTextAuto
  rw [sandwich_ne_empty ha]
  simp only [Bool.false_eq_true, if_false]
  rw [hd]
  unfold tagPassesAuto
  rw [passBr_app _ haLt]
  rw [show ("<br>".data : List Char) ++ b.data = '<' :: ('b' :: 'r' :: '>' :: b.data)
    from rfl]
  rw [passBr_cons_match (show brRest ('b' :: 'r' :: '>' :: b.data) = some b.data
    from rfl)]
  rw [passBr_id _ hbLt]
  have hmLt : NoChar '<' (a.data ++ ('\n' :: b.data)) :=
    noChar_append haLt (noChar_cons (by decide) hbLt)
  have hmCIl : NoCI '<' (a.data ++ ('\n' :: b.data)) :=
    noCI_append haCIl (noCI_cons (by decide) hbCIl)
  have hmCIa : NoCI '&' (a.data ++ ('\n' :: b.data)) :=
    noCI_append haCIa (noCI_cons (by decide) hbCIa)
  rw [passFix_id _ hmCIl, passFix_id _ hmCIl, passBlock_id _ hmLt,
    passBlock_id _ hmLt, passTags_id _ hmLt]
  rw [entityPassesAuto_id _ hmCIa]
  exact congrArg String.mk (autoTail_nl ha hb)

/-- In the automatic conversion, whitespace after a `<br>`-made newline
survives: there is no per-line cleanup. -/
theorem auto_brsp {a b : String} (ha : LWord a) (hb : LWord b) :
    htmlToPlainTextAuto (a ++ "<br> " ++ b) =
      ⟨a.data ++ ('\n' :: ' ' :: b.data)⟩ := by
  obtain ⟨haLt, haGt, haNl, haCIl, haCIa, haST⟩ := word_bundle ha
  obtain ⟨hbLt, hbGt, hbNl, hbCIl, hbCIa, hbST⟩ := word_bundle hb
  have hd : (a ++ "<br> " ++ b).data = a.data ++ ("<br> ".data ++ b.data) := by
    rw [String.data_append, String.data_append, List.append_assoc]
  unfold htmlToPlainTextAuto
  rw [sandwich_ne_empty ha]
  simp only [Bool.false_eq_true, if_false]
  rw [hd]
  unfold tagPassesAuto
  rw [passBr_app _ haLt]
  rw [show ("<br> ".data : List Char) ++ b.data =
    '<' :: ('b' :: 'r' :: '>' :: (' ' :: b.data)) from rfl]
  rw [passBr_cons_match (show brRest ('b' :: 'r' :: '>' :: (' ' :: b.data)) =
    some (' ' :: b.data) from rfl)]
  rw [passBr_cons_ne (by decide), passBr_id _ hbLt]
  have hmLt : NoChar '<' (a.data ++ ('\n' :: ' ' :: b.data)) :=
    noChar_append haLt (noChar_cons (by decide) (noChar_cons (by decide) hbLt))
  have hmCIl : NoCI '<' (a.data ++ ('\n' :: ' ' :: b.data)) :=
    noCI_append haCIl (noCI_cons (by decide) (noCI_cons (by decide) hbCIl))
  have hmCIa : NoCI '&' (a.data ++ ('\n' :: ' ' :: b.data)) :=
    noCI_append haCIa (noCI_cons (by decide) (noCI_cons (by decide) hbCIa))
  rw [passFix_id _ hmCIl, passFix_id _ hmCIl, passBlock_id _ hmLt,
    passBlock_id _ hmLt, passTags_id _ hmLt]
  rw [entityPassesAuto_id _ hmCIa]
  exact congrArg String.mk (autoTail_nlsp ha hb)

/-- Three consecutive `<br>` collapse to exactly two newlines in the
automatic conversion as well. -/
theorem auto_br3 {a b : String} (ha : LWord a) (hb : LWord b) :
    htmlToPlainTextAuto (a ++ "<br><br><br>" ++ b) =
      ⟨a.data ++ ('\n' :: '\n' :: b.data)⟩ := by
  obtain ⟨haLt, haGt, haNl, haCIl, haCIa, haST⟩ := word_bundle ha
  obtain ⟨hbLt, hbGt, hbNl, hbCIl, hbCIa, hbST⟩ := word_bundle hb
  have hd : (a ++ "<br><br><br>" ++ b).data =
      a.data ++ ("<br><br><br>".data ++ b.data) := by
    rw [String.data_append, String.data_append, List.append_assoc]
  unfold htmlToPlainTextAuto
  rw [sandwich_ne_empty ha]
  simp only [Bool.false_eq_true, if_false]
  rw [hd]
  unfold tagPassesAuto
  rw [passBr_app _ haLt]
  rw [show ("<br><br><br>".data : List Char) ++ b.data =
    '<' :: ('b' :: 'r' :: '>' :: ('<' :: ('b' :: 'r' :: '>' ::
      ('<' :: ('b' :: 'r' :: '>' :: b.data))))) from rfl]
  rw [passBr_cons_match (show brRest ('b' :: 'r' :: '>' ::
    ('<' :: ('b' :: 'r' :: '>' :: ('<' :: ('b' :: 'r' :: '>' :: b.data))))) =
    some ('<' :: ('b' :: 'r' :: '>' :: ('<' :: ('b' :: 'r' :: '>' :: b.data))))
    from rfl)]
  rw [passBr_cons_match (show brRest ('b' :: 'r' :: '>' ::
    ('<' :: ('b' :: 'r' :: '>' :: b.data))) =
    some ('<' :: ('b' :: 'r' :: '>' :: b.data)) from rfl)]
  rw [passBr_cons_match (show brRest ('b' :: 'r' :: '>' :: b.data) = some b.data
    from rfl)]
  rw [passBr_id _ hbLt]
  have hmLt : NoChar '<' (a.data ++ ('\n' :: '\n' :: '\n' :: b.data)) :=
    noChar_append haLt (noChar_cons (by decide) (noChar_cons (by decide)
      (noChar_cons (by decide) hbLt)))
  have hmCIl : NoCI '<' (a.data ++ ('\n' :: '\n' :: '\n' :: b.data)) :=
    noCI_append haCIl (noCI_cons (by decide) (noCI_cons (by decide)
      (noCI_cons (by decide) hbCIl)))
  have hmCIa : NoCI '&' (a.data ++ ('\n' :: '\n' :: '\n' :: b.data)) :=
    noCI_append haCIa (noCI_cons (by decide) (noCI_cons (by decide)
      (noCI_cons (by decide) hbCIa)))
  rw [passFix_id _ hmCIl, passFix_id _ hmCIl, passBlock_id _ hmLt,
    passBlock_id _ hmLt, passTags_id _ hmLt]
  rw [entityPassesAuto_id _ hmCIa]
  exact congrArg String.mk (autoTail_nl3 ha hb)

/-- The automatic conversion turns `</p>` between plain words into two
newlines. -/
theorem auto_p {a b : String} (ha : LWord a) (hb : LWord b) :
    htmlToPlainTextAuto (a ++ "</p>" ++ b) =
      ⟨a.data ++ ('\n' :: '\n' :: b.data)⟩ := by
  obtain ⟨haLt, haGt, haNl, haCIl, haCIa, haST⟩ := word_bundle ha
  obtain ⟨hbLt, hbGt, hbNl, hbCIl, hbCIa, hbST⟩ := word_bundle hb
  have hd : (a ++ "</p>" ++ b).data = a.data ++ ("</p>".data ++ b.data) := by
    rw [String.data_append, String.data_append, List.append_assoc]
  unfold htmlToPlainTextAuto
  rw [sandwich_ne_empty ha]
  simp only [Bool.false_eq_true, if_false]
  rw [hd]
  unfold tagPassesAuto
  rw [passBr_skip_sandwich haLt (by decide) hbLt]
  rw [show ("</p>".data : List Char) = '<' :: "/p>".data from rfl]
  rw [passFix_sandwich haCIl hbCIl]
  rw [show ("\n\n".data : List Char) ++ b.data = '\n' :: '\n' :: b.data from rfl]
  have hmLt : NoChar '<' (a.data ++ ('\n' :: '\n' :: b.data)) :=
    noChar_append haLt (noChar_cons (by decide) (noChar_cons (by decide) hbLt))
  have hmCIl : NoCI '<' (a.data ++ ('\n' :: '\n' :: b.data)) :=
    noCI_append haCIl (noCI_cons (by decide) (noCI_cons (by decide) hbCIl))
  have hmCIa : NoCI '&' (a.data ++ ('\n' :: '\n' :: b.data)) :=
    noCI_append haCIa (noCI_cons (by decide) (noCI_cons (by decide) hbCIa))
  rw [passFix_id _ hmCIl, passBlock_id _ hmLt, passBlock_id _ hmLt,
    passTags_id _ hmLt]
  rw [entityPassesAuto_id _ hmCIa]
  exact congrArg String.mk (autoTail_nl2 ha hb)

/-- The automatic conversion turns `</div>` between plain words into one
newline. -/
theorem auto_div {a b : String} (ha : LWord a) (hb : LWord b) :
    htmlToPlainTextAuto (a ++ "</div>" ++ b) = ⟨a.data ++ ('\n' :: b.data)⟩ := by
  obtain ⟨haLt, haGt, haNl, haCIl, haCIa, haST⟩ := word_bundle ha
  obtain ⟨hbLt, hbGt, hbNl, hbCIl, hbCIa, hbST⟩ := word_bundle hb
  have hd : (a ++ "</div>" ++ b).data = a.data ++ ("</div>".data ++ b.data) := by
    rw [String.data_append, String.data_append, List.append_assoc]
  unfold htmlToPlainTextAuto
  rw [sandwich_ne_empty ha]
  simp only [Bool.false_eq_true, if_false]
  rw [hd]
  unfold tagPassesAuto
  rw [passBr_skip_sandwich haLt (by decide) hbLt]
  rw [passFix_skip_sandwich haCIl (by decide) hbCIl]
  rw [show ("</div>".data : List Char) = '<' :: "/div>".data from rfl]
  rw [passFix_sandwich haCIl hbCIl]
  rw [show ("\n".data : List Char) ++ b.data = '\n' :: b.data from rfl]
  have hmLt : NoChar '<' (a.data ++ ('\n' :: b.data)) :=
    noChar_append haLt (noChar_cons (by decide) hbLt)
  have hmCIa : NoCI '&' (a.data ++ ('\n' :: b.data)) :=
    noCI_append haCIa (noCI_cons (by decide) hbCIa)
  rw [passBlock_id _ hmLt, passBlock_id _ hmLt, passTags_id _ hmLt]
  rw [entityPassesAuto_id _ hmCIa]
  exact congrArg String.mk (autoTail_nl ha hb)

/-- The automatic conversion strips `</tr>` like any other tag. -/
theorem auto_tr {a b : String} (ha : LWord a) (hb : LWord b) :
    htmlToPlainTextAuto (a ++ "</tr>" ++ b) = ⟨a.data ++ b.data⟩ := by
  obtain ⟨haLt, haGt, haNl, haCIl, haCIa, haST⟩ := word_bundle ha
  obtain ⟨hbLt, hbGt, hbNl, hbCIl, hbCIa, hbST⟩ := word_bundle hb
  have hd : (a ++ "</tr>" ++ b).data = a.data ++ ("</tr>".data ++ b.data) := by
    rw [String.data_append, String.data_append, List.append_assoc]
  unfold htmlToPlainTextAuto
  rw [sandwich_ne_empty ha]
  simp only [Bool.false_eq_true, if_false]
  rw [hd]
  unfold tagPassesAuto
  rw [passBr_skip_sandwich haLt (by decide) hbLt]
  rw [passFix_skip_sandwich haCIl (by decide) hbCIl]
  rw [passFix_skip_sandwich haCIl (by decide) hbCIl]
  rw [passBlock_skip_sandwich haLt (by decide) hbLt]
  rw [passBlock_skip_sandwich haLt (by decide) hbLt]
  rw [passTags_app _ haLt]
  rw [show ("</tr>".data : List Char) ++ b.data = '<' :: ("/tr".data ++ '>' :: b.data)
    from rfl]
  rw [passTags_cons_match (tagRest_self b.data (by decide) (by decide)),
    passTags_id _ hbLt]
  rw [entityPassesAuto_id _ (noCI_append haCIa hbCIa)]
  exact congrArg String.mk
    (autoTail_plain [] ha hb (fun c hc => absurd hc (List.not_mem_nil c)))

/-- The automatic conversion strips heading closes like any other tag: no
newline is inserted. -/
theorem auto_h2 {a b : String} (ha : LWord a) (hb : LWord b) :
    htmlToPlainTextAuto (a ++ "</h2>" ++ b) = ⟨a.data ++ b.data⟩ := by
  obtain ⟨haLt, haGt, haNl, haCIl, haCIa, haST⟩ := word_bundle ha
  obtain ⟨hbLt, hbGt, hbNl, hbCIl, hbCIa, hbST⟩ := word_bundle hb
  have hd : (a ++ "</h2>" ++ b).data = a.data ++ ("</h2>".data ++ b.data) := by
    rw [String.data_append, String.data_append, List.append_assoc]
  unfold htmlToPlainTextAuto
  rw [sandwich_ne_empty ha]
  simp only [Bool.false_eq_true, if_false]
  rw [hd]
  unfold tagPassesAuto
  rw [passBr_skip_sandwich haLt (by decide) hbLt]
  rw [passFix_skip_sandwich haCIl (by decide) hbCIl]
  rw [passFix_skip_sandwich haCIl (by decide) hbCIl]
  rw [passBlock_skip_sandwich haLt (by decide) hbLt]
  rw [passBlock_skip_sandwich haLt (by decide) hbLt]
  rw [passTags_app _ haLt]
  rw [show ("</h2>".data : List Char) ++ b.data = '<' :: ("/h2".data ++ '>' :: b.data)
    from rfl]
  rw [passTags_cons_match (tagRest_self b.data (by decide) (by decide)),
    passTags_id _ hbLt]
  rw [entityPassesAuto_id _ (noCI_append haCIa hbCIa)]
  exact congrArg String.mk
    (autoTail_plain [] ha hb (fun c hc => absurd hc (List.not_mem_nil c)))

/-- The manual conversion decodes `&#39;` to a single quote. -/
theorem manual_num39 {a b : String} (ha : LWord a) (hb : LWord b) :
    htmlToPlainTextManual (a ++ "&#39;" ++ b) =
      ⟨a.data ++ (Char.ofNat 39 :: b.data)⟩ := by
  obtain ⟨haLt, haGt, haNl, haCIl, haCIa, haST⟩ := word_bundle ha
  obtain ⟨hbLt, hbGt, hbNl, hbCIl, hbCIa, hbST⟩ := word_bundle hb
  have hd : (a ++ "&#39;" ++ b).data = a.data ++ ("&#39;".data ++ b.data) := by
    rw [String.data_append, String.data_append, List.append_assoc]
  unfold htmlToPlainTextManual
  rw [sandwich_ne_empty ha]
  simp only [Bool.false_eq_true, if_false]
  rw [hd]
  rw [tagPassesManual_id _ (noChar_append haLt (noChar_append (by decide) hbLt))
    (noCI_append haCIl (noCI_append (by decide) hbCIl))]
  unfold entityPassesManual entityPassesAuto
  rw [passFix_skip_sandwich haCIa (by decide) hbCIa]
  rw [passFix_skip_sandwich haCIa (by decide) hbCIa]
  rw [passFix_skip_sandwich haCIa (by decide) hbCIa]
  rw [passFix_skip_sandwich haCIa (by decide) hbCIa]
  rw [passFix_skip_sandwich haCIa (by decide) hbCIa]
  rw [show ("&#39;".data : List Char) = '&' :: "#39;".data from rfl]
  rw [passFix_sandwich haCIa hbCIa]
  rw [show (sq.data : List Char) ++ b.data = Char.ofNat 39 :: b.data from rfl]
  rw [passFix_id _ (noCI_append haCIa (noCI_cons (by decide) hbCIa))]
  exact congrArg String.mk
    (manualTail_plain [Char.ofNat 39] ha hb (by decide) (by decide))

/-- The manual conversion decodes `&apos;` to a single quote. -/
theorem manual_apos {a b : String} (ha : LWord a) (hb : LWord b) :
    htmlToPlainTextManual (a ++ "&apos;" ++ b) =
      ⟨a.data ++ (Char.ofNat 39 :: b.data)⟩ := by
  obtain ⟨haLt, haGt, haNl, haCIl, haCIa, haST⟩ := word_bundle ha
  obtain ⟨hbLt, hbGt, hbNl, hbCIl, hbCIa, hbST⟩ := word_bundle hb
  have hd : (a ++ "&apos;" ++ b).data = a.data ++ ("&apos;".data ++ b.data) := by
    rw [String.data_append, String.data_append, List.append_assoc]
  unfold htmlToPlainTextManual
  rw [sandwich_ne_empty ha]
  simp only [Bool.false_eq_true, if_false]
  rw [hd]
  rw [tagPassesManual_id _ (noChar_append haLt (noChar_append (by decide) hbLt))
    (noCI_append haCIl (noCI_append (by decide) hbCIl))]
  unfold entityPassesManual entityPassesAuto
  rw [passFix_skip_sandwich haCIa (by decide) hbCIa]
  rw [passFix_skip_sandwich haCIa (by decide) hbCIa]
  rw [passFix_skip_sandwich haCIa (by decide) hbCIa]
  rw [passFix_skip_sandwich haCIa (by decide) hbCIa]
  rw [passFix_skip_sandwich haCIa (by decide) hbCIa]
  rw [passFix_skip_sandwich haCIa (by decide) hbCIa]
  rw [show ("&apos;".data : List Char) = '&' :: "apos;".data from rfl]
  rw [passFix_sandwich haCIa hbCIa]
  rw [show (sq.data : List Char) ++ b.data = Char.ofNat 39 :: b.data from rfl]
  exact congrArg String.mk
    (manualTail_plain [Char.ofNat 39] ha hb (by decide) (by decide))

/-- The manual conversion decodes `&amp;` to `&`. -/
theorem manual_amp {a b : String} (ha : LWord a) (hb : LWord b) :
    htmlToPlainTextManual (a ++ "&amp;" ++ b) = ⟨a.data ++ ('&' :: b.data)⟩ := by
  obtain ⟨haLt, haGt, haNl, haCIl, haCIa, haST⟩ := word_bundle ha
  obtain ⟨hbLt, hbGt, hbNl, hbCIl, hbCIa, hbST⟩ := word_bundle hb
  have hd : (a ++ "&amp;" ++ b).data = a.data ++ ("&amp;".data ++ b.data) := by
    rw [String.data_append, String.data_append, List.append_assoc]
  unfold htmlToPlainTextManual
  rw [sandwich_ne_empty ha]
  simp only [Bool.false_eq_true, if_false]
  rw [hd]
  rw [tagPassesManual_id _ (noChar_append haLt (noChar_append (by decide) hbLt))
    (noCI_append haCIl (noCI_append (by decide) hbCIl))]
  unfold entityPassesManual entityPassesAuto
  rw [passFix_skip_sandwich haCIa (by decide) hbCIa]
  rw [show ("&amp;".data : List Char) = '&' :: "amp;".data from rfl]
  rw [passFix_sandwich haCIa hbCIa]
  rw [show ("&".data : List Char) ++ b.data = '&' :: b.data from rfl]
  rw [passFix_app _ haCIa, passFix_amp_word (by decide) hb]
  rw [passFix_app _ haCIa, passFix_amp_word (by decide) hb]
  rw [passFix_app _ haCIa, passFix_amp_word (by decide) hb]
  rw [passFix_app _ haCIa, passFix_amp_word (by decide) hb]
  rw [passFix_app _ haCIa, passFix_amp_word (by decide) hb]
  exact congrArg String.mk (manualTail_plain ['&'] ha hb (by decide) (by decide))

/-- The manual conversion decodes `&nbsp;` to a space. -/
theorem manual_nbsp {a b : String} (ha : LWord a) (hb : LWord b) :
    htmlToPlainTextManual (a ++ "&nbsp;" ++ b) = ⟨a.data ++ (' ' :: b.data)⟩ := by
  obtain ⟨haLt, haGt, haNl, haCIl, haCIa, haST⟩ := word_bundle ha
  obtain ⟨hbLt, hbGt, hbNl, hbCIl, hbCIa, hbST⟩ := word_bundle hb
  have hd : (a ++ "&nbsp;" ++ b).data = a.data ++ ("&nbsp;".data ++ b.data) := by
    rw [String.data_append, String.data_append, List.append_assoc]
  unfold htmlToPlainTextManual
  rw [sandwich_ne_empty ha]
  simp only [Bool.false_eq_true, if_false]
  rw [hd]
  rw [tagPassesManual_id _ (noChar_append haLt (noChar_append (by decide) hbLt))
    (noCI_append haCIl (noCI_append (by decide) hbCIl))]
  unfold entityPassesManual entityPassesAuto
  rw [show ("&nbsp;".data : List Char) = '&' :: "nbsp;".data from rfl]
  rw [passFix_sandwich haCIa hbCIa]
  rw [show (" ".data : List Char) ++ b.data = ' ' :: b.data from rfl]
  have hm : NoCI '&' (a.data ++ (' ' :: b.data)) :=
    noCI_append haCIa (noCI_cons (by decide) hbCIa)
  rw [passFix_id _ hm, passFix_id _ hm, passFix_id _ hm, passFix_id _ hm,
    passFix_id _ hm, passFix_id _ hm]
  exact congrArg String.mk (manualTail_space ha hb)

/-- The manual conversion decodes `&lt;` to `<`. -/
theorem manual_lt {a b : String} (ha : LWord a) (hb : LWord b) :
    htmlToPlainTextManual (a ++ "&lt;" ++ b) = ⟨a.data ++ ('<' :: b.data)⟩ := by
  obtain ⟨haLt, haGt, haNl, haCIl, haCIa, haST⟩ := word_bundle ha
  obtain ⟨hbLt, hbGt, hbNl, hbCIl, hbCIa, hbST⟩ := word_bundle hb
  have hd : (a ++ "&lt;" ++ b).data = a.data ++ ("&lt;".data ++ b.data) := by
    rw [String.data_append, String.data_append, List.append_assoc]
  unfold htmlToPlainTextManual
  rw [sandwich_ne_empty ha]
  simp only [Bool.false_eq_true, if_false]
  rw [hd]
  rw [tagPassesManual_id _ (noChar_append haLt (noChar_append (by decide) hbLt))
    (noCI_append haCIl (noCI_append (by decide) hbCIl))]
  unfold entityPassesManual entityPassesAuto
  rw [passFix_skip_sandwich haCIa (by decide) hbCIa]
  rw [passFix_skip_sandwich haCIa (by decide) hbCIa]
  rw [show ("&lt;".data : List Char) = '&' :: "lt;".data from rfl]
  rw [passFix_sandwich haCIa hbCIa]
  rw [show ("<".data : List Char) ++ b.data = '<' :: b.data from rfl]
  have hm : NoCI '&' (a.data ++ ('<' :: b.data)) :=
    noCI_append haCIa (noCI_cons (by decide) hbCIa)
  rw [passFix_id _ hm, passFix_id _ hm, passFix_id _ hm, passFix_id _ hm]
  exact congrArg String.mk (manualTail_plain ['<'] ha hb (by decide) (by decide))

/-- The manual conversion decodes `&gt;` to `>`. -/
theorem manual_gt {a b : String} (ha : LWord a) (hb : LWord b) :
    htmlToPlainTextManual (a ++ "&gt;" ++ b) = ⟨a.data ++ ('>' :: b.data)⟩ := by
  obtain ⟨haLt, haGt, haNl, haCIl, haCIa, haST⟩ := word_bundle ha
  obtain ⟨hbLt, hbGt, hbNl, hbCIl, hbCIa, hbST⟩ := word_bundle hb
  have hd : (a ++ "&gt;" ++ b).data = a.data ++ ("&gt;".data ++ b.data) := by
    rw [String.data_append, String.data_append, List.append_assoc]
  unfold htmlToPlainTextManual
  rw [sandwich_ne_empty ha]
  simp only [Bool.false_eq_true, if_false]
  rw [hd]
  rw [tagPassesManual_id _ (noChar_append haLt (noChar_append (by decide) hbLt))
    (noCI_append haCIl (noCI_append (by decide) hbCIl))]
  unfold entityPassesManual entityPassesAuto
  rw [passFix_skip_sandwich haCIa (by decide) hbCIa]
  rw [passFix_skip_sandwich haCIa (by decide) hbCIa]
  rw [passFix_skip_sandwich haCIa (by decide) hbCIa]
  rw [show ("&gt;".data : List Char) = '&' :: "gt;".data from rfl]
  rw [passFix_sandwich haCIa hbCIa]
  rw [show (">".data : List Char) ++ b.data = '>' :: b.data from rfl]
  have hm : NoCI '&' (a.data ++ ('>' :: b.data)) :=
    noCI_append haCIa (noCI_cons (by decide) hbCIa)
  rw [passFix_id _ hm, passFix_id _ hm, passFix_id _ hm]
  exact congrArg String.mk (manualTail_plain ['>'] ha hb (by decide) (by decide))

/-- The manual conversion decodes `&quot;` to a double quote. -/
theorem manual_quot {a b : String} (ha : LWord a) (hb : LWord b) :
    htmlToPlainTextManual (a ++ "&quot;" ++ b) = ⟨a.data ++ ('\x22' :: b.data)⟩ := by
  obtain ⟨haLt, haGt, haNl, haCIl, haCIa, haST⟩ := word_bundle ha
  obtain ⟨hbLt, hbGt, hbNl, hbCIl, hbCIa, hbST⟩ := word_bundle hb
  have hd : (a ++ "&quot;" ++ b).data = a.data ++ ("&quot;".data ++ b.data) := by
    rw [String.data_append, String.data_append, List.append_assoc]
  unfold htmlToPlainTextManual
  rw [sandwich_ne_empty ha]
  simp only [Bool.false_eq_true, if_false]
  rw [hd]
  rw [tagPassesManual_id _ (noChar_append haLt (noChar_append (by decide) hbLt))
    (noCI_append haCIl (noCI_append (by decide) hbCIl))]
  unfold entityPassesManual entityPassesAuto
  rw [passFix_skip_sandwich haCIa (by decide) hbCIa]
  rw [passFix_skip_sandwich haCIa (by decide) hbCIa]
  rw [passFix_skip_sandwich haCIa (by decide) hbCIa]
  rw [passFix_skip_sandwich haCIa (by decide) hbCIa]
  rw [show ("&quot;".data : List Char) = '&' :: "quot;".data from rfl]
  rw [passFix_sandwich haCIa hbCIa]
  rw [show ("\x22".data : List Char) ++ b.data = '\x22' :: b.data from rfl]
  have hm : NoCI '&' (a.data ++ ('\x22' :: b.data)) :=
    noCI_append haCIa (noCI_cons (by decide) hbCIa)
  rw [passFix_id _ hm, passFix_id _ hm]
  exact congrArg String.mk (manualTail_plain ['\x22'] ha hb (by decide) (by decide))

/-- The automatic conversion leaves `&#39;` undecoded. -/
theorem auto_num39 {a b : String} (ha : LWord a) (hb : LWord b) :
    htmlToPlainTextAuto (a ++ "&#39;" ++ b) =
      ⟨a.data ++ ("&#39;".data ++ b.data)⟩ := by
  obtain ⟨haLt, haGt, haNl, haCIl, haCIa, haST⟩ := word_bundle ha
  obtain ⟨hbLt, hbGt, hbNl, hbCIl, hbCIa, hbST⟩ := word_bundle hb
  have hd : (a ++ "&#39;" ++ b).data = a.data ++ ("&#39;".data ++ b.data) := by
    rw [String.data_append, String.data_append, List.append_assoc]
  unfold htmlToPlainTextAuto
  rw [sandwich_ne_empty ha]
  simp only [Bool.false_eq_true, if_false]
  rw [hd]
  rw [tagPassesAuto_id _ (noChar_append haLt (noChar_append (by decide) hbLt))
    (noCI_append haCIl (noCI_append (by decide) hbCIl))]
  unfold entityPassesAuto
  rw [passFix_skip_sandwich haCIa (by decide) hbCIa]
  rw [passFix_skip_sandwich haCIa (by decide) hbCIa]
  rw [passFix_skip_sandwich haCIa (by decide) hbCIa]
  rw [passFix_skip_sandwich haCIa (by decide) hbCIa]
  rw [passFix_skip_sandwich haCIa (by decide) hbCIa]
  exact congrArg String.mk (autoTail_plain "&#39;".data ha hb (by decide))

/-- The automatic conversion leaves `&apos;` undecoded. -/
theorem auto_apos {a b : String} (ha : LWord a) (hb : LWord b) :
    htmlToPlainTextAuto (a ++ "&apos;" ++ b) =
      ⟨a.data ++ ("&apos;".data ++ b.data)⟩ := by
  obtain ⟨haLt, haGt, haNl, haCIl, haCIa, haST⟩ := word_bundle ha
  obtain ⟨hbLt, hbGt, hbNl, hbCIl, hbCIa, hbST⟩ := word_bundle hb
  have hd : (a ++ "&apos;" ++ b).data = a.data ++ ("&apos;".data ++ b.data) := by
    rw [String.data_append, String.data_append, List.append_assoc]
  unfold htmlToPlainTextAuto
  rw [sandwich_ne_empty ha]
  simp only [Bool.false_eq_true, if_false]
  rw [hd]
  rw [tagPassesAuto_id _ (noChar_append haLt (noChar_append (by decide) hbLt))
    (noCI_append haCIl (noCI_append (by decide) hbCIl))]
  unfold entityPassesAuto
  rw [passFix_skip_sandwich haCIa (by decide) hbCIa]
  rw [passFix_skip_sandwich haCIa (by decide) hbCIa]
  rw [passFix_skip_sandwich haCIa (by decide) hbCIa]
  rw [passFix_skip_sandwich haCIa (by decide) hbCIa]
  rw [passFix_skip_sandwich haCIa (by decide) hbCIa]
  exact congrArg String.mk (autoTail_plain "&apos;".data ha hb (by decide))

/-- The automatic conversion decodes `&amp;` to `&`. -/
theorem auto_amp {a b : String} (ha : LWord a) (hb : LWord b) :
    htmlToPlainTextAuto (a ++ "&amp;" ++ b) = ⟨a.data ++ ('&' :: b.data)⟩ := by
  obtain ⟨haLt, haGt, haNl, haCIl, haCIa, haST⟩ := word_bundle ha
  obtain ⟨hbLt, hbGt, hbNl, hbCIl, hbCIa, hbST⟩ := word_bundle hb
  have hd : (a ++ "&amp;" ++ b).data = a.data ++ ("&amp;".data ++ b.data) := by
    rw [String.data_append, String.data_append, List.append_assoc]
  unfold htmlToPlainTextAuto
  rw [sandwich_ne_empty ha]
  simp only [Bool.false_eq_true, if_false]
  rw [hd]
  rw [tagPassesAuto_id _ (noChar_append haLt (noChar_append (by decide) hbLt))
    (noCI_append haCIl (noCI_append (by decide) hbCIl))]
  unfold entityPassesAuto
  rw [passFix_skip_sandwich haCIa (by decide) hbCIa]
  rw [show ("&amp;".data : List Char) = '&' :: "amp;".data from rfl]
  rw [passFix_sandwich haCIa hbCIa]
  rw [show ("&".data : List Char) ++ b.data = '&' :: b.data from rfl]
  rw [passFix_app _ haCIa, passFix_amp_word (by decide) hb]
  rw [passFix_app _ haCIa, passFix_amp_word (by decide) hb]
  rw [passFix_app _ haCIa, passFix_amp_word (by decide) hb]
  exact congrArg String.mk (autoTail_plain ['&'] ha hb (by decide))

/-- The automatic conversion decodes `&nbsp;` to a space. -/
theorem auto_nbsp {a b : String} (ha : LWord a) (hb : LWord b) :
    htmlToPlainTextAuto (a ++ "&nbsp;" ++ b) = ⟨a.data ++ (' ' :: b.data)⟩ := by
  obtain ⟨haLt, haGt, haNl, haCIl, haCIa, haST⟩ := word_bundle ha
  obtain ⟨hbLt, hbGt, hbNl, hbCIl, hbCIa, hbST⟩ := word_bundle hb
  have hd : (a ++ "&nbsp;" ++ b).data = a.data ++ ("&nbsp;".data ++ b.data) := by
    rw [String.data_append, String.data_append, List.append_assoc]
  unfold htmlToPlainTextAuto
  rw [sandwich_ne_empty ha]
  simp only [Bool.false_eq_true, if_false]
  rw [hd]
  rw [tagPassesAuto_id _ (noChar_append haLt (noChar_append (by decide) hbLt))
    (noCI_append haCIl (noCI_append (by decide) hbCIl))]
  unfold entityPassesAuto
  rw [show ("&nbsp;".data : List Char) = '&' :: "nbsp;".data from rfl]
  rw [passFix_sandwich haCIa hbCIa]
  rw [show (" ".data : List Char) ++ b.data = ' ' :: b.data from rfl]
  have hm : NoCI '&' (a.data ++ (' ' :: b.data)) :=
    noCI_append haCIa (noCI_cons (by decide) hbCIa)
  rw [passFix_id _ hm, passFix_id _ hm, passFix_id _ hm, passFix_id _ hm]
  exact congrArg String.mk (autoTail_plain [' '] ha hb (by decide))

/-- The automatic conversion decodes `&lt;` to `<`. -/
theorem auto_lt {a b : String} (ha : LWord a) (hb : LWord b) :
    htmlToPlainTextAuto (a ++ "&lt;" ++ b) = ⟨a.data ++ ('<' :: b.data)⟩ := by
  obtain ⟨haLt, haGt, haNl, haCIl, haCIa, haST⟩ := word_bundle ha
  obtain ⟨hbLt, hbGt, hbNl, hbCIl, hbCIa, hbST⟩ := word_bundle hb
  have hd : (a ++ "&lt;" ++ b).data = a.data ++ ("&lt;".data ++ b.data) := by
    rw [String.data_append, String.data_append, List.append_assoc]
  unfold htmlToPlainTextAuto
  rw [sandwich_ne_empty ha]
  simp only [Bool.false_eq_true, if_false]
  rw [hd]
  rw [tagPassesAuto_id _ (noChar_append haLt (noChar_append (by decide) hbLt))
    (noCI_append haCIl (noCI_append (by decide) hbCIl))]
  unfold entityPassesAuto
  rw [passFix_skip_sandwich haCIa (by decide) hbCIa]
  rw [passFix_skip_sandwich haCIa (by decide) hbCIa]
  rw [show ("&lt;".data : List Char) = '&' :: "lt;".data from rfl]
  rw [passFix_sandwich haCIa hbCIa]
  rw [show ("<".data : List Char) ++ b.data = '<' :: b.data from rfl]
  have hm : NoCI '&' (a.data ++ ('<' :: b.data)) :=
    noCI_append haCIa (noCI_cons (by decide) hbCIa)
  rw [passFix_id _ hm, passFix_id _ hm]
  exact congrArg String.mk (autoTail_plain ['<'] ha hb (by decide))

/-- The automatic conversion decodes `&gt;` to `>`. -/
theorem auto_gt {a b : String} (ha : LWord a) (hb : LWord b) :
    htmlToPlainTextAuto (a ++ "&gt;" ++ b) = ⟨a.data ++ ('>' :: b.data)⟩ := by
  obtain ⟨haLt, haGt, haNl, haCIl, haCIa, haST⟩ := word_bundle ha
  obtain ⟨hbLt, hbGt, hbNl, hbCIl, hbCIa, hbST⟩ := word_bundle hb
  have hd : (a ++ "&gt;" ++ b).data = a.data ++ ("&gt;".data ++ b.data) := by
    rw [String.data_append, String.data_append, List.append_assoc]
  unfold htmlToPlainTextAuto
  rw [sandwich_ne_empty ha]
  simp only [Bool.false_eq_true, if_false]
  rw [hd]
  rw [tagPassesAuto_id _ (noChar_append haLt (noChar_append (by decide) hbLt))
    (noCI_append haCIl (noCI_append (by decide) hbCIl))]
  unfold entityPassesAuto
  rw [passFix_skip_sandwich haCIa (by decide) hbCIa]
  rw [passFix_skip_sandwich haCIa (by decide) hbCIa]
  rw [passFix_skip_sandwich haCIa (by decide) hbCIa]
  rw [show ("&gt;".data : List Char) = '&' :: "gt;".data from rfl]
  rw [passFix_sandwich haCIa hbCIa]
  rw [show (">".data : List Char) ++ b.data = '>' :: b.data from rfl]
  have hm : NoCI '&' (a.data ++ ('>' :: b.data)) :=
    noCI_append haCIa (noCI_cons (by decide) hbCIa)
  rw [passFix_id _ hm]
  exact congrArg String.mk (autoTail_plain ['>'] ha hb (by decide))

/-- The automatic conversion decodes `&quot;` to a double quote. -/
theorem auto_quot {a b : String} (ha : LWord a) (hb : LWord b) :
    htmlToPlainTextAuto (a ++ "&quot;" ++ b) = ⟨a.data ++ ('\x22' :: b.data)⟩ := by
  obtain ⟨haLt, haGt, haNl, haCIl, haCIa, haST⟩ := word_bundle ha
  obtain ⟨hbLt, hbGt, hbNl, hbCIl, hbCIa, hbST⟩ := word_bundle hb
  have hd : (a ++ "&quot;" ++ b).data = a.data ++ ("&quot;".data ++ b.data) := by
    rw [String.data_append, String.data_append, List.append_assoc]
  unfold htmlToPlainTextAuto
  rw [sandwich_ne_empty ha]
  simp only [Bool.false_eq_true, if_false]
  rw [hd]
  rw [tagPassesAuto_id _ (noChar_append haLt (noChar_append (by decide) hbLt))
    (noCI_append haCIl (noCI_append (by decide) hbCIl))]
  unfold entityPassesAuto
  rw [passFix_skip_sandwich haCIa (by decide) hbCIa]
  rw [passFix_skip_sandwich haCIa (by decide) hbCIa]
  rw [passFix_skip_sandwich haCIa (by decide) hbCIa]
  rw [passFix_skip_sandwich haCIa (by decide) hbCIa]
  rw [show ("&quot;".data : List Char) = '&' :: "quot;".data from rfl]
  rw [passFix_sandwich haCIa hbCIa]
  rw [show ("\x22".data : List Char) ++ b.data = '\x22' :: b.data from rfl]
  exact congrArg String.mk (autoTail_plain ['\x22'] ha hb (by decide))

/-- The manual conversion strips a tag with no newline mapping, such as
`<span>`, without a trace. -/
theorem manual_span {a b : String} (ha : LWord a) (hb : LWord b) :
    htmlToPlainTextManual (a ++ "<span>" ++ b) = ⟨a.data ++ b.data⟩ := by
  obtain ⟨haLt, haGt, haNl, haCIl, haCIa, haST⟩ := word_bundle ha
  obtain ⟨hbLt, hbGt, hbNl, hbCIl, hbCIa, hbST⟩ := word_bundle hb
  have hd : (a ++ "<span>" ++ b).data = a.data ++ ("<span>".data ++ b.data) := by
    rw [String.data_append, String.data_append, List.append_assoc]
  unfold htmlToPlainTextManual
  rw [sandwich_ne_empty ha]
  simp only [Bool.false_eq_true, if_false]
  rw [hd]
  unfold tagPassesManual
  rw [passBr_skip_sandwich haLt (by decide) hbLt]
  rw [passFix_skip_sandwich haCIl (by decide) hbCIl]
  rw [passFix_skip_sandwich haCIl (by decide) hbCIl]
  rw [passFix_skip_sandwich haCIl (by decide) hbCIl]
  rw [passFix_skip_sandwich haCIl (by decide) hbCIl]
  rw [passHeading_skip_sandwich haLt (by decide) hbLt]
  rw [passBlock_skip_sandwich haLt (by decide) hbLt]
  rw [passBlock_skip_sandwich haLt (by decide) hbLt]
  rw [passTags_app _ haLt]
  rw [show ("<span>".data : List Char) ++ b.data =
    '<' :: ("span".data ++ '>' :: b.data) from rfl]
  rw [passTags_cons_match (tagRest_self b.data (by decide) (by decide)),
    passTags_id _ hbLt]
  rw [entityPassesManual_id _ (noCI_append haCIa hbCIa)]
  exact congrArg String.mk
    (manualTail_plain [] ha hb (fun c hc => absurd hc (List.not_mem_nil c))
      (fun c hc => absurd hc (List.not_mem_nil c)))

/-- The automatic conversion strips `<span>` without a trace. -/
theorem auto_span {a b : String} (ha : LWord a) (hb : LWord b) :
    htmlToPlainTextAuto (a ++ "<span>" ++ b) = ⟨a.data ++ b.data⟩ := by
  obtain ⟨haLt, haGt, haNl, haCIl, haCIa, haST⟩ := word_bundle ha
  obtain ⟨hbLt, hbGt, hbNl, hbCIl, hbCIa, hbST⟩ := word_bundle hb
  have hd : (a ++ "<span>" ++ b).data = a.data ++ ("<span>".data ++ b.data) := by
    rw [String.data_append, String.data_append, List.append_assoc]
  unfold htmlToPlainTextAuto
  rw [sandwich_ne_empty ha]
  simp only [Bool.false_eq_true, if_false]
  rw [hd]
  unfold tagPassesAuto
  rw [passBr_skip_sandwich haLt (by decide) hbLt]
  rw [passFix_skip_sandwich haCIl (by decide) hbCIl]
  rw [passFix_skip_sandwich haCIl (by decide) hbCIl]
  rw [passBlock_skip_sandwich haLt (by decide) hbLt]
  rw [passBlock_skip_sandwich haLt (by decide) hbLt]
  rw [passTags_app _ haLt]
  rw [show ("<span>".data : List Char) ++ b.data =
    '<' :: ("span".data ++ '>' :: b.data) from rfl]
  rw [passTags_cons_match (tagRest_self b.data (by decide) (by decide)),
    passTags_id _ hbLt]
  rw [entityPassesAuto_id _ (noCI_append haCIa hbCIa)]
  exact congrArg String.mk
    (autoTail_plain [] ha hb (fun c hc => absurd hc (List.not_mem_nil c)))

/-- The manual conversion removes a style block together with its
content. -/
theorem manual_style {a b : String} (ha : LWord a) (hb : LWord b) :
    htmlToPlainTextManual (a ++ "<style>x1</style>" ++ b) = ⟨a.data ++ b.data⟩ := by
  obtain ⟨haLt, haGt, haNl, haCIl, haCIa, haST⟩ := word_bundle ha
  obtain ⟨hbLt, hbGt, hbNl, hbCIl, hbCIa, hbST⟩ := word_bundle hb
  have hd : (a ++ "<style>x1</style>" ++ b).data =
      a.data ++ ("<style>x1</style>".data ++ b.data) := by
    rw [String.data_append, String.data_append, List.append_assoc]
  unfold htmlToPlainTextManual
  rw [sandwich_ne_empty ha]
  simp only [Bool.false_eq_true, if_false]
  rw [hd]
  unfold tagPassesManual
  rw [passBr_skip_sandwich haLt (by decide) hbLt]
  rw [passFix_skip_sandwich haCIl (by decide) hbCIl]
  rw [passFix_skip_sandwich haCIl (by decide) hbCIl]
  rw [passFix_skip_sandwich haCIl (by decide) hbCIl]
  rw [passFix_skip_sandwich haCIl (by decide) hbCIl]
  rw [passHeading_skip_sandwich haLt (by decide) hbLt]
  rw [passBlock_app _ haLt]
  rw [show ("<style>x1</style>".data : List Char) ++ b.data =
    '<' :: ("style".data ++ '>' :: ("x1".data ++ '<' ::
      ("/style>".data ++ b.data))) from rfl]
  rw [passBlock_cons_match (blockRest_self b.data (by decide)),
    passBlock_id _ hbLt]
  rw [passBlock_id _ (noChar_append haLt hbLt), passTags_id _ (noChar_append haLt hbLt)]
  rw [entityPassesManual_id _ (noCI_append haCIa hbCIa)]
  exact congrArg String.mk
    (manualTail_plain [] ha hb (fun c hc => absurd hc (List.not_mem_nil c))
      (fun c hc => absurd hc (List.not_mem_nil c)))

/-- The automatic conversion removes a style block together with its
content. -/
theorem auto_style {a b : String} (ha : LWord a) (hb : LWord b) :
    htmlToPlainTextAuto (a ++ "<style>x1</style>" ++ b) = ⟨a.data ++ b.data⟩ := by
  obtain ⟨haLt, haGt, haNl, haCIl, haCIa, haST⟩ := word_bundle ha
  obtain ⟨hbLt, hbGt, hbNl, hbCIl, hbCIa, hbST⟩ := word_bundle hb
  have hd : (a ++ "<style>x1</style>" ++ b).data =
      a.data ++ ("<style>x1</style>".data ++ b.data) := by
    rw [String.data_append, String.data_append, List.append_assoc]
  unfold htmlToPlainTextAuto
  rw [sandwich_ne_empty ha]
  simp only [Bool.false_eq_true, if_false]
  rw [hd]
  unfold tagPassesAuto
  rw [passBr_skip_sandwich haLt (by decide) hbLt]
  rw [passFix_skip_sandwich haCIl (by decide) hbCIl]
  rw [passFix_skip_sandwich haCIl (by decide) hbCIl]
  rw [passBlock_app _ haLt]
  rw [show ("<style>x1</style>".data : List Char) ++ b.data =
    '<' :: ("style".data ++ '>' :: ("x1".data ++ '<' ::
      ("/style>".data ++ b.data))) from rfl]
  rw [passBlock_cons_match (blockRest_self b.data (by decide)),
    passBlock_id _ hbLt]
  rw [passBlock_id _ (noChar_append haLt hbLt), passTags_id _ (noChar_append haLt hbLt)]
  rw [entityPassesAuto_id _ (noCI_append haCIa hbCIa)]
  exact congrArg String.mk
    (autoTail_plain [] ha hb (fun c hc => absurd hc (List.not_mem_nil c)))

/-! ## Engine lemmas -/

/-- The `processed` ledger row written by the record-creation tail. -/
def processedRow (e : Email) (moduleId recordId : Nat) : LedgerRow :=
  ⟨e.id, some moduleId, some recordId, e.fromAddress, e.fromName, e.subject,
    e.bodyPreview, toMySQLDatetime e.receivedAt, .processed, none⟩

/-- The `email_sent` history entry. -/
def sentRow (e : Email) (recordId moduleId : Nat) : HistoryRow :=
  ⟨recordId, moduleId, "email_sent",
    "Auto-response email sent to " ++ e.fromAddress, "system", "system"⟩

theorem attFold_spec (env : Env) (recordId moduleId : Nat) (userEmail : String)
    (atts : List Attachment) : ∀ (st : St) (imgs docs : Nat),
    let r := atts.foldl (attStep env recordId moduleId userEmail) (st, imgs, docs)
    r.1.ledger = st.ledger ∧ r.1.records = st.records ∧ r.1.history = st.history ∧
      r.1.links = st.links ∧ r.1.markedRead = st.markedRead ∧
      r.1.autoResponses = st.autoResponses ∧ r.1.nextRecordId = st.nextRecordId ∧
      r.1.images.length + imgs = st.images.length + r.2.1 ∧
      r.1.documents.length + docs = st.documents.length + r.2.2 := by
  induction atts with
  | nil => intro st imgs docs; simp
  | cons att rest ih =>
    intro st imgs docs
    simp only [List.foldl_cons]
    by_cases hdl : att.downloadOk = true
    · by_cases him : isImageContentType att.contentType = true
      · have hstep : attStep env recordId moduleId userEmail (st, imgs, docs) att =
            ({st with images := st.images ++
              [⟨recordId, moduleId, "/uploads/images/" ++ env.genName att.name,
                userEmail⟩]}, imgs + 1, docs) := by
          simp [attStep, hdl, him]
        rw [hstep]
        have := ih {st with images := st.images ++
          [⟨recordId, moduleId, "/uploads/images/" ++ env.genName att.name,
            userEmail⟩]} (imgs + 1) docs
        obtain ⟨h1, h2, h3, h4, h5, h6, h7, h8, h9⟩ := this
        refine ⟨h1, h2, h3, h4, h5, h6, h7, ?_, ?_⟩
        · simp only at h8 ⊢; simp at h8; omega
        · simpa using h9
      · have hstep : attStep env recordId moduleId userEmail (st, imgs, docs) att =
            ({st with documents := st.documents ++
              [⟨recordId, moduleId, "/uploads/documents/" ++ env.genName att.name,
                att.name, att.contentType, att.size, userEmail⟩]}, imgs, docs + 1) := by
          simp [attStep, hdl, him]
        rw [hstep]
        have := ih {st with documents := st.documents ++
          [⟨recordId, moduleId, "/uploads/documents/" ++ env.genName att.name,
            att.name, att.contentType, att.size, userEmail⟩]} imgs (docs + 1)
        obtain ⟨h1, h2, h3, h4, h5, h6, h7, h8, h9⟩ := this
        refine ⟨h1, h2, h3, h4, h5, h6, h7, ?_, ?_⟩
        · simpa using h8
        · simp only at h9 ⊢; simp at h9; omega
    · have hstep : attStep env recordId moduleId userEmail (st, imgs, docs) att =
          (st, imgs, docs) := by
        simp only [Bool.not_eq_true] at hdl
        simp [attStep, hdl]
      rw [hstep]
      exact ih st imgs docs

theorem saveAttachmentsFold_spec (env : Env) (emailId : String)
    (recordId moduleId : Nat) (userEmail : String) (st : St) :
    let r := saveAttachmentsFold env emailId recordId moduleId userEmail st
    r.1.ledger = st.ledger ∧ r.1.records = st.records ∧ r.1.history = st.history ∧
      r.1.links = st.links ∧ r.1.markedRead = st.markedRead ∧
      r.1.autoResponses = st.autoResponses ∧ r.1.nextRecordId = st.nextRecordId ∧
      r.1.images.length = st.images.length + r.2.1 ∧
      r.1.documents.length = st.documents.length + r.2.2 := by
  unfold saveAttachmentsFold
  split
  · simp
  · have := attFold_spec env recordId moduleId userEmail (env.attachments emailId)
      st 0 0
    simpa using this

theorem createRecordTail_spec (env : Env) (e : Email) (m : ModuleRow)
    (cs pt : String) (savedLinks : List Link) (base user : String) (st : St) :
    ∃ imgs docs : Nat,
      (createRecordTail env e m cs pt savedLinks base user st).ledger =
        st.ledger ++ [processedRow e m.id st.nextRecordId] ∧
      (createRecordTail env e m cs pt savedLinks base user st).records =
        st.records ++ [⟨st.nextRecordId, m.id, strOr cs "Email", "active", pt,
          e.fromAddress, e.fromName, cs, e.receivedAt, e.fromAddress,
          e.fromAddress⟩] ∧
      (createRecordTail env e m cs pt savedLinks base user st).history =
        st.history ++
          ⟨st.nextRecordId, m.id, "created",
            historyDescription base imgs docs savedLinks.length, user, user⟩ ::
          (if env.autoRespondOk e.id then [sentRow e st.nextRecordId m.id] else []) ∧
      (createRecordTail env e m cs pt savedLinks base user st).markedRead =
        st.markedRead ++ [e.id] ∧
      (createRecordTail env e m cs pt savedLinks base user st).nextRecordId =
        st.nextRecordId + 1 ∧
      (createRecordTail env e m cs pt savedLinks base user st).images.length =
        st.images.length + imgs ∧
      (createRecordTail env e m cs pt savedLinks base user st).documents.length =
        st.documents.length + docs ∧
      (createRecordTail env e m cs pt savedLinks base user st).autoResponses =
        st.autoResponses ++
          (if env.autoRespondOk e.id then [e.fromAddress] else []) ∧
      (createRecordTail env e m cs pt savedLinks base user st).links =
        st.links ++ savedLinks.map
          (fun l => ⟨st.nextRecordId, m.id, l.url, l.title, "Extracted from email"⟩) := by
  unfold createRecordTail
  set st1 : St := {st with
    records := st.records ++ [⟨st.nextRecordId, m.id, strOr cs "Email", "active",
      pt, e.fromAddress, e.fromName, cs, e.receivedAt, e.fromAddress, e.fromAddress⟩],
    nextRecordId := st.nextRecordId + 1,
    ledger := st.ledger ++ [processedRow e m.id st.nextRecordId]} with hst1
  by_cases hup : env.uploadsDirSet = true
  · have hspec := saveAttachmentsFold_spec env e.id st.nextRecordId m.id
      e.fromAddress st1
    obtain ⟨g1, g2, g3, g4, g5, g6, g7, g8, g9⟩ := hspec
    refine ⟨(saveAttachmentsFold env e.id st.nextRecordId m.id e.fromAddress st1).2.1,
      (saveAttachmentsFold env e.id st.nextRecordId m.id e.fromAddress st1).2.2,
      ?_⟩
    simp only [hup, if_true, processedRow] at *
    by_cases har : env.autoRespondOk e.id = true <;>
      simp_all [processedRow, sentRow] <;> omega
  · simp only [Bool.not_eq_true] at hup
    refine ⟨0, 0, ?_⟩
    by_cases har : env.autoRespondOk e.id = true <;>
      simp_all [processedRow, sentRow]

/-! ## String-facade conversions -/

theorem mk3 (a x b : String) :
    (⟨a.data ++ (x.data ++ b.data)⟩ : String) = a ++ x ++ b := by
  have h : (a ++ x ++ b).data = a.data ++ (x.data ++ b.data) := by
    rw [String.data_append, String.data_append, List.append_assoc]
  exact stringMk_eq h.symm

theorem mk2 (a b : String) : (⟨a.data ++ b.data⟩ : String) = a ++ b :=
  stringMk_eq (String.data_append a b).symm

/-! ## Subject tag parser: general lemmas -/

theorem dropWhile_idem (p : Char → Bool) (l : List Char) :
    (l.dropWhile p).dropWhile p = l.dropWhile p := by
  induction l with
  | nil => rfl
  | cons c cs ih =>
    by_cases hc : p c = true
    · rw [List.dropWhile_cons_of_pos hc, ih]
    · rw [List.dropWhile_cons_of_neg (by simpa using hc),
        List.dropWhile_cons_of_neg (by simpa using hc)]

theorem trimL_dropWhile (l : List Char) : trimL (l.dropWhile jsWs) = trimL l := by
  unfold trimL
  rw [dropWhile_idem]

theorem splitRB_append {X : List Char} (hne : X ≠ []) (hnb : ']' ∉ X)
    (r : List Char) : splitRB (X ++ ']' :: r) = some (X, r) := by
  induction X with
  | nil => exact absurd rfl hne
  | cons c cs ih =>
    have hc : ¬(c = ']') := fun h => hnb (h ▸ List.mem_cons_self c cs)
    by_cases hcs : cs = []
    · subst hcs
      simp [splitRB, hc]
    · have h2 := ih hcs (fun h => hnb (List.mem_cons_of_mem c h))
      simp [splitRB, hc, h2]

theorem parse_tag_general (X r : String) (hne : X.data ≠ []) (hnb : ']' ∉ X.data) :
    parseModuleTagFromSubject ⟨'[' :: (X.data ++ ']' :: r.data)⟩ =
      ⟨some ⟨trimL (lowerL X.data)⟩, ⟨trimL (r.data.dropWhile jsWs)⟩⟩ := by
  unfold parseModuleTagFromSubject
  rw [show (⟨'[' :: (X.data ++ ']' :: r.data)⟩ : String).data =
    '[' :: (X.data ++ ']' :: r.data) from rfl]
  simp only [splitRB_append hne hnb]
  rw [if_neg (fun h => hne (List.isEmpty_iff.mp h))]

theorem noTag_parse {s : String} (h : hasLeadingTagB s = false) :
    parseModuleTagFromSubject s = ⟨none, s⟩ := by
  unfold parseModuleTagFromSubject
  unfold hasLeadingTagB at h
  split
  · rename_i cs heq
    rw [heq] at h
    simp only at h
    split
    · rename_i tag rest heq2
      rw [heq2] at h
      simp at h
      rw [if_pos (by simp [h])]
    · rfl
  · rfl

/-! ## Claim C6: the subject tag parser -/

/-- C6, counterexample: the captured tag's case is NOT preserved — the
parser lowercases it (`match[1].toLowerCase().trim()`), so
`"[Sales] Hello"` yields the tag `"sales"`, not `"Sales"`. -/
theorem c6_counterexample :
    parseModuleTagFromSubject "[Sales] Hello" = ⟨some "sales", "Hello"⟩ ∧
    some ("sales" : String) ≠ some ("Sales" : String) := by
  constructor
  · rfl
  · decide

/-- C6 (amended): for every subject of the form `"[X] rest"` (with `X`
nonempty and free of `]`), the parser returns the tag `X` lowercased and
trimmed — the capture's case is not preserved — and `cleanSubject = rest`
trimmed, the leading bracketed token and the whitespace after it
stripped; in general the characters after `]` are kept with leading
whitespace dropped and the result trimmed; and for every subject not
matching `^\[([^\]]+)\]` the parser returns no tag and the subject
unchanged. -/
theorem c6_tag_parse :
    (∀ X r : String, X.data ≠ [] → ']' ∉ X.data →
      parseModuleTagFromSubject ("[" ++ X ++ "] " ++ r) =
        ⟨some (jsTrim (lowerStr X)), jsTrim r⟩) ∧
    (∀ X r : String, X.data ≠ [] → ']' ∉ X.data →
      parseModuleTagFromSubject ⟨'[' :: (X.data ++ ']' :: r.data)⟩ =
        ⟨some ⟨trimL (lowerL X.data)⟩, ⟨trimL (r.data.dropWhile jsWs)⟩⟩) ∧
    (∀ s : String, hasLeadingTagB s = false →
      parseModuleTagFromSubject s = ⟨none, s⟩) := by
  refine ⟨?_, fun X r hne hnb => parse_tag_general X r hne hnb,
    fun s h => noTag_parse h⟩
  intro X r hne hnb
  have hstr : ("[" ++ X ++ "] " ++ r) =
      (⟨'[' :: (X.data ++ ']' :: (⟨' ' :: r.data⟩ : String).data)⟩ : String) := by
    refine (stringMk_eq ?_).symm
    show '[' :: (X.data ++ ']' :: ' ' :: r.data) = _
    rw [String.data_append, String.data_append, String.data_append]
    show _ = ('[' :: X.data) ++ (']' :: ' ' :: []) ++ r.data
    simp
  rw [hstr, parse_tag_general X ⟨' ' :: r.data⟩ hne hnb]
  refine congrArg (ParsedTag.mk (some (jsTrim (lowerStr X)))) ?_
  show (⟨trimL ((' ' :: r.data).dropWhile jsWs)⟩ : String) = jsTrim r
  rw [List.dropWhile_cons_of_pos (by decide), trimL_dropWhile]
  rfl

/-- C6, witness: the amended statement at the subject `"[Ops] hello"`. -/
theorem c6_witness :
    parseModuleTagFromSubject ("[" ++ "Ops" ++ "] " ++ "hello") =
      ⟨some (jsTrim (lowerStr "Ops")), jsTrim "hello"⟩ ∧
    parseModuleTagFromSubject "x" = ⟨none, "x"⟩ :=
  ⟨c6_tag_parse.1 "Ops" "hello" (by decide) (by decide),
   c6_tag_parse.2.2 "x" (by decide)⟩

/-! ## Claim C7: the two HTML-to-plain-text conversions -/

/-- C7, counterexample: the scheduled pass's conversion does not turn
`</li>` into a newline — its tag-replacement list has no `</li>` rule, so
the closer is stripped by the generic tag pass and `"a</li>b"` becomes
`"ab"`, which contains no newline at all. -/
theorem c7_counterexample :
    htmlToPlainTextAuto "a</li>b" = "ab" ∧ ¬('\n' ∈ ("ab" : String).data) := by
  constructor
  · rw [show ("a</li>b" : String) = "a" ++ "</li>" ++ "b" from rfl,
      auto_li (by decide) (by decide)]
    rfl
  · decide

/-- C7 (amended): around a nonempty lowercase-alphanumeric word on each
side, both conversions turn `<br>`, `</p>` (two newlines) and `</div>`
into newlines, collapse `<br><br><br>` to two newlines, strip residual
tags such as `<span>`, remove `<style>…</style>` with its content, and
decode `&nbsp; &amp; &lt; &gt; &quot;`; but only the manual conversion
turns `</li>`, `</tr>` and `</h2>` into newlines, decodes `&#39;` and
`&apos;`, and trims the whitespace a `<br> ` leaves at a line end — the
scheduled pass's conversion strips `</li>`, `</tr>` and `</h2>` without a
newline, leaves `&#39;` and `&apos;` undecoded, and keeps the space after
a `<br>`. -/
theorem c7_html_conversions :
    (∀ a b : String, LWord a → LWord b →
      htmlToPlainTextManual (a ++ "</li>" ++ b) = a ++ "\n" ++ b) ∧
    (∀ a b : String, LWord a → LWord b →
      htmlToPlainTextManual (a ++ "</tr>" ++ b) = a ++ "\n" ++ b) ∧
    (∀ a b : String, LWord a → LWord b →
      htmlToPlainTextManual (a ++ "</h2>" ++ b) = a ++ "\n\n" ++ b) ∧
    (∀ a b : String, LWord a → LWord b →
      htmlToPlainTextManual (a ++ "</p>" ++ b) = a ++ "\n\n" ++ b) ∧
    (∀ a b : String, LWord a → LWord b →
      htmlToPlainTextManual (a ++ "</div>" ++ b) = a ++ "\n" ++ b) ∧
    (∀ a b : String, LWord a → LWord b →
      htmlToPlainTextManual (a ++ "<br>" ++ b) = a ++ "\n" ++ b) ∧
    (∀ a b : String, LWord a → LWord b →
      htmlToPlainTextManual (a ++ "<br><br><br>" ++ b) = a ++ "\n\n" ++ b) ∧
    (∀ a b : String, LWord a → LWord b →
      htmlToPlainTextManual (a ++ "<br> " ++ b) = a ++ "\n" ++ b) ∧
    (∀ a b : String, LWord a → LWord b →
      htmlToPlainTextManual (a ++ "<span>" ++ b) = a ++ b) ∧
    (∀ a b : String, LWord a → LWord b →
      htmlToPlainTextManual (a ++ "<style>x1</style>" ++ b) = a ++ b) ∧
    (∀ a b : String, LWord a → LWord b →
      htmlToPlainTextManual (a ++ "&nbsp;" ++ b) = a ++ " " ++ b) ∧
    (∀ a b : String, LWord a → LWord b →
      htmlToPlainTextManual (a ++ "&amp;" ++ b) = a ++ "&" ++ b) ∧
    (∀ a b : String, LWord a → LWord b →
      htmlToPlainTextManual (a ++ "&lt;" ++ b) = a ++ "<" ++ b) ∧
    (∀ a b : String, LWord a → LWord b →
      htmlToPlainTextManual (a ++ "&gt;" ++ b) = a ++ ">" ++ b) ∧
    (∀ a b : String, LWord a → LWord b →
      htmlToPlainTextManual (a ++ "&quot;" ++ b) = a ++ "\x22" ++ b) ∧
    (∀ a b : String, LWord a → LWord b →
      htmlToPlainTextManual (a ++ "&#39;" ++ b) = a ++ sq ++ b) ∧
    (∀ a b : String, LWord a → LWord b →
      htmlToPlainTextManual (a ++ "&apos;" ++ b) = a ++ sq ++ b) ∧
    (∀ a b : String, LWord a → LWord b →
      htmlToPlainTextAuto (a ++ "<br>" ++ b) = a ++ "\n" ++ b) ∧
    (∀ a b : String, LWord a → LWord b →
      htmlToPlainTextAuto (a ++ "</p>" ++ b) = a ++ "\n\n" ++ b) ∧
    (∀ a b : String, LWord a → LWord b →
      htmlToPlainTextAuto (a ++ "</div>" ++ b) = a ++ "\n" ++ b) ∧
    (∀ a b : String, LWord a → LWord b →
      htmlToPlainTextAuto (a ++ "<br><br><br>" ++ b) = a ++ "\n\n" ++ b) ∧
    (∀ a b : String, LWord a → LWord b →
      htmlToPlainTextAuto (a ++ "<span>" ++ b) = a ++ b) ∧
    (∀ a b : String, LWord a → LWord b →
      htmlToPlainTextAuto (a ++ "<style>x1</style>" ++ b) = a ++ b) ∧
    (∀ a b : String, LWord a → LWord b →
      htmlToPlainTextAuto (a ++ "&nbsp;" ++ b) = a ++ " " ++ b) ∧
    (∀ a b : String, LWord a → LWord b →
      htmlToPlainTextAuto (a ++ "&amp;" ++ b) = a ++ "&" ++ b) ∧
    (∀ a b : String, LWord a → LWord b →
      htmlToPlainTextAuto (a ++ "&lt;" ++ b) = a ++ "<" ++ b) ∧
    (∀ a b : String, LWord a → LWord b →
      htmlToPlainTextAuto (a ++ "&gt;" ++ b) = a ++ ">" ++ b) ∧
    (∀ a b : String, LWord a → LWord b →
      htmlToPlainTextAuto (a ++ "&quot;" ++ b) = a ++ "\x22" ++ b) ∧
    (∀ a b : String, LWord a → LWord b →
      htmlToPlainTextAuto (a ++ "</li>" ++ b) = a ++ b) ∧
    (∀ a b : String, LWord a → LWord b →
      htmlToPlainTextAuto (a ++ "</tr>" ++ b) = a ++ b) ∧
    (∀ a b : String, LWord a → LWord b →
      htmlToPlainTextAuto (a ++ "</h2>" ++ b) = a ++ b) ∧
    (∀ a b : String, LWord a → LWord b →
      htmlToPlainTextAuto (a ++ "&#39;" ++ b) = a ++ "&#39;" ++ b) ∧
    (∀ a b : String, LWord a → LWord b →
      htmlToPlainTextAuto (a ++ "&apos;" ++ b) = a ++ "&apos;" ++ b) ∧
    (∀ a b : String, LWord a → LWord b →
      htmlToPlainTextAuto (a ++ "<br> " ++ b) = a ++ "\n " ++ b) :=
  ⟨fun a b ha hb => by rw [manual_li ha hb]; exact mk3 a "\n" b,
   fun a b ha hb => by rw [manual_tr ha hb]; exact mk3 a "\n" b,
   fun a b ha hb => by rw [manual_h2 ha hb]; exact mk3 a "\n\n" b,
   fun a b ha hb => by rw [manual_p ha hb]; exact mk3 a "\n\n" b,
   fun a b ha hb => by rw [manual_div ha hb]; exact mk3 a "\n" b,
   fun a b ha hb => by rw [manual_br ha hb]; exact mk3 a "\n" b,
   fun a b ha hb => by rw [manual_br3 ha hb]; exact mk3 a "\n\n" b,
   fun a b ha hb => by rw [manual_brsp ha hb]; exact mk3 a "\n" b,
   fun a b ha hb => by rw [manual_span ha hb]; exact mk2 a b,
   fun a b ha hb => by rw [manual_style ha hb]; exact mk2 a b,
   fun a b ha hb => by rw [manual_nbsp ha hb]; exact mk3 a " " b,
   fun a b ha hb => by rw [manual_amp ha hb]; exact mk3 a "&" b,
   fun a b ha hb => by rw [manual_lt ha hb]; exact mk3 a "<" b,
   fun a b ha hb => by rw [manual_gt ha hb]; exact mk3 a ">" b,
   fun a b ha hb => by rw [manual_quot ha hb]; exact mk3 a "\x22" b,
   fun a b ha hb => by rw [manual_num39 ha hb]; exact mk3 a sq b,
   fun a b ha hb => by rw [manual_apos ha hb]; exact mk3 a sq b,
   fun a b ha hb => by rw [auto_br ha hb]; exact mk3 a "\n" b,
   fun a b ha hb => by rw [auto_p ha hb]; exact mk3 a "\n\n" b,
   fun a b ha hb => by rw [auto_div ha hb]; exact mk3 a "\n" b,
   fun a b ha hb => by rw [auto_br3 ha hb]; exact mk3 a "\n\n" b,
   fun a b ha hb => by rw [auto_span ha hb]; exact mk2 a b,
   fun a b ha hb => by rw [auto_style ha hb]; exact mk2 a b,
   fun a b ha hb => by rw [auto_nbsp ha hb]; exact mk3 a " " b,
   fun a b ha hb => by rw [auto_amp ha hb]; exact mk3 a "&" b,
   fun a b ha hb => by rw [auto_lt ha hb]; exact mk3 a "<" b,
   fun a b ha hb => by rw [auto_gt ha hb]; exact mk3 a ">" b,
   fun a b ha hb => by rw [auto_quot ha hb]; exact mk3 a "\x22" b,
   fun a b ha hb => by rw [auto_li ha hb]; exact mk2 a b,
   fun a b ha hb => by rw [auto_tr ha hb]; exact mk2 a b,
   fun a b ha hb => by rw [auto_h2 ha hb]; exact mk2 a b,
   fun a b ha hb => by rw [auto_num39 ha hb]; exact mk3 a "&#39;" b,
   fun a b ha hb => by rw [auto_apos ha hb]; exact mk3 a "&apos;" b,
   fun a b ha hb => by rw [auto_brsp ha hb]; exact mk3 a "\n " b⟩

/-- C7, witness: the amended statement at the words `"x"` and `"y"`. -/
theorem c7_witness :
    htmlToPlainTextManual ("x" ++ "</li>" ++ "y") = "x" ++ "\n" ++ "y" ∧
    htmlToPlainTextAuto ("x" ++ "</li>" ++ "y") = "x" ++ "y" ∧
    htmlToPlainTextManual ("x" ++ "&#39;" ++ "y") = "x" ++ sq ++ "y" ∧
    htmlToPlainTextAuto ("x" ++ "&amp;" ++ "y") = "x" ++ "&" ++ "y" :=
  ⟨c7_html_conversions.1 "x" "y" (by decide) (by decide),
   c7_html_conversions.2.2.2.2.2.2.2.2.2.2.2.2.2.2.2.2.2.2.2.2.2.2.2.2.2.2.2.2.1
     "x" "y" (by decide) (by decide),
   (c7_html_conversions.2.2.2.2.2.2.2.2.2.2.2.2.2.2.2.1) "x" "y"
     (by decide) (by decide),
   (c7_html_conversions.2.2.2.2.2.2.2.2.2.2.2.2.2.2.2.2.2.2.2.2.2.2.2.2.1) "x" "y"
     (by decide) (by decide)⟩

/-! ## Claim C8: link-extraction exclusions -/

theorem hasSub_of_prefix {q l : List Char} (h : List.isPrefixOf q l = true) :
    hasSub q l = true := by
  cases l with
  | nil =>
    cases q with
    | nil => rfl
    | cons c cs => simp [List.isPrefixOf] at h
  | cons c cs =>
    unfold hasSub
    simp [h]

theorem hasSub_of_prefix_drop {p q l : List Char}
    (h : List.isPrefixOf (p ++ q) l = true) : hasSub q l = true := by
  induction p generalizing l with
  | nil => exact hasSub_of_prefix (by simpa using h)
  | cons a p ih =>
    cases l with
    | nil => simp [List.isPrefixOf] at h
    | cons c cs =>
      simp only [List.cons_append, List.isPrefixOf, Bool.and_eq_true] at h
      have h2 := ih h.2
      unfold hasSub
      simp [h2]

theorem hasSub_mono {p q l : List Char} (h : hasSub (p ++ q) l = true) :
    hasSub q l = true := by
  induction l with
  | nil =>
    unfold hasSub at h ⊢
    rcases List.append_eq_nil.mp (List.isEmpty_iff.mp h) with ⟨_, h2⟩
    simp [h2]
  | cons c cs ih =>
    unfold hasSub at h
    simp only [Bool.or_eq_true] at h
    rcases h with h1 | h2
    · exact hasSub_of_prefix_drop h1
    · have := ih h2
      unfold hasSub
      simp [this]

/-- Urls containing `emailtracking` contain `tracking`. -/
theorem containsStr_tracking {u : String}
    (h : containsStr u "tracking" = false) :
    containsStr u "emailtracking" = false := by
  cases hc : containsStr u "emailtracking"
  · rfl
  · exfalso
    unfold containsStr at hc h
    rw [show ("emailtracking".data : List Char) =
      "email".data ++ "tracking".data from rfl] at hc
    rw [hasSub_mono hc] at h
    exact Bool.noConfusion h

theorem buildLinksAuto_mem : ∀ (cands : List RawAnchor) (acc : List Link)
    (l : Link), l ∈ buildLinksAuto cands acc →
    l ∈ acc ∨ (badSchemeB l.url = false ∧
      containsStr (lowerStr l.url) "unsubscribe" = false ∧
      containsStr (lowerStr l.url) "tracking" = false) := by
  intro cands
  induction cands with
  | nil =>
    intro acc l h
    exact Or.inl h
  | cons a rest ih =>
    intro acc l h
    simp only [buildLinksAuto] at h
    split at h
    · exact ih _ _ h
    · split at h
      · exact ih _ _ h
      · split at h
        · rcases ih _ l h with hacc | hgood
          · rcases List.mem_append.mp hacc with hl | hl
            · exact Or.inl hl
            · rcases List.mem_singleton.mp hl with rfl
              rename_i hbad hsub _
              have hb : badSchemeB ⟨a.url⟩ = false := Bool.eq_false_iff.mpr hbad
              have hs : (containsStr (lowerStr ⟨a.url⟩) "unsubscribe" ||
                  containsStr (lowerStr ⟨a.url⟩) "tracking") = false :=
                Bool.eq_false_iff.mpr hsub
              rcases Bool.or_eq_false_iff.mp hs with ⟨hu, ht⟩
              exact Or.inr ⟨hb, hu, ht⟩
          · exact Or.inr hgood
        · exact ih _ _ h

theorem buildLinksManual_mem : ∀ (cands : List RawAnchor) (acc : List Link)
    (l : Link), l ∈ buildLinksManual cands acc →
    l ∈ acc ∨ (badSchemeB l.url = false ∧
      containsStr (lowerStr l.url) "unsubscribe" = false ∧
      containsStr (lowerStr l.url) "tracking" = false ∧
      containsStr (lowerStr l.url) "click." = false ∧
      containsStr (lowerStr l.url) "emailtracking" = false) := by
  intro cands
  induction cands with
  | nil =>
    intro acc l h
    exact Or.inl h
  | cons a rest ih =>
    intro acc l h
    simp only [buildLinksManual] at h
    split at h
    · exact ih _ _ h
    · split at h
      · exact ih _ _ h
      · split at h
        · rcases ih _ l h with hacc | hgood
          · rcases List.mem_append.mp hacc with hl | hl
            · exact Or.inl hl
            · rcases List.mem_singleton.mp hl with rfl
              rename_i hbad hsub _
              have hb : badSchemeB ⟨a.url⟩ = false := Bool.eq_false_iff.mpr hbad
              have hs : (containsStr (lowerStr ⟨a.url⟩) "unsubscribe" ||
                  containsStr (lowerStr ⟨a.url⟩) "tracking" ||
                  containsStr (lowerStr ⟨a.url⟩) "click." ||
                  containsStr (lowerStr ⟨a.url⟩) "emailtracking") = false :=
                Bool.eq_false_iff.mpr hsub
              rcases Bool.or_eq_false_iff.mp hs with ⟨hs3, he⟩
              rcases Bool.or_eq_false_iff.mp hs3 with ⟨hs2, hc⟩
              rcases Bool.or_eq_false_iff.mp hs2 with ⟨hu, ht⟩
              exact Or.inr ⟨hb, hu, ht, hc, he⟩
          · exact Or.inr hgood
        · exact ih _ _ h

/-- C8, counterexample: the scheduled pass's extractor does not exclude
urls containing `click.` — its filter checks only `unsubscribe` and
`tracking` — so a `click.`-hosted anchor comes back as a link. -/
theorem c8_counterexample :
    extractLinksAuto "<a href=\x22https://click.example/a\x22>go</a>" =
      [⟨"https://click.example/a", "go"⟩] ∧
    containsStr (lowerStr "https://click.example/a") "click." = true := by
  constructor
  · decide
  · decide

/-- C8 (amended): every link either extractor returns has a url that does
not start with `mailto:`, `tel:`, `javascript:`, `data:` or `#` and does
not contain `unsubscribe` or `tracking` (hence not `emailtracking`)
case-insensitively; the manual route's extractor additionally excludes
urls containing `click.` and `emailtracking`, but the scheduled pass's
extractor does not check `click.`. -/
theorem c8_link_exclusions :
    (∀ html : String, ∀ l ∈ extractLinksManual html,
      badSchemeB l.url = false ∧
      containsStr (lowerStr l.url) "unsubscribe" = false ∧
      containsStr (lowerStr l.url) "tracking" = false ∧
      containsStr (lowerStr l.url) "click." = false ∧
      containsStr (lowerStr l.url) "emailtracking" = false) ∧
    (∀ html : String, ∀ l ∈ extractLinksAuto html,
      badSchemeB l.url = false ∧
      containsStr (lowerStr l.url) "unsubscribe" = false ∧
      containsStr (lowerStr l.url) "tracking" = false ∧
      containsStr (lowerStr l.url) "emailtracking" = false) := by
  constructor
  · intro html l hl
    unfold extractLinksManual at hl
    by_cases he : html.isEmpty = true
    · rw [if_pos he] at hl
      exact absurd hl (List.not_mem_nil l)
    · rw [if_neg he] at hl
      rcases buildLinksManual_mem _ _ _ hl with hacc | hgood
      · exact absurd hacc (List.not_mem_nil l)
      · exact hgood
  · intro html l hl
    unfold extractLinksAuto at hl
    by_cases he : html.isEmpty = true
    · rw [if_pos he] at hl
      exact absurd hl (List.not_mem_nil l)
    · rw [if_neg he] at hl
      rcases buildLinksAuto_mem _ _ _ hl with hacc | hgood
      · exact absurd hacc (List.not_mem_nil l)
      · exact ⟨hgood.1, hgood.2.1, hgood.2.2, containsStr_tracking hgood.2.2⟩

/-- C8, witness: the amended statement at a concrete page with one clean
link, for each extractor. -/
theorem c8_witness :
    ((⟨"https://ok.example/x", "go"⟩ : Link) ∈
      extractLinksManual "<a href=\x22https://ok.example/x\x22>go</a>" ∧
      badSchemeB "https://ok.example/x" = false ∧
      containsStr (lowerStr "https://ok.example/x") "unsubscribe" = false) ∧
    ((⟨"https://ok.example/x", "go"⟩ : Link) ∈
      extractLinksAuto "<a href=\x22https://ok.example/x\x22>go</a>" ∧
      containsStr (lowerStr "https://ok.example/x") "emailtracking" = false) := by
  have hm : (⟨"https://ok.example/x", "go"⟩ : Link) ∈
      extractLinksManual "<a href=\x22https://ok.example/x\x22>go</a>" := by
    decide
  have ha : (⟨"https://ok.example/x", "go"⟩ : Link) ∈
      extractLinksAuto "<a href=\x22https://ok.example/x\x22>go</a>" := by
    decide
  refine ⟨⟨hm, ?_, ?_⟩, ⟨ha, ?_⟩⟩
  · exact (c8_link_exclusions.1 _ _ hm).1
  · exact (c8_link_exclusions.1 _ _ hm).2.1
  · exact (c8_link_exclusions.2 _ _ ha).2.2.2

/-! ## Branch lemmas for the scheduled pass's per-message step -/

theorem autoStep_dedup {env : Env} {mods : List ModuleRow} {st : St} {e : Email}
    (h : ledgerHas st e.id = true) : autoStep env mods st e = st := by
  unfold autoStep
  rw [if_pos h]

theorem autoStep_noTag {env : Env} {mods : List ModuleRow} {st : St} {e : Email}
    (h2 : optFalsy (parseModuleTagFromSubject e.subject).moduleName = true) :
    autoStep env mods st e = st := by
  simp only [autoStep, h2, if_true, ite_self]

theorem autoStep_noMatch {env : Env} {mods : List ModuleRow} {st : St} {e : Email}
    (h3 : mods.find? (fun m => lowerStr m.name ==
      lowerStr ((parseModuleTagFromSubject e.subject).moduleName.getD "")) = none) :
    autoStep env mods st e = st := by
  simp only [autoStep, h3, ite_self]

theorem autoStep_insertFails {env : Env} {mods : List ModuleRow} {st : St}
    {e : Email} {m : ModuleRow}
    (h3 : mods.find? (fun m => lowerStr m.name ==
      lowerStr ((parseModuleTagFromSubject e.subject).moduleName.getD "")) = some m)
    (h4 : env.recordInsertFails e.id = true) :
    autoStep env mods st e = st := by
  simp only [autoStep, h3, h4, if_true, ite_self]

theorem autoStep_creates {env : Env} {mods : List ModuleRow} {st : St}
    {e : Email} {m : ModuleRow}
    (h1 : ledgerHas st e.id = false)
    (h2 : optFalsy (parseModuleTagFromSubject e.subject).moduleName = false)
    (h3 : mods.find? (fun m => lowerStr m.name ==
      lowerStr ((parseModuleTagFromSubject e.subject).moduleName.getD "")) = some m)
    (h4 : env.recordInsertFails e.id = false) :
    autoStep env mods st e = createRecordTail env e m
      (parseModuleTagFromSubject e.subject).cleanSubject
      (htmlToPlainTextAuto (strOr e.body e.bodyPreview))
      (savedLinksAuto e.body)
      "Record created from email (auto)" e.fromAddress st := by
  simp only [autoStep, h1, h2, h3, h4, Bool.false_eq_true, if_false]

/-- Each step of the scheduled pass either leaves the state unchanged or,
for a message not yet in the ledger, appends exactly one `processed` row
for it. -/
theorem autoStep_ledger_shape (env : Env) (mods : List ModuleRow) (st : St)
    (e : Email) :
    autoStep env mods st e = st ∨
    (ledgerHas st e.id = false ∧ ∃ mId : Nat,
      (autoStep env mods st e).ledger =
        st.ledger ++ [processedRow e mId st.nextRecordId]) := by
  by_cases h1 : ledgerHas st e.id = true
  · exact Or.inl (autoStep_dedup h1)
  · have h1f : ledgerHas st e.id = false := Bool.eq_false_iff.mpr h1
    by_cases h2 : optFalsy (parseModuleTagFromSubject e.subject).moduleName = true
    · exact Or.inl (autoStep_noTag h2)
    · have h2f : optFalsy (parseModuleTagFromSubject e.subject).moduleName = false :=
        Bool.eq_false_iff.mpr h2
      cases h3 : mods.find? (fun m => lowerStr m.name ==
          lowerStr ((parseModuleTagFromSubject e.subject).moduleName.getD "")) with
      | none => exact Or.inl (autoStep_noMatch h3)
      | some m =>
        by_cases h4 : env.recordInsertFails e.id = true
        · exact Or.inl (autoStep_insertFails h3 h4)
        · have h4f : env.recordInsertFails e.id = false := Bool.eq_false_iff.mpr h4
          refine Or.inr ⟨h1f, m.id, ?_⟩
          rw [autoStep_creates h1f h2f h3 h4f]
          obtain ⟨imgs, docs, hled, _⟩ :=
            createRecordTail_spec env e m
              (parseModuleTagFromSubject e.subject).cleanSubject
              (htmlToPlainTextAuto (strOr e.body e.bodyPreview))
              (savedLinksAuto e.body)
              "Record created from email (auto)" e.fromAddress st
          exact hled

/-! ## Ledger uniqueness -/

/-- At most one ledger row per `emailId`. -/
def uniqueLedger (st : St) : Prop :=
  (st.ledger.map (fun r => r.emailId)).Nodup

theorem ledgerHas_false_forall {st : St} {id : String}
    (h : ledgerHas st id = false) : ∀ r ∈ st.ledger, r.emailId ≠ id := by
  unfold ledgerHas at h
  simp only [List.any_eq_false, beq_iff_eq] at h
  exact h

theorem nodup_append_row {l : List LedgerRow} {row : LedgerRow}
    (h : (l.map (fun r => r.emailId)).Nodup)
    (hno : ∀ r ∈ l, r.emailId ≠ row.emailId) :
    ((l ++ [row]).map (fun r => r.emailId)).Nodup := by
  rw [List.map_append, List.nodup_append]
  refine ⟨h, List.nodup_singleton _, ?_⟩
  intro a ha hb
  simp only [List.map_cons, List.map_nil, List.mem_singleton] at hb
  rcases List.mem_map.mp ha with ⟨r, hr, rfl⟩
  exact hno r hr hb

theorem uniqueLedger_add {st : St} {row : LedgerRow} (h : uniqueLedger st)
    (hno : ledgerHas st row.emailId = false) : uniqueLedger (addLedger st row) :=
  nodup_append_row h (ledgerHas_false_forall hno)

theorem autoStep_unique {env : Env} {mods : List ModuleRow} {st : St} {e : Email}
    (h : uniqueLedger st) : uniqueLedger (autoStep env mods st e) := by
  rcases autoStep_ledger_shape env mods st e with heq | ⟨h1f, mId, hled⟩
  · rw [heq]
    exact h
  · unfold uniqueLedger
    rw [hled]
    exact nodup_append_row h (ledgerHas_false_forall h1f)

theorem autoFold_unique (env : Env) (mods : List ModuleRow) :
    ∀ (emails : List Email) (st : St), uniqueLedger st →
    uniqueLedger (emails.foldl (autoStep env mods) st) := by
  intro emails
  induction emails with
  | nil => exact fun st h => h
  | cons e rest ih =>
    intro st h
    exact ih (autoStep env mods st e) (autoStep_unique h)

/-- The result state of a scheduled pass: either untouched or the fold of
the per-message step over the fetched batch. -/
theorem processEmails_st_shape (env : Env) (proc : ProcState) (st : St) :
    (processEmails env proc st).st = st ∨
    ∃ (mods : List ModuleRow) (emails : List Email),
      (processEmails env proc st).st = emails.foldl (autoStep env mods) st := by
  unfold processEmails
  by_cases h1 : ({proc with debugLogging := env.debugSetting} : ProcState).isProcessing = true
  · rw [if_pos h1]
    exact Or.inl rfl
  · rw [if_neg h1]
    by_cases h2 : env.modulesQueryFails = true
    · rw [if_pos h2]
      exact Or.inl rfl
    · rw [if_neg h2]
      by_cases h3 : (autoProcessFilter (env.modules.filter
          (fun m => m.isActive))).isEmpty = true
      · rw [if_pos h3]
        exact Or.inl rfl
      · rw [if_neg h3]
        cases env.fetchResult with
        | none => exact Or.inl rfl
        | some emails =>
          exact Or.inr ⟨autoProcessFilter (env.modules.filter
            (fun m => m.isActive)), emails, rfl⟩

theorem runBulk_unique (env : Env) :
    ∀ (emails : List Email) (st : St), uniqueLedger st →
    uniqueLedger (runBulk env st emails).st := by
  intro emails
  induction emails with
  | nil => exact fun st h => h
  | cons e rest ih =>
    intro st h
    by_cases h1 : ledgerHas st e.id = true
    · simp only [runBulk, h1, if_true]
      exact ih st h
    · have h1f : ledgerHas st e.id = false := Bool.eq_false_iff.mpr h1
      simp only [runBulk, h1f, Bool.false_eq_true, if_false]
      by_cases h2 : optFalsy (parseModuleTagFromSubject e.subject).moduleName = true
      · simp only [h2, if_true]
        exact ih _ (uniqueLedger_add h h1f)
      · simp only [h2, Bool.false_eq_true, if_false]
        cases h3 : findModule env.modules
            ((parseModuleTagFromSubject e.subject).moduleName.getD "") with
        | none =>
          simp only []
          exact ih _ (uniqueLedger_add h h1f)
        | some m =>
          simp only []
          by_cases h4 : ((m.config.getD ⟨false, false⟩).enableEmailInbox : Bool) = false
          · simp only [h4, Bool.not_false, if_true]
            exact ih _ (uniqueLedger_add h h1f)
          · have h4t : (m.config.getD ⟨false, false⟩).enableEmailInbox = true := by
              revert h4
              cases (m.config.getD ⟨false, false⟩).enableEmailInbox <;> simp
            simp only [h4t, Bool.not_true, Bool.false_eq_true, if_false]
            by_cases h5 : env.recordInsertFails e.id = true
            · simp only [h5, if_true]
              exact h
            · simp only [h5, Bool.false_eq_true, if_false]
              apply ih
              obtain ⟨imgs, docs, hled, _⟩ :=
                createRecordTail_spec env e m
                  (parseModuleTagFromSubject e.subject).cleanSubject
                  (htmlToPlainTextManual (strOr e.body e.bodyPreview))
                  (savedLinksManual e.body)
                  "Record created from email" e.fromAddress st
              unfold uniqueLedger
              rw [hled]
              exact nodup_append_row h (ledgerHas_false_forall h1f)

theorem processSingle_unique (env : Env) (emailId : String)
    (bm ru : Option String) (emails : List Email) (st : St)
    (h : uniqueLedger st) :
    uniqueLedger (processSingle env emailId bm ru emails st).st := by
  unfold processSingle
  split
  · exact h
  · rename_i e hf
    by_cases h1 : ledgerHas st emailId = true
    · rw [if_pos h1]
      exact h
    · have h1f : ledgerHas st emailId = false := Bool.eq_false_iff.mpr h1
      rw [if_neg h1]
      by_cases h2 : optFalsy (jsOrOpt bm
          (parseModuleTagFromSubject e.subject).moduleName) = true
      · simp only [h2, if_true]
        exact h
      · simp only [h2, Bool.false_eq_true, if_false]
        split
        · exact h
        · rename_i m h3
          by_cases h4 : env.recordInsertFails e.id = true
          · simp only [h4, if_true]
            exact h
          · simp only [h4, Bool.false_eq_true, if_false]
            have heid : e.id = emailId := by
              have := List.find?_some hf
              simpa using this
            obtain ⟨imgs, docs, hled, _⟩ :=
              createRecordTail_spec env e m
                (parseModuleTagFromSubject e.subject).cleanSubject
                (htmlToPlainTextManual (strOr e.body e.bodyPreview))
                (savedLinksManual e.body)
                "Record created from email (manual)" (ru.getD "system") st
            unfold uniqueLedger
            rw [hled]
            refine nodup_append_row h ?_
            rw [show (processedRow e m.id st.nextRecordId).emailId = e.id from rfl,
              heid]
            exact ledgerHas_false_forall h1f

/-! ## Claim C1: ledger deduplication -/

/-- C1: a message whose id is already in the `processed_emails` ledger is
untouched by every pass — the scheduled step returns the state unchanged,
the bulk route only records an `Already processed` skip, and the single
route answers without touching the state — and all three passes preserve
uniqueness of `emailId` in the ledger. -/
theorem c1_ledger_dedup :
    (∀ (env : Env) (mods : List ModuleRow) (st : St) (e : Email),
      ledgerHas st e.id = true → autoStep env mods st e = st) ∧
    (∀ (env : Env) (st : St) (e : Email) (rest : List Email),
      ledgerHas st e.id = true →
      runBulk env st (e :: rest) =
        {runBulk env st rest with
          skipped := (e.id, "Already processed") :: (runBulk env st rest).skipped}) ∧
    (∀ (env : Env) (emailId : String) (bm ru : Option String)
      (emails : List Email) (st : St), ledgerHas st emailId = true →
      (processSingle env emailId bm ru emails st).st = st ∧
      ((processSingle env emailId bm ru emails st).result = .alreadyProcessed ∨
       (processSingle env emailId bm ru emails st).result = .notFoundEmail)) ∧
    (∀ (env : Env) (proc : ProcState) (st : St),
      uniqueLedger st → uniqueLedger (processEmails env proc st).st) ∧
    (∀ (env : Env) (st : St) (emails : List Email),
      uniqueLedger st → uniqueLedger (runBulk env st emails).st) ∧
    (∀ (env : Env) (emailId : String) (bm ru : Option String)
      (emails : List Email) (st : St),
      uniqueLedger st → uniqueLedger (processSingle env emailId bm ru emails st).st) := by
  refine ⟨fun env mods st e h => autoStep_dedup h, ?_, ?_, ?_, ?_, ?_⟩
  · intro env st e rest h
    simp only [runBulk, h, if_true]
  · intro env emailId bm ru emails st h
    unfold processSingle
    split
    · exact ⟨rfl, Or.inr rfl⟩
    · rw [if_pos h]
      exact ⟨rfl, Or.inl rfl⟩
  · intro env proc st h
    rcases processEmails_st_shape env proc st with heq | ⟨mods, emails, heq⟩
    · rw [heq]
      exact h
    · rw [heq]
      exact autoFold_unique env mods emails st h
  · exact fun env st emails h => runBulk_unique env emails st h
  · exact fun env emailId bm ru emails st h =>
      processSingle_unique env emailId bm ru emails st h

/-! ## Concrete fixtures for witnesses and counterexamples -/

/-- An active module with both inbox flags enabled. -/
def mAuto : ModuleRow := ⟨1, "sales", "Sales", true, some ⟨true, true⟩⟩

/-- An active module whose config has `enableEmailInbox` falsy. -/
def mNoInbox : ModuleRow := ⟨2, "ops", "Ops", true, some ⟨false, false⟩⟩

/-- A quiet environment: two modules, empty mailbox, no failures. -/
def env0 : Env :=
  ⟨[mAuto, mNoInbox], false, none, false, fun _ => false, fun _ => [],
    fun _ => false, fun _ => false, fun s => s, false⟩

/-- The empty store. -/
def st0 : St := ⟨[], [], [], [], [], [], [], [], 1⟩

/-- A message with a `[Sales]` subject tag and empty body. -/
def eTagged : Email := ⟨"m1", "[Sales] Order", "a@x.test", "A", "", "", "", false⟩

/-- A message with no subject tag. -/
def eNoTag : Email := ⟨"m2", "hello there", "b@x.test", "B", "", "", "", false⟩

/-- A pre-existing ledger row for `eTagged`. -/
def rowDup : LedgerRow :=
  ⟨"m1", none, none, "a@x.test", "A", "[Sales] Order", "", none, .skipped, none⟩

/-- A store already holding a ledger row for `m1`. -/
def stDup : St := {st0 with ledger := [rowDup]}

/-- C1, witness: with `m1` already in the ledger, the scheduled step is
the identity, the bulk route only records a skip, the single route leaves
the state alone, and uniqueness is preserved on a concrete pass. -/
theorem c1_witness :
    autoStep env0 [mAuto] stDup eTagged = stDup ∧
    runBulk env0 stDup [eTagged] =
      {runBulk env0 stDup [] with
        skipped := ("m1", "Already processed") :: (runBulk env0 stDup []).skipped} ∧
    (processSingle env0 "m1" none none [eTagged] stDup).st = stDup ∧
    uniqueLedger (processEmails env0 ⟨false, false⟩ stDup).st :=
  ⟨c1_ledger_dedup.1 env0 [mAuto] stDup eTagged (by decide),
   c1_ledger_dedup.2.1 env0 stDup eTagged [] (by decide),
   (c1_ledger_dedup.2.2.1 env0 "m1" none none [eTagged] stDup (by decide)).1,
   c1_ledger_dedup.2.2.2.1 env0 ⟨false, false⟩ stDup
     (by unfold uniqueLedger; decide)⟩

/-! ## Claim C2: failed record insert leaves no trace -/

/-- C2: when the `module_records` insert throws for a message, no pass
leaves any trace of it — the scheduled step returns the state unchanged
(per-message `catch`), the bulk route aborts with the state as it stood
(route-level `catch`, HTTP 500), and the single route answers
`serverError` with the state unchanged; in particular no ledger row is
written and the message is not marked read, so it is retried later. -/
theorem c2_insert_failure :
    (∀ (env : Env) (mods : List ModuleRow) (st : St) (e : Email),
      env.recordInsertFails e.id = true → autoStep env mods st e = st) ∧
    (∀ (env : Env) (st : St) (e : Email) (rest : List Email) (m : ModuleRow),
      ledgerHas st e.id = false →
      optFalsy (parseModuleTagFromSubject e.subject).moduleName = false →
      findModule env.modules
        ((parseModuleTagFromSubject e.subject).moduleName.getD "") = some m →
      (m.config.getD ⟨false, false⟩).enableEmailInbox = true →
      env.recordInsertFails e.id = true →
      runBulk env st (e :: rest) = ⟨st, [], [], [], true⟩) ∧
    (∀ (env : Env) (emailId : String) (bm ru : Option String)
      (emails : List Email) (st : St) (e : Email) (m : ModuleRow),
      emails.find? (fun x => x.id == emailId) = some e →
      ledgerHas st emailId = false →
      optFalsy (jsOrOpt bm (parseModuleTagFromSubject e.subject).moduleName) = false →
      findModule env.modules
        ((jsOrOpt bm (parseModuleTagFromSubject e.subject).moduleName).getD "") =
        some m →
      env.recordInsertFails e.id = true →
      processSingle env emailId bm ru emails st = ⟨st, .serverError⟩) := by
  refine ⟨?_, ?_, ?_⟩
  · intro env mods st e hf
    by_cases h1 : ledgerHas st e.id = true
    · exact autoStep_dedup h1
    · by_cases h2 : optFalsy (parseModuleTagFromSubject e.subject).moduleName = true
      · exact autoStep_noTag h2
      · cases h3 : mods.find? (fun m => lowerStr m.name ==
            lowerStr ((parseModuleTagFromSubject e.subject).moduleName.getD "")) with
        | none => exact autoStep_noMatch h3
        | some m => exact autoStep_insertFails h3 hf
  · intro env st e rest m h1 h2 h3 h4 h5
    simp only [runBulk, h1, Bool.false_eq_true, if_false, h2, h3, h4,
      Bool.not_true, h5, if_true]
  · intro env emailId bm ru emails st e m hf h1 h2 h3 h5
    unfold processSingle
    split
    · rename_i hnone
      rw [hf] at hnone
      exact Option.noConfusion hnone
    · rename_i e2 hf2
      rw [hf] at hf2
      obtain rfl : e = e2 := Option.some.inj hf2
      rw [if_neg (by rw [h1]; exact Bool.noConfusion)]
      simp only [h2, Bool.false_eq_true, if_false]
      split
      · rename_i hn
        rw [h3] at hn
        exact Option.noConfusion hn
      · rename_i m2 hm2
        rw [h3] at hm2
        obtain rfl : m = m2 := Option.some.inj hm2
        rw [if_pos h5]

/-- An environment whose `module_records` insert throws for `m1`. -/
def envFail : Env :=
  {env0 with fetchResult := some [eTagged],
             recordInsertFails := fun id => id == "m1"}

/-- C2, witness: with a throwing insert for `m1`, all three passes leave
the empty store empty. -/
theorem c2_witness :
    autoStep envFail [mAuto] st0 eTagged = st0 ∧
    runBulk envFail st0 [eTagged] = ⟨st0, [], [], [], true⟩ ∧
    processSingle envFail "m1" none none [eTagged] st0 = ⟨st0, .serverError⟩ :=
  ⟨c2_insert_failure.1 envFail [mAuto] st0 eTagged (by decide),
   c2_insert_failure.2.1 envFail st0 eTagged [] mAuto (by decide) (by decide)
     (by decide) (by decide) (by decide),
   c2_insert_failure.2.2 envFail "m1" none none [eTagged] st0 eTagged mAuto
     (by decide) (by decide) (by decide) (by decide) (by decide)⟩

/-! ## Claim C3: messages without a subject tag -/

/-- The pass environment of the C3 counterexample: one unread tagless
message, auto-processing candidates present. -/
def envNoTag : Env := {env0 with fetchResult := some [eNoTag]}

/-- C3, counterexample: the scheduled automatic pass does NOT write a
skipped ledger row for a tagless message — it runs over the fetched
batch (`fetched = true`) and leaves the store, in particular the empty
ledger, completely unchanged (`continue` with no insert). -/
theorem c3_counterexample :
    (processEmails envNoTag ⟨false, false⟩ st0).st = st0 ∧
    (processEmails envNoTag ⟨false, false⟩ st0).fetched = true ∧
    hasLeadingTagB eNoTag.subject = false ∧
    st0.ledger = [] := by
  exact ⟨by decide, by decide, by decide, rfl⟩

/-- C3 (amended): for a message whose subject has no leading bracketed
tag, the manual bulk pass writes exactly one ledger row — skipped, error
message `No module tag in subject`, no module id, no record id — and
creates nothing else, while the scheduled automatic pass writes no ledger
row at all for such a message and leaves the state untouched. -/
theorem c3_no_tag_row :
    (∀ (env : Env) (mods : List ModuleRow) (st : St) (e : Email),
      hasLeadingTagB e.subject = false → autoStep env mods st e = st) ∧
    (∀ (env : Env) (st : St) (e : Email),
      hasLeadingTagB e.subject = false → ledgerHas st e.id = false →
      runBulk env st [e] =
        ⟨addLedger st (noTagRow e), [],
          [(e.id, "No module tag in subject")], [], false⟩) ∧
    (∀ (st : St) (e : Email),
      (noTagRow e).status = .skipped ∧
      (noTagRow e).errorMessage = some "No module tag in subject" ∧
      (noTagRow e).moduleId = none ∧ (noTagRow e).recordId = none ∧
      (addLedger st (noTagRow e)).ledger = st.ledger ++ [noTagRow e] ∧
      (addLedger st (noTagRow e)).records = st.records ∧
      (addLedger st (noTagRow e)).history = st.history ∧
      (addLedger st (noTagRow e)).markedRead = st.markedRead) := by
  refine ⟨?_, ?_, fun st e => ⟨rfl, rfl, rfl, rfl, rfl, rfl, rfl, rfl⟩⟩
  · intro env mods st e h
    exact autoStep_noTag (by rw [noTag_parse h]; rfl)
  · intro env st e h h1
    simp only [runBulk, h1, Bool.false_eq_true, if_false, noTag_parse h,
      optFalsy, if_true]

/-- C3, witness: the amended statement on the concrete tagless message. -/
theorem c3_witness :
    autoStep env0 [mAuto] st0 eNoTag = st0 ∧
    runBulk env0 st0 [eNoTag] =
      ⟨addLedger st0 (noTagRow eNoTag), [],
        [("m2", "No module tag in subject")], [], false⟩ ∧
    (noTagRow eNoTag).status = .skipped :=
  ⟨c3_no_tag_row.1 env0 [mAuto] st0 eNoTag (by decide),
   c3_no_tag_row.2.1 env0 st0 eNoTag (by decide) (by decide),
   (c3_no_tag_row.2.2 st0 eNoTag).1⟩

/-! ## Claim C4: the single-flight guard -/

/-- C4: a pass invoked while the in-flight flag is set is a no-op — no
fetch, no state change, flag left set — and a pass that actually starts
always ends with the flag cleared, in every exit branch including the
thrown module query. -/
theorem c4_single_flight :
    (∀ (env : Env) (proc : ProcState) (st : St), proc.isProcessing = true →
      processEmails env proc st = ⟨⟨true, env.debugSetting⟩, st, false⟩) ∧
    (∀ (env : Env) (proc : ProcState) (st : St), proc.isProcessing = false →
      (processEmails env proc st).proc.isProcessing = false) := by
  constructor
  · intro env proc st h
    cases proc with
    | mk ip dl =>
      obtain rfl : ip = true := h
      rfl
  · intro env proc st h
    cases proc with
    | mk ip dl =>
      obtain rfl : ip = false := h
      simp only [processEmails]
      split
      · rfl
      · split
        · rfl
        · split
          · rfl
          · split
            · rfl
            · rfl

/-- C4, witness: the guard at a concrete in-flight state, and the clear
flag after a concrete completed pass. -/
theorem c4_witness :
    processEmails env0 ⟨true, false⟩ st0 = ⟨⟨true, env0.debugSetting⟩, st0, false⟩ ∧
    (processEmails env0 ⟨false, false⟩ st0).proc.isProcessing = false :=
  ⟨c4_single_flight.1 env0 ⟨true, false⟩ st0 rfl,
   c4_single_flight.2 env0 ⟨false, false⟩ st0 rfl⟩

/-! ## Claim C5: the single-message route and `enableEmailInbox` -/

/-- C5, counterexample: the single-message route performs no
`enableEmailInbox` check — targeting the module whose parsed config has
`enableEmailInbox` falsy, it still creates the record and writes the
`processed` ledger row. -/
theorem c5_counterexample :
    (mNoInbox.config.getD ⟨false, false⟩).enableEmailInbox = false ∧
    findModule env0.modules "ops" = some mNoInbox ∧
    (processSingle env0 "m1" (some "ops") none [eTagged] st0).result = .ok 1 ∧
    (processSingle env0 "m1" (some "ops") none [eTagged] st0).st.records.length = 1 ∧
    (processSingle env0 "m1" (some "ops") none [eTagged] st0).st.ledger.length = 1 := by
  exact ⟨rfl, by decide, by decide, by decide, by decide⟩

/-- C5 (amended): the single-message route follows the state machine's
module lookup and creation steps but skips the routing-enabled check —
whenever the message is found, not yet in the ledger, a target module
name resolves and the insert does not throw, it creates the record and
the `processed` ledger row with NO condition on the module's
`enableEmailInbox` flag. -/
theorem c5_single_no_inbox_check (env : Env) (emailId : String)
    (bm ru : Option String) (emails : List Email) (st : St) (e : Email)
    (m : ModuleRow)
    (hf : emails.find? (fun x => x.id == emailId) = some e)
    (h1 : ledgerHas st emailId = false)
    (h2 : optFalsy (jsOrOpt bm (parseModuleTagFromSubject e.subject).moduleName) = false)
    (h3 : findModule env.modules
      ((jsOrOpt bm (parseModuleTagFromSubject e.subject).moduleName).getD "") =
      some m)
    (h4 : env.recordInsertFails e.id = false) :
    (processSingle env emailId bm ru emails st).result = .ok st.nextRecordId ∧
    (processSingle env emailId bm ru emails st).st.records.length =
      st.records.length + 1 ∧
    (processSingle env emailId bm ru emails st).st.ledger =
      st.ledger ++ [processedRow e m.id st.nextRecordId] := by
  have hred : processSingle env emailId bm ru emails st =
      ⟨createRecordTail env e m (parseModuleTagFromSubject e.subject).cleanSubject
        (htmlToPlainTextManual (strOr e.body e.bodyPreview))
        (savedLinksManual e.body)
        "Record created from email (manual)" (ru.getD "system") st,
        .ok st.nextRecordId⟩ := by
    unfold processSingle
    split
    · rename_i hn
      rw [hf] at hn
      exact Option.noConfusion hn
    · rename_i e2 hf2
      rw [hf] at hf2
      obtain rfl : e = e2 := Option.some.inj hf2
      rw [if_neg (by rw [h1]; exact Bool.noConfusion)]
      simp only [h2, Bool.false_eq_true, if_false]
      split
      · rename_i hn
        rw [h3] at hn
        exact Option.noConfusion hn
      · rename_i m2 hm2
        rw [h3] at hm2
        obtain rfl : m = m2 := Option.some.inj hm2
        rw [if_neg (by rw [h4]; exact Bool.noConfusion)]
  rw [hred]
  obtain ⟨imgs, docs, hled, hrec, _⟩ :=
    createRecordTail_spec env e m (parseModuleTagFromSubject e.subject).cleanSubject
      (htmlToPlainTextManual (strOr e.body e.bodyPreview))
      (savedLinksManual e.body)
      "Record created from email (manual)" (ru.getD "system") st
  refine ⟨rfl, ?_, hled⟩
  rw [show (⟨createRecordTail env e m
    (parseModuleTagFromSubject e.subject).cleanSubject
    (htmlToPlainTextManual (strOr e.body e.bodyPreview))
    (savedLinksManual e.body)
    "Record created from email (manual)" (ru.getD "system") st,
    .ok st.nextRecordId⟩ : SingleOutcome).st = createRecordTail env e m
    (parseModuleTagFromSubject e.subject).cleanSubject
    (htmlToPlainTextManual (strOr e.body e.bodyPreview))
    (savedLinksManual e.body)
    "Record created from email (manual)" (ru.getD "system") st from rfl, hrec]
  simp

/-- C5, witness: the amended statement at the concrete no-inbox module. -/
theorem c5_witness :
    (mNoInbox.config.getD ⟨false, false⟩).enableEmailInbox = false ∧
    (processSingle env0 "m2" (some "ops") none [eNoTag] st0).result =
      .ok st0.nextRecordId ∧
    (processSingle env0 "m2" (some "ops") none [eNoTag] st0).st.records.length =
      st0.records.length + 1 ∧
    (processSingle env0 "m2" (some "ops") none [eNoTag] st0).st.ledger =
      st0.ledger ++ [processedRow eNoTag mNoInbox.id st0.nextRecordId] :=
  (fun h => ⟨rfl, h.1, h.2.1, h.2.2⟩)
    (c5_single_no_inbox_check env0 "m2" (some "ops") none [eNoTag] st0 eNoTag
      mNoInbox (by decide) (by decide) (by decide) (by decide) (by decide))

/-! ## Claim C9: the `created` history entry -/

theorem historyDescription_zero (base : String) :
    historyDescription base 0 0 0 = base := rfl

theorem historyDescription_att {base : String} {imgs docs : Nat}
    (h1 : 0 < imgs + docs) :
    historyDescription base imgs docs 0 =
      base ++ " with " ++ (toString imgs ++ " image(s) and " ++
        toString docs ++ " document(s)") := by
  unfold historyDescription
  simp [h1]
  rfl

theorem historyDescription_links {base : String} {lks : Nat} (h2 : 0 < lks) :
    historyDescription base 0 0 lks =
      base ++ " with " ++ (toString lks ++ " link(s)") := by
  unfold historyDescription
  simp [h2]
  rfl

theorem historyDescription_both {base : String} {imgs docs lks : Nat}
    (h1 : 0 < imgs + docs) (h2 : 0 < lks) :
    historyDescription base imgs docs lks =
      base ++ " with " ++ ((toString imgs ++ " image(s) and " ++
        toString docs ++ " document(s)") ++ ", " ++
        (toString lks ++ " link(s)")) := by
  unfold historyDescription
  simp [h1, h2]
  rfl

/-- The attachment environment of the C9 counterexample: one non-image
attachment on `m1`, with the uploads directory configured. -/
def attDoc : Attachment := ⟨"a1", "r.pdf", "application/pdf", 10, false, true⟩

/-- Environment delivering `eTagged` with one document attachment. -/
def envDoc : Env :=
  {env0 with uploadsDirSet := true,
             attachFetchOk := fun id => id == "m1",
             attachments := fun id => if id == "m1" then [attDoc] else []}

/-- C9, counterexample: the attachment clause is all-or-nothing — with
one document and zero images the description still carries the zero
image count, `"… with 0 image(s) and 1 document(s)"`, instead of
omitting the zero-count clause. -/
theorem c9_counterexample :
    (autoStep envDoc [mAuto] st0 eTagged).history.map (fun h => h.description) =
      ["Record created from email (auto) with 0 image(s) and 1 document(s)"] ∧
    (autoStep envDoc [mAuto] st0 eTagged).images.length = 0 ∧
    (autoStep envDoc [mAuto] st0 eTagged).documents.length = 1 := by
  exact ⟨by decide, by decide, by decide⟩

/-- C9 (amended): every successful creation writes exactly one `created`
history entry, whose description is `historyDescription` of the pass's
base text and the actual image, document and saved-link counts; the
description is the bare base text when all counts are zero and appends
the link clause only for a positive link count, but the attachment
clause is emitted whenever `images + documents > 0` and then carries
both counts, a zero image or document count included. -/
theorem c9_history_entry :
    (∀ (env : Env) (e : Email) (m : ModuleRow) (cs pt : String)
      (links : List Link) (base user : String) (st : St), ∃ imgs docs : Nat,
      (createRecordTail env e m cs pt links base user st).history =
        st.history ++
          ⟨st.nextRecordId, m.id, "created",
            historyDescription base imgs docs links.length, user, user⟩ ::
          (if env.autoRespondOk e.id then [sentRow e st.nextRecordId m.id]
           else []) ∧
      (createRecordTail env e m cs pt links base user st).images.length =
        st.images.length + imgs ∧
      (createRecordTail env e m cs pt links base user st).documents.length =
        st.documents.length + docs ∧
      ((createRecordTail env e m cs pt links base user st).history.filter
        (fun h => h.action == "created")).length =
        (st.history.filter (fun h => h.action == "created")).length + 1) ∧
    (∀ base : String, historyDescription base 0 0 0 = base) ∧
    (∀ (base : String) (imgs docs : Nat), 0 < imgs + docs →
      historyDescription base imgs docs 0 =
        base ++ " with " ++ (toString imgs ++ " image(s) and " ++
          toString docs ++ " document(s)")) ∧
    (∀ (base : String) (lks : Nat), 0 < lks →
      historyDescription base 0 0 lks =
        base ++ " with " ++ (toString lks ++ " link(s)")) ∧
    (∀ (base : String) (imgs docs lks : Nat), 0 < imgs + docs → 0 < lks →
      historyDescription base imgs docs lks =
        base ++ " with " ++ ((toString imgs ++ " image(s) and " ++
          toString docs ++ " document(s)") ++ ", " ++
          (toString lks ++ " link(s)"))) := by
  refine ⟨?_, historyDescription_zero, fun b i d h => historyDescription_att h,
    fun b l h => historyDescription_links h,
    fun b i d l h1 h2 => historyDescription_both h1 h2⟩
  intro env e m cs pt links base user st
  obtain ⟨imgs, docs, hled, hrec, hhist, hmark, hnext, himg, hdoc, hresp, hlinks⟩ :=
    createRecordTail_spec env e m cs pt links base user st
  refine ⟨imgs, docs, hhist, himg, hdoc, ?_⟩
  rw [hhist]
  rw [List.filter_append]
  by_cases har : env.autoRespondOk e.id = true
  · simp [har, sentRow]
  · simp only [Bool.not_eq_true] at har
    simp [har]

/-- C9, witness: the description formula at concrete counts — bare base
at zero, link clause alone, and the attachment clause carrying a zero
image count. -/
theorem c9_witness :
    historyDescription "Record created from email" 0 0 0 =
      "Record created from email" ∧
    historyDescription "b" 0 0 3 = "b" ++ " with " ++ (toString 3 ++ " link(s)") ∧
    historyDescription "b" 0 2 0 =
      "b" ++ " with " ++ (toString 0 ++ " image(s) and " ++
        toString 2 ++ " document(s)") :=
  ⟨c9_history_entry.2.1 "Record created from email",
   c9_history_entry.2.2.2.1 "b" 3 (by decide),
   c9_history_entry.2.2.1 "b" 0 2 (by decide)⟩

/-! ## Claim C10: rows written by the scheduled pass -/

theorem autoFold_ledger (env : Env) (mods : List ModuleRow) :
    ∀ (emails : List Email) (st : St) (r : LedgerRow),
    r ∈ (emails.foldl (autoStep env mods) st).ledger →
    r ∈ st.ledger ∨ (r.status = .processed ∧ r.moduleId.isSome = true ∧
      r.recordId.isSome = true) := by
  intro emails
  induction emails with
  | nil =>
    intro st r h
    exact Or.inl h
  | cons e rest ih =>
    intro st r h
    rcases ih (autoStep env mods st e) r h with hmem | hgood
    · rcases autoStep_ledger_shape env mods st e with heq | ⟨h1f, mId, hled⟩
      · rw [heq] at hmem
        exact Or.inl hmem
      · rw [hled] at hmem
        rcases List.mem_append.mp hmem with hl | hl
        · exact Or.inl hl
        · rcases List.mem_singleton.mp hl with rfl
          exact Or.inr ⟨rfl, rfl, rfl⟩
    · exact Or.inr hgood

/-- C10: every ledger row the scheduled automatic pass adds is a
`processed` row with a module id and a record id — the pass writes no
`skipped` or `error` rows (tagless or unmatched messages are passed over
silently), so such rows can only come from the manual endpoints. -/
theorem c10_auto_ledger_rows (env : Env) (proc : ProcState) (st : St)
    (r : LedgerRow) (hr : r ∈ (processEmails env proc st).st.ledger)
    (hnew : r ∉ st.ledger) :
    r.status = .processed ∧ r.moduleId.isSome = true ∧
      r.recordId.isSome = true := by
  rcases processEmails_st_shape env proc st with heq | ⟨mods, emails, heq⟩
  · rw [heq] at hr
    exact absurd hr hnew
  · rw [heq] at hr
    rcases autoFold_ledger env mods emails st r hr with hmem | hgood
    · exact absurd hmem hnew
    · exact hgood

/-- Environment delivering the tagged message to the scheduled pass. -/
def envTag : Env := {env0 with fetchResult := some [eTagged]}

/-- C10, witness: the row the concrete pass adds for `m1` is `processed`
with module and record ids. -/
theorem c10_witness :
    processedRow eTagged 1 1 ∈ (processEmails envTag ⟨false, false⟩ st0).st.ledger ∧
    processedRow eTagged 1 1 ∉ st0.ledger ∧
    ((processedRow eTagged 1 1).status = .processed ∧
      (processedRow eTagged 1 1).moduleId.isSome = true ∧
      (processedRow eTagged 1 1).recordId.isSome = true) :=
  ⟨by decide, by decide,
   c10_auto_ledger_rows envTag ⟨false, false⟩ st0 (processedRow eTagged 1 1)
     (by decide) (by decide)⟩

end Barista
